import Mathlib

/-!
# mapper-max-pd: device, endpoint and signal binding

A shallow embedding of `src/mapdevice/map.device.c`, `src/mapin/map.in.c`,
`src/mpr_in/mpr.in.c` and `src/mapdevice/mapdevice.c`.

Conventions of the embedding:

* C pointers to Max objects and to library signals are handles (`Nat`);
  a null pointer is `none`.
* `t_symbol *` values are the symbol names (`String`).
* C `int` conversions are explicit (`c_int`); single precision floats are
  carried as rationals, rounding is not modelled.
* The host (Max patcher tree, obex storage, hashtab notifications) and the
  mapping library (libmapper / libmpr) are outside the repository; they are
  modelled by the small state records below, one function per API call.
-/

namespace MapperMax

/-! ## C integers and floats -/

/-- Conversion of a (wider) integer to C `int` (two's complement, 32 bits). -/
def c_int (v : Int) : Int := (v + 2147483648) % 4294967296 - 2147483648

/-- Conversion of a signed integer to `mpr_id` (`uint64_t`). -/
def c_u64 (v : Int) : Int := v % 18446744073709551616

/-- Conversion `(int)f` of a float: truncation toward zero. The conversion of
a value whose truncation is outside the range of `int` is undefined in C; the
conversion instruction of x86-64 then gives `INT_MIN`, which is what is shown
here. -/
def c_int_of_float (q : Rat) : Int :=
  let t : Int := if 0 ≤ q then q.floor else q.ceil
  if -2147483648 ≤ t ∧ t ≤ 2147483647 then t else -2147483648

/-- The position of the highest set bit of `n` (0 for `n < 2`), with at most
`fuel` halvings. -/
def nat_log2 : Nat → Nat → Nat
  | 0, _ => 0
  | fuel + 1, n => if n < 2 then 0 else nat_log2 fuel (n / 2) + 1

/-- The integer nearest to `a / b`, the even one of the two when `a / b` lies
half-way between them. -/
def round_half_even (a b : Nat) : Nat :=
  let q := a / b
  let r := a % b
  if 2 * r < b then q else if b < 2 * r then q + 1 else if q % 2 = 0 then q else q + 1

/-- The exponent `c` with `2^c <= a / b < 2^(c+1)`, for positive `a`, `b`. -/
def binade (a b : Nat) : Int :=
  let c : Int := (nat_log2 a a : Int) - (nat_log2 b b : Int)
  if b * 2 ^ c.toNat ≤ a * 2 ^ (-c).toNat then c else c - 1

/-- The exponent of the last place of a C `float` (IEEE 754 binary32: 24
significant bits, least exponent -149) in the binade of `a / b`. -/
def float_exp (a b : Nat) : Int :=
  if binade a b - 23 < -149 then -149 else binade a b - 23

/-- The significand of the `float` nearest to `a / b`, in units of the last
place. -/
def float_sig (a b : Nat) : Nat :=
  round_half_even (a * 2 ^ (-(float_exp a b)).toNat) (b * 2 ^ (float_exp a b).toNat)

/-- Conversion of a `double` or of an integer to C `float`: the nearest
binary32 value, ties to the even significand. A value that rounds to 2^128 or
beyond becomes an infinity, which is shown as 2^128 with the sign. -/
def c_float (q : Rat) : Rat :=
  if q.num = 0 then 0
  else
    let e := float_exp q.num.natAbs q.den
    let m := float_sig q.num.natAbs q.den
    if 2 ^ 128 ≤ m * 2 ^ e.toNat then mkRat (q.num.sign * 2 ^ 128) 1
    else mkRat (q.num.sign * ((m * 2 ^ e.toNat : Nat) : Int)) (2 ^ (-e).toNat)

/-- The finite values of a C `float`: a significand below 2^24 in magnitude
times a power of two with exponent from -149 to 104. -/
def is_binary32 (r : Rat) : Prop :=
  ∃ (m e : Int), m.natAbs < 2 ^ 24 ∧ -149 ≤ e ∧ e ≤ 104 ∧ r = (m : Rat) * (2 : Rat) ^ e

/-- The largest finite `float`, (2^24 - 1) * 2^104. -/
def FLT_MAX : Rat := 340282346638528859811704183484516925440

/-! ## Max atoms -/

/-- The atoms of a Max message (`t_atom`): `A_LONG`, `A_FLOAT`, `A_SYM`, `A_OBJ`. -/
inductive t_atom where
  | A_LONG (v : Int)
  | A_FLOAT (v : Rat)
  | A_SYM (s : String)
  | A_OBJ (p : Option Nat)
  deriving DecidableEq, Repr

/-- The `a_type` tag of an atom. -/
inductive e_atomtype where
  | A_LONG | A_FLOAT | A_SYM | A_OBJ
  deriving DecidableEq, Repr

/-- Field `a_type` of an atom. -/
def t_atom.a_type : t_atom → e_atomtype
  | .A_LONG _ => .A_LONG
  | .A_FLOAT _ => .A_FLOAT
  | .A_SYM _ => .A_SYM
  | .A_OBJ _ => .A_OBJ

/-- Max `atom_getlong`: the integer held, a float truncated, 0 otherwise. -/
def atom_getlong : t_atom → Int
  | .A_LONG v => v
  | .A_FLOAT q => if 0 ≤ q then q.floor else q.ceil
  | _ => 0

/-- Max `atom_getfloat`: the float held, an integer converted, 0 otherwise. -/
def atom_getfloat : t_atom → Rat
  | .A_LONG v => v
  | .A_FLOAT q => q
  | _ => 0

/-- The helper `atom_strcmp(a, string) == 0` of the sources: true exactly for
a symbol atom with that name (a non-symbol compares unequal). -/
def atom_streq (a : t_atom) (s : String) : Bool :=
  match a with
  | .A_SYM n => n == s
  | _ => false

/-- The helper `atom_get_string` (`atom_getsym(a)->s_name`); the empty symbol
for a non-symbol atom. -/
def atom_get_string : t_atom → String
  | .A_SYM n => n
  | _ => ""

/-- The test `str[0] == '@'` on a C string. -/
def starts_at (s : String) : Bool :=
  match s.data with
  | c :: _ => c == '@'
  | [] => false

/-- The C expression `str + 1`: the string without its first character. -/
def str_tail (s : String) : String := ⟨s.data.tail⟩

/-! ## Library signals -/

/-- A value of a signal element: `int` or `float`. -/
inductive sig_val where
  | i (v : Int)
  | f (v : Rat)
  deriving DecidableEq, Repr

/-- The value of a signal property as handed to the library. -/
inductive prop_val where
  | i (v : Int)
  | f (v : Rat)
  | s (v : String)
  deriving DecidableEq, Repr

/-- Which property a set-property call addresses: `MPR_PROP_MIN`,
`MPR_PROP_MAX`, or `MPR_PROP_UNKNOWN` with a name. -/
inductive prop_key where
  | MPR_PROP_MIN
  | MPR_PROP_MAX
  | named (name : String)
  deriving DecidableEq, Repr

/-- One set-property call on a signal: key, type character, value vector. -/
structure sig_prop where
  key : prop_key
  type : Char
  value : List prop_val
  deriving DecidableEq, Repr

/-- One instance of a signal in the library: its id, its user data (the
owning Max object, null when unclaimed), whether it is active, the order stamp
of its activation, and its current value. -/
structure sig_inst where
  id : Int
  data : Option Nat
  active : Bool
  created : Nat
  value : List sig_val
  deriving DecidableEq, Repr

/-- Direction of a signal (`mpr_dir`); `MPR_DIR_ANY` only occurs as a query. -/
inductive mpr_dir where
  | MPR_DIR_IN | MPR_DIR_OUT | MPR_DIR_ANY
  deriving DecidableEq, Repr

/-- Steal mode of a signal (`MPR_PROP_STEAL_MODE`): 0, oldest, newest, or any
other integer. -/
inductive steal_mode where
  | none | MPR_STEAL_OLDEST | MPR_STEAL_NEWEST | other
  deriving DecidableEq, Repr

/-- The struct `t_map_ptrs` attached to a signal as `MPR_PROP_DATA`. -/
structure t_map_ptrs where
  home : Nat
  num_objs : Nat
  objs : List Nat
  deriving DecidableEq, Repr

/-- A signal of the library device. `handle` stands for the pointer value
`mpr_sig`; `data` is the property `MPR_PROP_DATA`, which
`mapdevice_add_signal` sets right after `mpr_sig_new` (the only place where a
signal is created), so every signal of a device carries it; `value` is the
value of the signal when written without an instance id. -/
structure mpr_sig where
  handle : Nat
  dir : mpr_dir
  name : String
  len : Int
  type : Char
  data : t_map_ptrs
  insts : List sig_inst
  props : List sig_prop
  steal : steal_mode
  value : List sig_val
  deriving DecidableEq, Repr

/-- A call into the library that the device or an endpoint made, in order:
queue start / send, a value write (with or without instance id), an instance
release, a property push, and the `mpr_sig_set_value(sig, inst, len, type,
value)` of `mpr.in.c`. -/
inductive lib_call where
  | start_queue (tt : Nat)
  | send_queue (tt : Nat)
  | update (sig : Nat) (inst : Option Int) (value : List sig_val) (count : Int) (tt : Option Nat)
  | release (sig : Nat) (inst : Int) (tt : Option Nat)
  | sig_push (sig : Nat)
  | set_value (sig : Nat) (inst : Int) (len : Int) (type : Char) (value : List sig_val)
  deriving DecidableEq, Repr

/-- The library device (`mpr_dev`): its signals in creation order, the next
free signal handle, the calls made so far, and the properties set on the
device itself. -/
structure mpr_dev where
  sigs : List mpr_sig
  next_sig : Nat
  calls : List lib_call
  props : List sig_prop
  deriving DecidableEq, Repr

/-- Query `mpr_dev_get_sigs(dev, dir)`. -/
def mpr_dev_get_sigs (d : mpr_dev) (dir : mpr_dir) : List mpr_sig :=
  match dir with
  | .MPR_DIR_ANY => d.sigs
  | dir => d.sigs.filter (fun s => s.dir = dir)

/-- Query `mpr_list_filter(list, MPR_PROP_NAME, NULL, 1, MPR_STR, name, MPR_OP_EQ)`. -/
def mpr_list_filter_name (l : List mpr_sig) (name : String) : List mpr_sig :=
  l.filter (fun s => s.name = name)

/-- Library `mpr_sig_new` with a null instance count: a new signal with the
single default instance 0, which has no user data. -/
def mpr_sig_new (d : mpr_dev) (dir : mpr_dir) (name : String) (len : Int) (type : Char) :
    mpr_dev × mpr_sig :=
  let s : mpr_sig :=
    { handle := d.next_sig, dir := dir, name := name, len := len, type := type,
      data := { home := 0, num_objs := 0, objs := [] },
      insts := [{ id := 0, data := none, active := false, created := 0, value := [] }],
      props := [], steal := .none, value := [] }
  ({ d with sigs := d.sigs ++ [s], next_sig := d.next_sig + 1 }, s)

/-- Replace the signal with the given handle by `f` of it. -/
def mpr_dev.modify_sig (d : mpr_dev) (h : Nat) (f : mpr_sig → mpr_sig) : mpr_dev :=
  { d with sigs := d.sigs.map (fun s => if s.handle = h then f s else s) }

/-- Library `mpr_sig_free`: the signal leaves the device. -/
def mpr_sig_free (d : mpr_dev) (h : Nat) : mpr_dev :=
  { d with sigs := d.sigs.filter (fun s => s.handle ≠ h) }

/-- Look a signal up by its handle. -/
def mpr_dev.find_sig (d : mpr_dev) (h : Nat) : Option mpr_sig :=
  d.sigs.find? (fun s => s.handle = h)

/-! ### Instances of a signal -/

/-- Library `msig_get_instance_data` / `mpr_sig_get_inst_data`: the user data
of the instance with this id, null when there is none. -/
def sig_get_inst_data (s : mpr_sig) (id : Int) : Option Nat :=
  match s.insts.find? (fun n => n.id = id) with
  | some n => n.data
  | none => none

/-- Library `msig_remove_instance` / `mpr_sig_remove_inst`. -/
def sig_remove_inst (s : mpr_sig) (id : Int) : mpr_sig :=
  { s with insts := s.insts.filter (fun n => n.id ≠ id) }

/-- Library `msig_reserve_instances(sig, 1, &id, &data)` /
`mpr_sig_reserve_inst`: reserve one instance with the given id and user data;
an id that is already reserved is skipped. -/
def sig_reserve_inst (s : mpr_sig) (id : Int) (data : Option Nat) : mpr_sig :=
  if s.insts.any (fun n => n.id = id) then s
  else { s with insts := s.insts ++
          [{ id := id, data := data, active := false, created := 0, value := [] }] }

/-- Library `mpr_sig_get_num_inst(sig, MPR_STATUS_ALL)`. -/
def mpr_sig_get_num_inst (s : mpr_sig) : Nat := s.insts.length

/-- Library `msig_set_property` / `mpr_obj_set_prop` on a signal: the call is
recorded, in order, in the property list of the signal. -/
def sig_set_prop (s : mpr_sig) (key : prop_key) (type : Char) (value : List prop_val) :
    mpr_sig :=
  { s with props := s.props ++ [{ key := key, type := type, value := value }] }

/-! ## The endpoint object of `map.in.c` -/

/-- A container of the host (a Max patcher), named by the path from it up to
the top-level patcher: the head is the position of the patcher in its parent,
the tail is the parent patcher, the empty path is the top-level patcher. -/
abbrev t_patcher := List Nat

/-- Host `jpatcher_get_parentpatcher`: null at the top-level patcher. -/
def jpatcher_get_parentpatcher : t_patcher → Option t_patcher
  | [] => none
  | _ :: parent => some parent

/-- The struct `t_mapin` of `map.in.c`. `myobjname` (the unique registered
name) also stands for the object pointer. `classname` is the class of the
object (`object_classname`), `patcher` the patcher holding the box (`#P`),
`poly_index` the index the host reports for an enclosing poly~ (null when
there is none), `args` the cached arguments (`num_args` is their number). -/
structure t_mapin where
  myobjname : Nat
  classname : String
  patcher : t_patcher
  poly_index : Option Int
  sig_name : String
  sig_length : Int
  sig_type : Char
  dev_obj : Option Nat
  sig_ptr : Option Nat
  tt_ptr : Option Nat
  sig_props : Option Nat
  is_instance : Int
  instance_id : Int
  ht : Option Nat
  args : List t_atom
  deriving DecidableEq, Repr

/-- The part of `parse_extra_properties` (`map.in.c`) that follows a
resolved instance id: remove the default instance 0 unless it has user data,
mark the endpoint as instanced, reserve the instance with the endpoint as user
data. -/
def mapin_reserve (x : t_mapin) (s : mpr_sig) : t_mapin × mpr_sig :=
  let data := sig_get_inst_data s 0
  let s1 := if data.isNone then sig_remove_inst s 0 else s
  ({ x with is_instance := 1 }, sig_reserve_inst s1 x.instance_id (some x.myobjname))

/-- The loop of `parse_extra_properties` in `map.in.c`, on the arguments from
index `i` on (`x->args + i`): fewer than two atoms left is the exit
`i > num_args - 2`; a recursive call on `b :: rest` is `continue` (or the end
of the body) without the extra `i++`, a call on `rest` is one with it. -/
def mapin_parse_loop : List t_atom → t_mapin → mpr_sig → t_mapin × mpr_sig
  | [], x, s => (x, s)
  | [_], x, s => (x, s)
  | a :: b :: rest, x, s =>
    if a.a_type ≠ .A_SYM then (x, s)
    else if atom_streq a "@name" || atom_streq a "@type" || atom_streq a "@length" then
      mapin_parse_loop rest x s
    else if atom_streq a "@instance" then
      if b.a_type = .A_SYM && atom_streq b "polyindex" then
        match x.poly_index with
        | some idx =>
          let r := mapin_reserve { x with instance_id := c_int idx } s
          mapin_parse_loop rest r.1 r.2
        | none => mapin_parse_loop (b :: rest) x s
      else if b.a_type = .A_LONG then
        let r := mapin_reserve { x with instance_id := c_int (atom_getlong b) } s
        mapin_parse_loop rest r.1 r.2
      else mapin_parse_loop (b :: rest) x s
    else if starts_at (atom_get_string a) then
      match b with
      | .A_SYM v =>
        mapin_parse_loop rest x
          (sig_set_prop s (.named (str_tail (atom_get_string a))) 's' [.s v])
      | .A_FLOAT v =>
        mapin_parse_loop rest x
          (sig_set_prop s (.named (str_tail (atom_get_string a))) 'f' [.f (c_float v)])
      | .A_LONG v =>
        mapin_parse_loop rest x
          (sig_set_prop s (.named (str_tail (atom_get_string a))) 'i' [.i (c_int v)])
      | .A_OBJ _ => mapin_parse_loop (b :: rest) x s
    else mapin_parse_loop (b :: rest) x s

/-- Function `parse_extra_properties` of `map.in.c`, acting on the endpoint
and on the signal `x->sig_ptr` points to. -/
def mapin_parse_extra_properties (x : t_mapin) (s : mpr_sig) : t_mapin × mpr_sig :=
  mapin_parse_loop x.args x s

/-! ## The device object of `map.device.c` -/

/-- Capacity of the atom buffer of the device. -/
def MAX_LIST : Nat := 256

/-- The struct `t_mapdevice` of `map.device.c`. `id` stands for the object
pointer; `outlet` lists the messages sent out of the outlet (selector and
atoms), oldest first; `device` is the library device with its signals;
`iface` is the network interface set on `graph` (null when none was given). -/
structure t_mapdevice where
  id : Nat
  outlet : List (String × List t_atom)
  ht : Option Nat
  name : String
  device : mpr_dev
  timetag : Nat
  updated : Int
  ready : Int
  buffer : List t_atom
  patcher : Option t_patcher
  iface : Option String
  deriving DecidableEq, Repr

/-- C `realloc(objs, n * sizeof(t_object *))`: the first `n` cells are kept,
cells beyond the old block are fresh (modelled as 0). -/
def realloc_objs (objs : List Nat) (n : Nat) : List Nat :=
  objs.take n ++ List.replicate (n - objs.length) 0

/-- Attribute setter `set_dev_obj` of `map.in.c`. -/
def set_dev_obj (x : t_mapin) (argv : List t_atom) : t_mapin :=
  match argv with
  | .A_OBJ p :: _ => { x with dev_obj := p }
  | _ => x

/-- Attribute setter `set_tt_ptr` of `map.in.c`. -/
def set_tt_ptr (x : t_mapin) (argv : List t_atom) : t_mapin :=
  match argv with
  | .A_OBJ p :: _ => { x with tt_ptr := p }
  | _ => x

/-- Attribute setter `set_sig_ptr` of `map.in.c`: store the pointer and, when
it is not null, parse the cached arguments against the signal (which lives in
the library device `d`). -/
def set_sig_ptr (x : t_mapin) (argv : List t_atom) (d : mpr_dev) : t_mapin × mpr_dev :=
  match argv with
  | .A_OBJ p :: _ =>
    let x1 := { x with sig_ptr := p }
    match p with
    | none => (x1, d)
    | some h =>
      match d.find_sig h with
      | none => (x1, d)
      | some s =>
        let r := mapin_parse_extra_properties x1 s
        (r.1, d.modify_sig h (fun _ => r.2))
  | _ => (x, d)

/-- The direction `mapdevice_add_signal` derives from the class of the
object; null (`return`) for any other class. -/
def dir_of_class (cls : String) : Option mpr_dir :=
  if cls = "map.out" then some .MPR_DIR_OUT
  else if cls = "map.in" then some .MPR_DIR_IN
  else none

/-- Function `mapdevice_add_signal` of `map.device.c` for a non-null object.
The three `object_attr_setvalueof` calls run the attribute setters of the
endpoint; the pointer `&x->timetag` is the pointer to the device. The host
call `object_attach_byptr` keeps no state here. -/
def mapdevice_add_signal (x : t_mapdevice) (obj : t_mapin) : t_mapdevice × t_mapin :=
  match dir_of_class obj.classname with
  | none => (x, obj)
  | some dir =>
    let list := mpr_list_filter_name (mpr_dev_get_sigs x.device .MPR_DIR_ANY) obj.sig_name
    let r : mpr_dev × Nat :=
      match list with
      | sig :: _ =>
        let ptrs := sig.data
        let objs := (realloc_objs ptrs.objs (ptrs.num_objs + 1)).set ptrs.num_objs obj.myobjname
        (x.device.modify_sig sig.handle
          (fun s => { s with data := { ptrs with objs := objs, num_objs := ptrs.num_objs + 1 } }),
         sig.handle)
      | [] =>
        let ptrs : t_map_ptrs := { home := x.id, objs := [obj.myobjname], num_objs := 1 }
        let n := mpr_sig_new x.device dir obj.sig_name (c_int obj.sig_length) obj.sig_type
        (n.1.modify_sig n.2.handle (fun s => { s with data := ptrs }), n.2.handle)
    let count : Int := (mpr_dev_get_sigs r.1 dir).length
    let buf1 := x.buffer.set 0 (.A_LONG count)
    let sel := if dir = .MPR_DIR_OUT then "numOutputs" else "numInputs"
    let out := x.outlet ++ [(sel, buf1.take 1)]
    let buf2 := buf1.set 0 (.A_OBJ (some x.id))
    let obj1 := set_dev_obj obj (buf2.take 1)
    let buf3 := buf2.set 0 (.A_OBJ (some r.2))
    let p := set_sig_ptr obj1 (buf3.take 1) r.1
    let buf4 := buf3.set 0 (.A_OBJ (some x.id))
    let obj3 := set_tt_ptr p.1 (buf4.take 1)
    ({ x with device := p.2, outlet := out, buffer := buf4 }, obj3)

/-- The search loop of `mapdevice_remove_signal`:
`for (i = 0; i < num_objs; i++) if (objs[i] == obj) break;` from index `i`,
with at most `fuel` iterations left. -/
def find_obj_loop (objs : List Nat) (num_objs obj : Nat) : Nat → Nat → Nat
  | 0, i => i
  | fuel + 1, i =>
    if i < num_objs then
      if objs[i]? = some obj then i else find_obj_loop objs num_objs obj fuel (i + 1)
    else i

/-- The shifting loop of `mapdevice_remove_signal`:
`for (; i < num_objs; i++) objs[i-1] = objs[i];` from index `i`. -/
def shift_loop (num_objs : Nat) : Nat → Nat → List Nat → List Nat
  | 0, _, objs => objs
  | fuel + 1, i, objs =>
    if i < num_objs then shift_loop num_objs fuel (i + 1) (objs.set (i - 1) (objs.getD i 0))
    else objs

/-- The `else` branch of `mapdevice_remove_signal` on the endpoint list:
null when the object is not found (`i == num_objs`, the list is left as it
is), otherwise the list with the cells shifted, the block shrunk and the
count decremented. The loops run at most `num_objs` times. -/
def remove_obj (ptrs : t_map_ptrs) (obj : Nat) : Option t_map_ptrs :=
  let i := find_obj_loop ptrs.objs ptrs.num_objs obj ptrs.num_objs 0
  if i = ptrs.num_objs then none
  else
    let objs := shift_loop ptrs.num_objs ptrs.num_objs (i + 1) ptrs.objs
    some { ptrs with objs := realloc_objs objs (ptrs.num_objs - 1),
                     num_objs := ptrs.num_objs - 1 }

/-- Function `mapdevice_remove_signal` of `map.device.c` for a non-null object. -/
def mapdevice_remove_signal (x : t_mapdevice) (obj : t_mapin) : t_mapdevice :=
  let list := mpr_list_filter_name (mpr_dev_get_sigs x.device .MPR_DIR_ANY) obj.sig_name
  match list with
  | [] => x
  | sig :: _ =>
    let ptrs := sig.data
    if ptrs.num_objs = 1 then { x with device := mpr_sig_free x.device sig.handle }
    else
      match remove_obj ptrs obj.myobjname with
      | none => x
      | some ptrs1 =>
        { x with device := x.device.modify_sig sig.handle (fun s => { s with data := ptrs1 }) }

/-! ## Value messages of `map.in.c` and the update queue -/

/-- Library `msig_update(sig, value, count, tt)`: the value of the signal is
written (no instance id is given). -/
def sig_update (s : mpr_sig) (value : List sig_val) : mpr_sig :=
  { s with value := value }

/-- Library `msig_update_instance(sig, id, value, count, tt)`: the value of
the instance with this id is written; the other instances are untouched. -/
def sig_update_inst (s : mpr_sig) (id : Int) (value : List sig_val) : mpr_sig :=
  { s with insts := s.insts.map (fun n => if n.id = id then { n with value := value } else n) }

/-- Library `msig_release_instance` / `mpr_sig_release_inst`: the instance
with this id is no longer active. -/
def sig_release_inst (s : mpr_sig) (id : Int) : mpr_sig :=
  { s with insts := s.insts.map (fun n => if n.id = id then { n with active := false } else n) }

/-- Function `mapdevice_maybe_start_queue` of `map.device.c`; `now` is what
`mpr_time_now` reads. -/
def mapdevice_maybe_start_queue (x : t_mapdevice) (now : Nat) : t_mapdevice :=
  if x.updated = 0 then
    { x with timetag := now,
             device := { x.device with calls := x.device.calls ++ [.start_queue now] },
             updated := 1 }
  else x

/-- Function `check_ptrs` of `map.in.c`: 1 when the device or the signal
pointer is null; otherwise 0, with the properties pointer cached. -/
def check_ptrs (x : t_mapin) : t_mapin × Int :=
  if x.dev_obj.isNone || x.sig_ptr.isNone then (x, 1)
  else if x.sig_props.isNone then ({ x with sig_props := x.sig_ptr }, 0)
  else (x, 0)

/-- The common tail of `mapin_int` and `mapin_float`: start the queue on the
device, then write `value` to the instance of the endpoint when that is
marked as instanced, to the signal otherwise, with `count` 1 and the timetag
read through `tt_ptr`. -/
def mapin_write (x : t_mapin) (dv : t_mapdevice) (now : Nat) (h : Nat)
    (value : List sig_val) : t_mapdevice :=
  let dv1 := mapdevice_maybe_start_queue dv now
  let tt : Option Nat := x.tt_ptr.map (fun _ => dv1.timetag)
  if x.is_instance ≠ 0 then
    { dv1 with device :=
        { dv1.device.modify_sig h (fun s => sig_update_inst s x.instance_id value) with
          calls := dv1.device.calls ++ [.update h (some x.instance_id) value 1 tt] } }
  else
    { dv1 with device :=
        { dv1.device.modify_sig h (fun s => sig_update s value) with
          calls := dv1.device.calls ++ [.update h none value 1 tt] } }

/-- Method `mapin_int` of `map.in.c`; `dv` is the device object `dev_obj`
points to, which holds the signal `sig_ptr` points to; length and type are
read through the cached properties pointer `sig_props`. A signal that is
neither of type i nor f leaves the value pointer null (an empty value here).
The C locals `i` and `f` the value pointer refers to are read after their
block has ended; the value is taken to be still there. -/
def mapin_int (x : t_mapin) (dv : t_mapdevice) (now : Nat) (l : Int) :
    t_mapin × t_mapdevice :=
  let c := check_ptrs x
  if c.2 ≠ 0 then (c.1, dv)
  else
    match c.1.sig_ptr, c.1.sig_props with
    | some h, some hp =>
      match dv.device.find_sig hp with
      | none => (c.1, dv)
      | some s =>
        if s.len ≠ 1 then (c.1, dv)
        else
          let value : List sig_val :=
            if s.type = 'i' then [.i (c_int l)]
            else if s.type = 'f' then [.f (c_float (l : Rat))]
            else []
          (c.1, mapin_write c.1 dv now h value)
    | _, _ => (c.1, dv)

/-- Method `mapin_float` of `map.in.c`. -/
def mapin_float (x : t_mapin) (dv : t_mapdevice) (now : Nat) (d : Rat) :
    t_mapin × t_mapdevice :=
  let c := check_ptrs x
  if c.2 ≠ 0 then (c.1, dv)
  else
    match c.1.sig_ptr, c.1.sig_props with
    | some h, some hp =>
      match dv.device.find_sig hp with
      | none => (c.1, dv)
      | some s =>
        if s.len ≠ 1 then (c.1, dv)
        else
          let value : List sig_val :=
            if s.type = 'f' then [.f (c_float d)]
            else if s.type = 'i' then [.i (c_int_of_float d)]
            else []
          (c.1, mapin_write c.1 dv now h value)
    | _, _ => (c.1, dv)

/-! ## The endpoint object of `mpr.in.c` -/

/-- The struct `t_mpr_in` of `mpr.in.c`. `patcher` is the patcher cached at
construction (null when the host gave none), `poly_index` the index the
host reports for an enclosing poly~, `args` the cached atom array. -/
structure t_mpr_in where
  myobjname : Nat
  patcher : Option t_patcher
  poly_index : Option Int
  sig_name : String
  sig_length : Int
  sig_type : Char
  dev_obj : Option Nat
  sig_ptr : Option Nat
  is_instanced : Int
  instance_id : Int
  ht : Option Nat
  args : List t_atom
  connect_state : Int
  length : Int
  type : Char
  deriving DecidableEq, Repr

/-- Helper `atom_coerce_int` of `mpr.in.c`. -/
def atom_coerce_int : t_atom → Int
  | .A_LONG v => c_int v
  | .A_FLOAT q => c_int_of_float q
  | _ => 0

/-- Helper `atom_coerce_float` of `mpr.in.c`; the result is a C `float`. -/
def atom_coerce_float : t_atom → Rat
  | .A_LONG v => c_float v
  | .A_FLOAT q => c_float q
  | _ => 0

/-- The inner loop of `parse_extra_properties` (`mpr.in.c`) that finds length
and type of a property value, on the atoms from `argv + i` on; the state is
(`length`, `type`, `heterogeneous_types`), `type` 0 being null. -/
def value_run : List t_atom → Nat × Option e_atomtype × Nat → Nat × Option e_atomtype × Nat
  | [], st => st
  | a :: rest, (length, type, het) =>
    if a.a_type = .A_SYM && starts_at (atom_get_string a) then (length, type, het)
    else
      match type with
      | none => value_run rest (length + 1, some a.a_type, het)
      | some t =>
        if t ≠ a.a_type then
          if (t = .A_LONG ∧ a.a_type = .A_FLOAT) ∨ (t = .A_FLOAT ∧ a.a_type = .A_LONG) then
            value_run rest (length + 1, some .A_FLOAT, 1)
          else value_run rest (length + 1, some t, 2)
        else value_run rest (length + 1, some t, het)

/-- The loops `for (j = 0, k = 0; j < x->sig_length; j++, k++)` of the
extremum branch: `n` cells are still to be filled, `k` is the value index
before the wrap-around test. -/
def cycle_vals (argv : List t_atom) (i length : Nat) : Nat → Nat → List Int
  | 0, _ => []
  | n + 1, k =>
    let k1 := if k ≥ length then 0 else k
    atom_coerce_int (argv.getD (i + k1) (.A_LONG 0)) :: cycle_vals argv i length n (k1 + 1)

/-- The instance branch of `parse_extra_properties` (`mpr.in.c`) once the id
is resolved. -/
def mpr_in_reserve (x : t_mpr_in) (s : mpr_sig) : t_mpr_in × mpr_sig :=
  let data := sig_get_inst_data s 0
  let s1 := if data.isNone then sig_remove_inst s 0 else s
  ({ x with is_instanced := 1 }, sig_reserve_inst s1 x.instance_id (some x.myobjname))

/-- The body of the loop of `parse_extra_properties` (`mpr.in.c`) for a
property `prop_name` whose value starts at index `i` and has the given
length and type. The index after the body is `i + length` in every case. -/
def mpr_in_set_property (x : t_mpr_in) (s : mpr_sig) (argv : List t_atom) (prop_name : String)
    (i length : Nat) (type : Option e_atomtype) : t_mpr_in × mpr_sig :=
  let first := argv.getD i (.A_LONG 0)
  if prop_name = "instance" then
    if first.a_type = .A_SYM && atom_streq first "polyindex" then
      match x.poly_index with
      | some idx => mpr_in_reserve { x with instance_id := c_u64 idx } s
      | none => mpr_in_reserve x s
    else if first.a_type = .A_LONG then
      mpr_in_reserve { x with instance_id := c_u64 (atom_getlong first) } s
    else (x, s)
  else if prop_name = "minimum" ∨ prop_name = "min" ∨ prop_name = "maximum"
      ∨ prop_name = "max" then
    let extremum : prop_key :=
      if prop_name.data.getD 1 (Char.ofNat 0) = 'i' then .MPR_PROP_MIN else .MPR_PROP_MAX
    if type ≠ some .A_LONG ∧ type ≠ some .A_FLOAT then (x, s)
    else if x.sig_type = 'i' then
      (x, sig_set_prop s extremum 'i'
        ((cycle_vals argv i length x.sig_length.toNat 0).map (fun v => prop_val.i v)))
    else if x.sig_type = 'f' then
      (x, sig_set_prop s extremum 'f'
        ((cycle_vals argv i length x.sig_length.toNat 0).map
          (fun v => prop_val.f (c_float (v : Rat)))))
    else (x, s)
  else
    match type with
    | some .A_SYM =>
      (x, sig_set_prop s (.named prop_name) 's'
        (((argv.drop i).take length).map (fun a => prop_val.s (atom_get_string a))))
    | some .A_FLOAT =>
      (x, sig_set_prop s (.named prop_name) 'f'
        (((argv.drop i).take length).map (fun a => prop_val.f (atom_coerce_float a))))
    | some .A_LONG =>
      (x, sig_set_prop s (.named prop_name) 'i'
        (((argv.drop i).take length).map (fun a => prop_val.i (atom_coerce_int a))))
    | _ => (x, s)

/-- The loop `for (i = 0; i < argc;)` of `parse_extra_properties`
(`mpr.in.c`) from index `i`, with at most `fuel` iterations left; every
iteration advances `i`, so `argc` iterations are enough. -/
def mpr_in_parse_loop (argv : List t_atom) : Nat → Nat → t_mpr_in → mpr_sig →
    t_mpr_in × mpr_sig
  | 0, _, x, s => (x, s)
  | fuel + 1, i, x, s =>
    if ¬ (i < argv.length) then (x, s)
    else if i + 2 > argv.length then (x, s)
    else
      let a := argv.getD i (.A_LONG 0)
      if a.a_type ≠ .A_SYM then mpr_in_parse_loop argv fuel (i + 1) x s
      else
        let name := atom_get_string a
        if ¬ starts_at name ∨ name = "@name" ∨ name = "@type" ∨ name = "@length" then
          mpr_in_parse_loop argv fuel (i + 1) x s
        else
          let prop_name := str_tail name
          let i1 := i + 1
          let run := value_run (argv.drop i1) (0, none, 0)
          if run.1 = 0 then mpr_in_parse_loop argv fuel i1 x s
          else if run.2.2 = 2 then mpr_in_parse_loop argv fuel (i1 + run.1) x s
          else
            let r := mpr_in_set_property x s argv prop_name i1 run.1 run.2.1
            mpr_in_parse_loop argv fuel (i1 + run.1) r.1 r.2

/-- Function `parse_extra_properties` of `mpr.in.c` on the endpoint and the
signal `x->sig_ptr` points to (the closing `mpr_obj_push` publishes the
properties and changes nothing here). -/
def mpr_in_parse_extra_properties (x : t_mpr_in) (argv : List t_atom) (s : mpr_sig) :
    t_mpr_in × mpr_sig :=
  mpr_in_parse_loop argv argv.length 0 x s

/-! ## Signal events (`map.device.c`, `mapdevice.c`) -/

/-- The events the library reports to the signal handler. -/
inductive mpr_sig_evt where
  | MPR_SIG_UPDATE | MPR_SIG_REL_UPSTRM | MPR_SIG_REL_DNSTRM | MPR_SIG_INST_OFLW | other
  deriving DecidableEq, Repr

/-- What an object sends out of its outlet: `outlet_list`, `outlet_int`,
`outlet_float`. -/
inductive out_msg where
  | list (atoms : List t_atom)
  | int (v : Int)
  | float (v : Rat)
  deriving DecidableEq, Repr

/-- The active instance the library reports as the oldest: the one with the
least activation stamp, the first of them when stamps tie. -/
def oldest_active (l : List sig_inst) : Option sig_inst :=
  (l.filter (fun n => n.active)).foldl
    (fun acc n => match acc with
      | none => some n
      | some m => if n.created < m.created then some n else some m) none

/-- The active instance the library reports as the newest. -/
def newest_active (l : List sig_inst) : Option sig_inst :=
  (l.filter (fun n => n.active)).foldl
    (fun acc n => match acc with
      | none => some n
      | some m => if m.created < n.created then some n else some m) none

/-- Library `mpr_sig_get_oldest_inst_id`: the id of the oldest active one
of the instances, 0 when no instance is active. -/
def mpr_sig_get_oldest_inst_id (s : mpr_sig) : Int :=
  match oldest_active s.insts with
  | some n => n.id
  | none => 0

/-- Library `mpr_sig_get_newest_inst_id`: the id of the newest active one
of the instances, 0 when no instance is active. -/
def mpr_sig_get_newest_inst_id (s : mpr_sig) : Int :=
  match newest_active s.insts with
  | some n => n.id
  | none => 0

/-- Library `msig_get_oldest_active_instance(sig, &id)`: status 0 and the id
when an instance is active, a non-zero status otherwise. -/
def msig_get_oldest_active_instance (s : mpr_sig) : Int × Int :=
  match oldest_active s.insts with
  | some n => (0, n.id)
  | none => (1, 0)

/-- Library `msig_get_newest_active_instance(sig, &id)`. -/
def msig_get_newest_active_instance (s : mpr_sig) : Int × Int :=
  match newest_active s.insts with
  | some n => (0, n.id)
  | none => (1, 0)

/-- Helper `outlet_data` of `map.device.c` on the atoms `atoms` points to.
Null stands for a read of a cell that is not there: `outlet_list` reads
`length` cells, `atom_getlong` / `atom_getfloat` read the first one. -/
def outlet_data (type : Char) (length : Int) (atoms : List t_atom) : Option out_msg :=
  if length > 1 then
    if length.toNat ≤ atoms.length then some (.list (atoms.take length.toNat)) else none
  else
    match atoms with
    | a :: _ => if type = 'i' then some (.int (atom_getlong a)) else some (.float (atom_getfloat a))
    | [] => none

/-- The loops `for (i = 0; i < len; i++) atom_setlong / atom_setfloat(x->buffer + i, v[i])`
of the signal handler, from index `i` with `n` cells to go, on the cells of
`x->buffer`. Null stands for an access outside an array: a write to a cell
past the end of the buffer, or a read past the end of the value. -/
def fill_buffer (val : List sig_val) : Nat → Nat → List t_atom → Option (List t_atom)
  | 0, _, buf => some buf
  | n + 1, i, buf =>
    match val[i]? with
    | none => none
    | some e =>
      if i < buf.length then
        let a : t_atom :=
          match e with
          | .i v => .A_LONG v
          | .f v => .A_FLOAT v
        fill_buffer val n (i + 1) (buf.set i a)
      else none

/-- Release of an instance by the device: the library call is recorded and
the instance is no longer active. -/
def device_release_inst (x : t_mapdevice) (h : Nat) (inst : Int) (time : Nat) : t_mapdevice :=
  { x with device :=
      { x.device.modify_sig h (fun s => sig_release_inst s inst) with
        calls := x.device.calls ++ [.release h inst (some time)] } }

/-- Function `mapdevice_sig_handler` of `map.device.c` for the signal with
handle `h` of the device `x` (`ptrs->home`). `val` is null for an update
without value. The result is the device and the messages sent, each with the
object whose outlet sends it; null stands for the dereference of a null
object pointer or for an access outside the buffer or the value array. -/
def mapdevice_sig_handler (x : t_mapdevice) (h : Nat) (evt : mpr_sig_evt) (inst : Int)
    (len : Int) (type : Char) (val : Option (List sig_val)) (time : Nat) :
    Option (t_mapdevice × List (Nat × out_msg)) :=
  match x.device.find_sig h with
  | none => none
  | some sig =>
    let ptrs := sig.data
    let obj : Option Nat :=
      if mpr_sig_get_num_inst sig > 1 then sig_get_inst_data sig inst else none
    match evt with
    | .MPR_SIG_UPDATE =>
      match val with
      | some v =>
        let len1 : Int := if len > (MAX_LIST : Int) then (MAX_LIST : Int) else len
        let filled :=
          if type = 'i' ∨ type = 'f' then fill_buffer v len1.toNat 0 x.buffer
          else some x.buffer
        match filled with
        | none => none
        | some buf =>
          let x1 := { x with buffer := buf }
          let dest : List Nat :=
            match obj with
            | some o => [o]
            | none => ptrs.objs.take ptrs.num_objs
          if dest = [] then some (x1, [])
          else
            match outlet_data type len1 buf with
            | none => none
            | some msg => some (x1, dest.map (fun o => (o, msg)))
      | none =>
        match obj with
        | some o =>
          let buf := (x.buffer.set 0 (.A_SYM "release")).set 1 (.A_SYM "local")
          some ({ x with buffer := buf }, [(o, .list (buf.take 2))])
        | none => some (x, [])
    | .MPR_SIG_REL_UPSTRM =>
      let buf := (x.buffer.set 0 (.A_SYM "release")).set 1 (.A_SYM "upstream")
      match obj with
      | some o => some ({ x with buffer := buf }, [(o, .list (buf.take 2))])
      | none => none
    | .MPR_SIG_REL_DNSTRM =>
      let buf := (x.buffer.set 0 (.A_SYM "release")).set 1 (.A_SYM "downstream")
      match obj with
      | some o => some ({ x with buffer := buf }, [(o, .list (buf.take 2))])
      | none => none
    | .MPR_SIG_INST_OFLW =>
      let buf := x.buffer.set 0 (.A_LONG inst)
      let x1 := { x with buffer := buf }
      match sig.steal with
      | .MPR_STEAL_OLDEST =>
        let inst1 := mpr_sig_get_oldest_inst_id sig
        if inst1 ≠ 0 then some (device_release_inst x1 h inst1 time, []) else some (x1, [])
      | .MPR_STEAL_NEWEST =>
        let inst1 := mpr_sig_get_newest_inst_id sig
        if inst1 ≠ 0 then some (device_release_inst x1 h inst1 time, []) else some (x1, [])
      | .none =>
        let buf1 := buf.set 1 (.A_SYM "overflow")
        some ({ x with buffer := buf1 },
          (ptrs.objs.take ptrs.num_objs).map (fun o => (o, .list (buf1.take 2))))
      | .other => some (x1, [])
    | .other => some (x, [])

/-- The instance events of `mapdevice.c`. -/
inductive msig_instance_event_t where
  | IN_UPSTREAM_RELEASE | IN_DOWNSTREAM_RELEASE | IN_OVERFLOW | other
  deriving DecidableEq, Repr

/-- Function `mapdevice_instance_event_handler` of `mapdevice.c` for the
signal with handle `h` of the device `x` (`ptrs->home`); the device record of
`map.device.c` is used for the fields the two files share. -/
def mapdevice_instance_event_handler (x : t_mapdevice) (h : Nat) (instance_id : Int)
    (event : msig_instance_event_t) (tt : Nat) :
    Option (t_mapdevice × List (Nat × out_msg)) :=
  match x.device.find_sig h with
  | none => none
  | some sig =>
    let ptrs := sig.data
    let buf := x.buffer.set 0 (.A_LONG instance_id)
    let x1 := { x with buffer := buf }
    match event with
    | .IN_UPSTREAM_RELEASE =>
      let buf1 := (buf.set 1 (.A_SYM "release")).set 2 (.A_SYM "upstream")
      some ({ x with buffer := buf1 },
        (ptrs.objs.take ptrs.num_objs).map (fun o => (o, .list (buf1.take 3))))
    | .IN_DOWNSTREAM_RELEASE =>
      let buf1 := (buf.set 1 (.A_SYM "release")).set 2 (.A_SYM "downstream")
      some ({ x with buffer := buf1 },
        (ptrs.objs.take ptrs.num_objs).map (fun o => (o, .list (buf1.take 3))))
    | .IN_OVERFLOW =>
      match sig.steal with
      | .MPR_STEAL_OLDEST =>
        let r := msig_get_oldest_active_instance sig
        if r.1 ≠ 0 then some (x1, []) else some (device_release_inst x1 h r.2 tt, [])
      | .MPR_STEAL_NEWEST =>
        let r := msig_get_newest_active_instance sig
        if r.1 ≠ 0 then some (x1, []) else some (device_release_inst x1 h r.2 tt, [])
      | .none =>
        let buf1 := buf.set 1 (.A_SYM "overflow")
        some ({ x with buffer := buf1 },
          (ptrs.objs.take ptrs.num_objs).map (fun o => (o, .list (buf1.take 2))))
      | .other => some (x1, [])
    | .other => some (x1, [])

/-! ## The host: patchers, obex storage, hashtabs -/

/-- A hashtab of the host: its pointer, the keys stored (the registered names
of the objects, in insertion order) and the objects attached to it to receive
its notifications. -/
structure t_hashtab where
  handle : Nat
  keys : List Nat
  listeners : List Nat
  deriving DecidableEq, Repr

/-- The state outside any single object: what the patchers store in their
obex (container, key, hashtab pointer), the hashtabs, the map.device objects,
the endpoint objects, the library devices allocated and not freed, and the
next pointer / unique name the host hands out. -/
structure t_world where
  obex : List (t_patcher × String × Nat)
  hashtabs : List t_hashtab
  devices : List t_mapdevice
  objs : List t_mapin
  net_devs : List Nat
  next_obj : Nat
  deriving DecidableEq, Repr

/-- The world before anything is created. -/
def empty_world : t_world :=
  { obex := [], hashtabs := [], devices := [], objs := [], net_devs := [], next_obj := 0 }

/-- Host `object_obex_lookup(patcher, key, &ht)`: null when nothing is stored. -/
def object_obex_lookup (w : t_world) (p : t_patcher) (key : String) : Option Nat :=
  match w.obex.find? (fun e => e.1 = p ∧ e.2.1 = key) with
  | some e => some e.2.2
  | none => none

/-- Host `object_obex_store(patcher, key, value)`: the value replaces what the
patcher stored under the key; storing null clears the key. -/
def object_obex_store (w : t_world) (p : t_patcher) (key : String) (v : Option Nat) :
    t_world :=
  let others := w.obex.filter (fun e => ¬ (e.1 = p ∧ e.2.1 = key))
  match v with
  | some h => { w with obex := others ++ [(p, key, h)] }
  | none => { w with obex := others }

/-- Host `hashtab_new`. -/
def hashtab_new (w : t_world) : t_world × Nat :=
  ({ w with hashtabs := w.hashtabs ++ [{ handle := w.next_obj, keys := [], listeners := [] }],
            next_obj := w.next_obj + 1 }, w.next_obj)

/-- Host `object_attach_byptr_register(x, ht, CLASS_NOBOX)`: `x` will receive
the notifications of the hashtab. -/
def object_attach_byptr_register (w : t_world) (x : Nat) (ht : Nat) : t_world :=
  let hts := w.hashtabs.map
    (fun t => if t.handle = ht then { t with listeners := t.listeners ++ [x] } else t)
  { w with hashtabs := hts }

/-- The objects attached to a hashtab. -/
def hashtab_listeners (w : t_world) (ht : Nat) : List Nat :=
  match w.hashtabs.find? (fun t => t.handle = ht) with
  | some t => t.listeners
  | none => []

/-- The keys stored in a hashtab. -/
def hashtab_keys (w : t_world) (ht : Nat) : List Nat :=
  match w.hashtabs.find? (fun t => t.handle = ht) with
  | some t => t.keys
  | none => []

/-- Method `mapdevice_notify` of `map.device.c`; `obj` is the result of
`hashtab_lookup(sender, key, &obj)`. -/
def mapdevice_notify (x : t_mapdevice) (msg : String) (obj : Option t_mapin) :
    t_mapdevice × Option t_mapin :=
  if msg = "hashtab_entry_new" then
    match obj with
    | some o => let r := mapdevice_add_signal x o; (r.1, some r.2)
    | none => (x, obj)
  else if msg = "hashtab_entry_free" then
    match obj with
    | some o => (mapdevice_remove_signal x o, obj)
    | none => (x, obj)
  else (x, obj)

/-- Delivery of a hashtab notification about the object `obj` to every
map.device object attached to the hashtab, in the order of the device list. -/
def notify_listeners (w : t_world) (ht : Nat) (msg : String) (obj : t_mapin) :
    t_world × t_mapin :=
  let ls := hashtab_listeners w ht
  let r := w.devices.foldl
    (fun (acc : List t_mapdevice × t_mapin) x =>
      if x.id ∈ ls then
        match mapdevice_notify x msg (some acc.2) with
        | (x1, some o1) => (acc.1 ++ [x1], o1)
        | (x1, none) => (acc.1 ++ [x1], acc.2)
      else (acc.1 ++ [x], acc.2))
    ([], obj)
  ({ w with devices := r.1 }, r.2)

/-- Host `hashtab_storeflags(ht, key, obj, OBJ_FLAG_REF)`: the key is stored
and the attached objects are notified with `hashtab_entry_new`. -/
def hashtab_storeflags (w : t_world) (ht : Nat) (obj : t_mapin) : t_world × t_mapin :=
  let hts := w.hashtabs.map
    (fun t => if t.handle = ht then
      { t with keys := t.keys.filter (fun k => k ≠ obj.myobjname) ++ [obj.myobjname] }
      else t)
  notify_listeners { w with hashtabs := hts } ht "hashtab_entry_new" obj

/-- Host `hashtab_chuckkey(ht, key)`: the attached objects are notified with
`hashtab_entry_free` before the entry leaves the hashtab. -/
def hashtab_chuckkey (w : t_world) (ht : Nat) (obj : t_mapin) : t_world × t_mapin :=
  if obj.myobjname ∈ hashtab_keys w ht then
    let r := notify_listeners w ht "hashtab_entry_free" obj
    let hts := r.1.hashtabs.map
      (fun t => if t.handle = ht then
        { t with keys := t.keys.filter (fun k => k ≠ obj.myobjname) } else t)
    ({ r.1 with hashtabs := hts }, r.2)
  else (w, obj)

/-- Method `add_to_hashtab` of `map.in.c`. -/
def add_to_hashtab (w : t_world) (x : t_mapin) (ht : Nat) : t_world × t_mapin :=
  let r := hashtab_storeflags w ht x
  (r.1, { r.2 with ht := some ht })

/-- Method `remove_from_hashtab` of `map.in.c`. -/
def remove_from_hashtab (w : t_world) (x : t_mapin) : t_world × t_mapin :=
  let r := match x.ht with
    | some ht => let r := hashtab_chuckkey w ht x; (r.1, { r.2 with ht := none })
    | none => (w, x)
  (r.1, { r.2 with dev_obj := none, sig_ptr := none, sig_props := none })

/-- Write the state of an endpoint object back into the world. -/
def t_world.put_obj (w : t_world) (o : t_mapin) : t_world :=
  { w with objs := w.objs.map (fun q => if q.myobjname = o.myobjname then o else q) }

/-- Write the state of a device object back into the world. -/
def t_world.put_device (w : t_world) (x : t_mapdevice) : t_world :=
  { w with devices := w.devices.map (fun q => if q.id = x.id then x else q) }

/-- The walk of `mapin_new` (`map.in.c`) from the patcher of the new object up
the parent chain: the hashtab stored under `key` in the nearest patcher that
stores one, null when no patcher up to the top stores one. -/
def find_hashtab_upwards (w : t_world) (key : String) : t_patcher → Option Nat
  | [] => object_obex_lookup w [] key
  | a :: parent =>
    match object_obex_lookup w (a :: parent) key with
    | some ht => some ht
    | none => find_hashtab_upwards w key parent

/-- Constructor `mapin_new` of `map.in.c` for a box placed in `patcher`
(`#P`): null for unusable arguments, otherwise the new object, registered in
the hashtab found under the key "mapperhash" on the way up, if any. -/
def mapin_new (w : t_world) (patcher : t_patcher) (poly_index : Option Int)
    (argv : List t_atom) : t_world × Option t_mapin :=
  match argv with
  | .A_SYM name :: .A_SYM type :: rest =>
    let sig_type := type.data.headD (Char.ofNat 0)
    if sig_type ≠ 'i' ∧ sig_type ≠ 'f' then (w, none)
    else
      let lenargs : Int × List t_atom :=
        match rest with
        | .A_LONG v :: more => (v, more)
        | _ => (1, rest)
      let x : t_mapin :=
        { myobjname := w.next_obj, classname := "map.in", patcher := patcher,
          poly_index := poly_index, sig_name := name, sig_length := lenargs.1,
          sig_type := sig_type, dev_obj := none, sig_ptr := none, tt_ptr := none,
          sig_props := none, is_instance := 0, instance_id := 0, ht := none,
          args := lenargs.2 }
      let w1 := { w with next_obj := w.next_obj + 1 }
      match find_hashtab_upwards w1 "mapperhash" patcher with
      | some ht =>
        let r := add_to_hashtab w1 x ht
        ({ r.1 with objs := r.1.objs ++ [r.2] }, some r.2)
      | none => ({ w1 with objs := w1.objs ++ [x] }, some x)
  | _ => (w, none)

/-- Destructor `mapin_free` of `map.in.c`; the object leaves the world. -/
def mapin_free (w : t_world) (x : t_mapin) : t_world :=
  let r := remove_from_hashtab w x
  { r.1 with objs := r.1.objs.filter (fun o => o.myobjname ≠ x.myobjname) }

/-! ## Attaching and detaching the device (`map.device.c`) -/

/-- The walk of `mapdevice_attach` up the patcher hierarchy: true when the
patcher or one of its ancestors stores something under "mprhash". -/
def upstream_found (w : t_world) : t_patcher → Bool
  | [] => (object_obex_lookup w [] "mprhash").isSome
  | a :: parent =>
    if (object_obex_lookup w (a :: parent) "mprhash").isSome then true
    else upstream_found w parent

/-- Callback `check_downstream` on the class name of an object. -/
def check_downstream (cls : String) : Int := if cls = "map.device" then 1 else 0

/-- The deep iteration (`PI_DEEP`) of `check_downstream` from the patcher `p`:
the result is non-zero when some object in `p` or in a patcher below `p` makes
the callback return 1. The objects of the world are the map.device objects and
the endpoint objects. -/
def iterate_check_downstream (w : t_world) (p : t_patcher) : Int :=
  if w.devices.any (fun x => match x.patcher with
        | some q => decide (p <:+ q) && check_downstream "map.device" == 1
        | none => false)
     || w.objs.any (fun o => decide (p <:+ o.patcher) && check_downstream o.classname == 1)
  then 1 else 0

/-- Callback `add_downstream` on one endpoint object of the world. -/
def add_downstream (ht : Nat) (w : t_world) (obj : t_mapin) : t_world :=
  if obj.classname ≠ "map.in" ∧ obj.classname ≠ "map.out" then w
  else
    let r := add_to_hashtab w obj ht
    r.1.put_obj r.2

/-- Function `mapdevice_attach` of `map.device.c`; `patcher` is the result of
`object_obex_lookup(x, "#P", &patcher)`. Returns the world, the device object
and the C result. From the point where the device attaches itself to its new
hashtab it is listed among the objects of the world, so that the notifications
of the hashtab reach it; on success the returned device is the one in the
world. -/
def mapdevice_attach (w : t_world) (x : t_mapdevice) (patcher : Option t_patcher) :
    t_world × t_mapdevice × Int :=
  match patcher with
  | none => (w, x, 1)
  | some p =>
    let x1 := { x with patcher := some p }
    if upstream_found w p then (w, x1, 1)
    else if iterate_check_downstream w p ≠ 0 then (w, x1, 1)
    else
      let h := hashtab_new w
      let x2 := { x1 with ht := some h.2 }
      let w1 := object_obex_store h.1 p "mprhash" (some h.2)
      let w2 := object_attach_byptr_register w1 x2.id h.2
      let w3 := { w2 with devices := w2.devices ++ [x2] }
      let w4 := (w3.objs.filter (fun o => p <:+ o.patcher)).foldl (add_downstream h.2) w3
      match w4.devices.find? (fun q => q.id = x2.id) with
      | some x3 => (w4, x3, 0)
      | none => (w4, x2, 0)

/-- Callback `mapdevice_detach_obj` on one entry of the hashtab: the
attributes `dev_obj` and `sig_ptr` of the entry are set to null. -/
def mapdevice_detach_obj (x : t_mapdevice) (e : t_mapin) : t_mapdevice × t_mapin :=
  let buf := x.buffer.set 0 (.A_OBJ none)
  let e1 := set_dev_obj e (buf.take 1)
  let e2 := (set_sig_ptr e1 (buf.take 1) x.device).1
  ({ x with buffer := buf }, e2)

/-- Function `mapdevice_detach` of `map.device.c` for a device of the world. -/
def mapdevice_detach (w : t_world) (x : t_mapdevice) : t_world :=
  match x.ht with
  | none => w
  | some ht =>
    let keys := hashtab_keys w ht
    let w1 := keys.foldl
      (fun (w : t_world) k =>
        match w.devices.find? (fun q => q.id = x.id), w.objs.find? (fun o => o.myobjname = k) with
        | some xc, some e =>
          let r := mapdevice_detach_obj xc e
          (w.put_device r.1).put_obj r.2
        | _, _ => w) w
    let w2 := keys.foldl
      (fun (w : t_world) k =>
        match w.objs.find? (fun o => o.myobjname = k) with
        | some e => let r := remove_from_hashtab w e; r.1.put_obj r.2
        | none => w) w1
    let w3 := { w2 with hashtabs := w2.hashtabs.filter (fun t => t.handle ≠ ht) }
    match x.patcher with
    | some p => object_obex_store w3 p "mprhash" none
    | none => w3

/-- The first argument scan of `mapdevice_new` (`map.device.c`),
`for (i = 0; i < argc-1; i++)`, on the atoms from index `i` on; the state is
(alias, iface). -/
def scan_alias_iface : List t_atom → Option String × Option String →
    Option String × Option String
  | [], st => st
  | [_], st => st
  | a :: b :: rest, st =>
    if atom_streq a "@alias" then
      match b with
      | .A_SYM v => scan_alias_iface rest (some v, st.2)
      | _ => scan_alias_iface (b :: rest) st
    else if atom_streq a "@interface" then
      match b with
      | .A_SYM v => scan_alias_iface rest (st.1, some v)
      | _ => scan_alias_iface (b :: rest) st
    else scan_alias_iface (b :: rest) st

/-- The second argument scan of `mapdevice_new` ("add other declared
properties") on the atoms from index `i` on, acting on the library device. -/
def scan_device_props : List t_atom → mpr_dev → mpr_dev
  | [], d => d
  | [_], d => d
  | a :: b :: rest, d =>
    if atom_streq a "@alias" || atom_streq a "@interface" then scan_device_props rest d
    else if starts_at (atom_get_string a) then
      match b with
      | .A_SYM v =>
        scan_device_props rest { d with props := d.props ++
          [{ key := .named (str_tail (atom_get_string a)), type := 's', value := [.s v] }] }
      | .A_FLOAT v =>
        scan_device_props rest { d with props := d.props ++
          [{ key := .named (str_tail (atom_get_string a)), type := 'f',
             value := [.f (c_float v)] }] }
      | .A_LONG v =>
        scan_device_props rest { d with props := d.props ++
          [{ key := .named (str_tail (atom_get_string a)), type := 'i', value := [.i (c_int v)] }] }
      | .A_OBJ _ => scan_device_props (b :: rest) d
    else scan_device_props (b :: rest) d

/-- The device name `mapdevice_new` derives from the alias: the alias without
a leading slash, "maxmsp" without alias. -/
def device_name (al : Option String) : String :=
  match al with
  | some a => if a.data.head? = some '/' then str_tail a else a
  | none => "maxmsp"

/-- The first part of `mapdevice_new` of `map.device.c`: the object is
allocated (pointer `id`) and named from its arguments; `alias` starts as the
first argument when that is a symbol not starting with an at sign. With no
argument at all the C code reads `argv[0]` all the same; here that read gives
no alias. -/
def mapdevice_init (id : Nat) (argv : List t_atom) : t_mapdevice :=
  let alias0 : Option String :=
    match argv with
    | .A_SYM v :: _ => if starts_at v then none else some v
    | _ => none
  let ai := scan_alias_iface argv (alias0, none)
  { id := id, outlet := [], ht := none, name := device_name ai.1,
    device := { sigs := [], next_sig := 0, calls := [], props := [] },
    timetag := 0, updated := 0, ready := 0,
    buffer := List.replicate MAX_LIST (.A_LONG 0), patcher := none, iface := ai.2 }

/-- Host `object_alloc`: a new object pointer. -/
def object_alloc (w : t_world) : t_world × Nat :=
  ({ w with next_obj := w.next_obj + 1 }, w.next_obj)

/-- Library `mpr_dev_new` for the device object `id`: the library device is
live from now on. -/
def mpr_dev_new (w : t_world) (id : Nat) : t_world :=
  { w with net_devs := id :: w.net_devs }

/-- Library `mpr_dev_free`: the library device of the object `id` is released. -/
def mpr_dev_free (w : t_world) (id : Nat) : t_world :=
  { w with net_devs := w.net_devs.erase id }

/-- Constructor `mapdevice_new` of `map.device.c` for a box placed in
`patcher`; `net_ok` tells whether `mpr_dev_new` succeeds. Returns the world
and the new object, null when the constructor returns 0. -/
def mapdevice_new (w : t_world) (patcher : Option t_patcher) (net_ok : Bool)
    (argv : List t_atom) : t_world × Option t_mapdevice :=
  let a := object_alloc w
  let x := mapdevice_init a.2 argv
  if ¬ net_ok then (a.1, none)
  else
    let r := mapdevice_attach (mpr_dev_new a.1 x.id) x patcher
    if r.2.2 ≠ 0 then (mpr_dev_free r.1 x.id, none)
    else
      let x3 := { r.2.1 with device := scan_device_props argv r.2.1.device,
                             ready := 0, updated := 0 }
      (r.1.put_device x3, some x3)

/-- Destructor `mapdevice_free` of `map.device.c`; the object leaves the world. -/
def mapdevice_free (w : t_world) (x : t_mapdevice) : t_world :=
  let w1 := mpr_dev_free (mapdevice_detach w x) x.id
  { w1 with devices := w1.devices.filter (fun q => q.id ≠ x.id) }

/-! ## Sequences of device creations and destructions -/

/-- A host event on map.device boxes: a box is created in a patcher (with
the outcome of `mpr_dev_new` and the box arguments), or the box with the given
pointer is deleted. -/
inductive dev_event where
  | create (patcher : Option t_patcher) (net_ok : Bool) (argv : List t_atom)
  | destroy (id : Nat)
  deriving DecidableEq, Repr

/-- The world after one event; deleting a pointer that is not a live device
does nothing. -/
def run_dev_event (w : t_world) : dev_event → t_world
  | .create p ok argv => (mapdevice_new w p ok argv).1
  | .destroy id =>
    match w.devices.find? (fun x => x.id = id) with
    | some x => mapdevice_free w x
    | none => w

/-- The world after a sequence of events. -/
def run_dev_events (w : t_world) (evs : List dev_event) : t_world :=
  evs.foldl run_dev_event w

/-- Two device objects whose patchers are different and not nested in one
another. -/
def unrelated_patchers (a b : t_mapdevice) : Prop :=
  ∀ pa pb, a.patcher = some pa → b.patcher = some pb → ¬ pa <:+ pb ∧ ¬ pb <:+ pa

/-- The invariant carried along a sequence of device events: there is no
endpoint object; every live device has a pointer below the allocation
counter, a patcher, and the hashtab it created stored under "mprhash" in that
patcher; the live devices have pairwise unrelated patchers; every patcher
stores at most one value under a key. -/
def device_inv (w : t_world) : Prop :=
  w.objs = []
  ∧ (∀ x ∈ w.devices, x.id < w.next_obj ∧
      ∃ p h, x.patcher = some p ∧ x.ht = some h ∧ object_obex_lookup w p "mprhash" = some h)
  ∧ w.devices.Pairwise unrelated_patchers
  ∧ (∀ p key, (w.obex.filter (fun e => e.1 = p ∧ e.2.1 = key)).length ≤ 1)

/-! ## Well-formed device states -/

/-- The part of a signal that binding and unbinding read and write: pointer,
name, direction and the `t_map_ptrs` data. -/
def mpr_sig.core (s : mpr_sig) : Nat × String × mpr_dir × t_map_ptrs :=
  (s.handle, s.name, s.dir, s.data)

/-- Signal pointers identify signals: no two signals of the device share a
handle, and the allocator hands out handles that are not in use. -/
def mpr_dev.wf (d : mpr_dev) : Prop :=
  (d.sigs.map (fun s => s.handle)).Nodup ∧ ∀ s ∈ d.sigs, s.handle < d.next_sig

instance (d : mpr_dev) : Decidable d.wf := by unfold mpr_dev.wf; infer_instance

/-- The endpoint count of a `t_map_ptrs` is the size of its array. -/
def t_map_ptrs.wf (p : t_map_ptrs) : Prop := p.num_objs = p.objs.length

instance (p : t_map_ptrs) : Decidable p.wf := by unfold t_map_ptrs.wf; infer_instance

/-- The signals of the device that carry a given name, in device order, each
shown as (direction, `num_objs`, endpoint list). -/
def bound_named (x : t_mapdevice) (name : String) : List (mpr_dir × Nat × List Nat) :=
  (mpr_list_filter_name (mpr_dev_get_sigs x.device .MPR_DIR_ANY) name).map
    (fun s => (s.dir, s.data.num_objs, s.data.objs))

/-! ## List and release messages of `map.in.c` -/

/-- The payload loop of `mapin_list` for a signal of type i over the atoms it
reads: `(int)atom_getfloat` for a float, `(int)atom_getlong` for a long, null
(`return`) at the first atom of another type. -/
def list_payload_int : List t_atom → Option (List sig_val)
  | [] => some []
  | a :: rest =>
    if a.a_type = .A_FLOAT then (list_payload_int rest).map (fun p => .i (c_int_of_float (atom_getfloat a)) :: p)
    else if a.a_type = .A_LONG then (list_payload_int rest).map (fun p => .i (c_int (atom_getlong a)) :: p)
    else none

/-- The payload loop of `mapin_list` for a signal of type f. -/
def list_payload_float : List t_atom → Option (List sig_val)
  | [] => some []
  | a :: rest =>
    if a.a_type = .A_FLOAT then
      (list_payload_float rest).map (fun p => .f (c_float (atom_getfloat a)) :: p)
    else if a.a_type = .A_LONG then
      (list_payload_float rest).map (fun p => .f (c_float (atom_getlong a : Rat)) :: p)
    else none

/-- The tail of `mapin_list`: start the queue on the device, then write
`count` samples to the instance of the endpoint or to the signal, with the
timetag read through `tt_ptr`. -/
def mapin_write_count (x : t_mapin) (dv : t_mapdevice) (now : Nat) (h : Nat)
    (value : List sig_val) (count : Int) : t_mapdevice :=
  let dv1 := mapdevice_maybe_start_queue dv now
  let tt : Option Nat := x.tt_ptr.map (fun _ => dv1.timetag)
  if x.is_instance ≠ 0 then
    { dv1 with device :=
        { dv1.device.modify_sig h (fun s => sig_update_inst s x.instance_id value) with
          calls := dv1.device.calls ++ [.update h (some x.instance_id) value count tt] } }
  else
    { dv1 with device :=
        { dv1.device.modify_sig h (fun s => sig_update s value) with
          calls := dv1.device.calls ++ [.update h none value count tt] } }

/-- Method `mapin_list` of `map.in.c`. The test `if ((count = argc / length))`
returns whenever the quotient is not 0; the division is that of C `int`
(toward zero; a length of 0 is taken to give 0). The payload loops read the
first `len` atoms. A signal that is neither of type i nor f leaves the value
pointer unset (an empty value here). -/
def mapin_list (x : t_mapin) (dv : t_mapdevice) (now : Nat) (argv : List t_atom) :
    t_mapin × t_mapdevice :=
  let c := check_ptrs x
  if c.2 ≠ 0 ∨ argv.length = 0 then (c.1, dv)
  else
    match c.1.sig_ptr, c.1.sig_props with
    | some h, some hp =>
      match dv.device.find_sig hp with
      | none => (c.1, dv)
      | some s =>
        let count : Int := Int.tdiv (argv.length : Int) s.len
        if count ≠ 0 then (c.1, dv)
        else
          let len : Int := count * s.len
          let payload : Option (List sig_val) :=
            if s.type = 'i' then list_payload_int (argv.take len.toNat)
            else if s.type = 'f' then list_payload_float (argv.take len.toNat)
            else some []
          match payload with
          | none => (c.1, dv)
          | some value => (c.1, mapin_write_count c.1 dv now h value count)
    | _, _ => (c.1, dv)

/-- Method `mapin_release` of `map.in.c`. -/
def mapin_release (x : t_mapin) (dv : t_mapdevice) (now : Nat) : t_mapin × t_mapdevice :=
  let c := check_ptrs x
  if c.2 ≠ 0 ∨ c.1.is_instance = 0 then (c.1, dv)
  else
    match c.1.sig_ptr with
    | none => (c.1, dv)
    | some h =>
      let dv1 := mapdevice_maybe_start_queue dv now
      let tt : Option Nat := c.1.tt_ptr.map (fun _ => dv1.timetag)
      (c.1, { dv1 with device :=
        { dv1.device.modify_sig h (fun s => sig_release_inst s c.1.instance_id) with
          calls := dv1.device.calls ++ [.release h c.1.instance_id tt] } })

/-- The messages an endpoint of `map.in.c` takes at its inlet. -/
inductive in_msg where
  | int (l : Int)
  | float (d : Rat)
  | list (argv : List t_atom)
  | release
  deriving DecidableEq, Repr

/-- One message on its way: the endpoint object that receives it (in the state
it has at that moment), what `mpr_time_now` would read, and the message. -/
structure t_msg where
  x : t_mapin
  now : Nat
  m : in_msg
  deriving DecidableEq, Repr

/-- The device after the endpoint has handled the message. -/
def deliver (dv : t_mapdevice) (msg : t_msg) : t_mapdevice :=
  match msg.m with
  | .int l => (mapin_int msg.x dv msg.now l).2
  | .float d => (mapin_float msg.x dv msg.now d).2
  | .list argv => (mapin_list msg.x dv msg.now argv).2
  | .release => (mapin_release msg.x dv msg.now).2

/-- The device after a sequence of messages, handled in order. -/
def deliver_all (dv : t_mapdevice) (msgs : List t_msg) : t_mapdevice :=
  msgs.foldl deliver dv

/-- The endpoint is bound to the device the way `mapdevice_add_signal` leaves
it: device and timetag pointers point to the device, the signal pointer to a
signal of the device. -/
def bound_to (x : t_mapin) (dv : t_mapdevice) : Prop :=
  x.dev_obj = some dv.id ∧ x.tt_ptr = some dv.id ∧
  match x.sig_ptr with
  | some h => (dv.device.find_sig h).isSome
  | none => False

instance (x : t_mapin) (dv : t_mapdevice) : Decidable (bound_to x dv) := by
  unfold bound_to; cases x.sig_ptr <;> infer_instance

/-! ## The poll tick of `map.device.c` -/

/-- The clock interval of `map.device.c`, in milliseconds. -/
def INTERVAL : Nat := 1

/-- The loop `while (count-- && mpr_dev_poll(x->device, 0)) {}` of
`mapdevice_poll`: the number of calls of `mpr_dev_poll` made, given the value
of `count` and the number `n` of calls made before; `polls i` is what call
number `i` returns. -/
def poll_loop (polls : Nat → Int) : Nat → Nat → Nat
  | 0, n => n
  | count + 1, n => if polls n ≠ 0 then poll_loop polls count (n + 1) else n + 1

/-- What one run of `mapdevice_poll` leaves: the device object, the number of
calls of `mpr_dev_poll`, the lines posted to the console, the number of times
`mapdevice_print_properties` was handed to `defer_low`, and the delays the
clock was set to. -/
structure t_poll where
  x : t_mapdevice
  poll_calls : Nat
  posts : List String
  deferred : Nat
  clock : List Nat
  deriving DecidableEq, Repr

/-- Function `mapdevice_poll` of `map.device.c`. `polls` gives the results of
the calls of `mpr_dev_poll`, `net_ready` that of `mpr_dev_ready`, `net_name`
the name the library reports for the device. What the library does to the
signals while it polls is not part of this function. -/
def mapdevice_poll (x : t_mapdevice) (polls : Nat → Int) (net_ready : Bool)
    (net_name : String) : t_poll :=
  let n := poll_loop polls 10 0
  if x.ready = 0 then
    if net_ready then
      let p1 := ["Joining mapping network as '" ++ net_name ++ "'"]
      let p2 := if (mpr_dev_get_sigs x.device .MPR_DIR_ANY).length = 0
        then p1 ++ ["Waiting for inputs and outputs..."] else p1
      { x := { x with ready := 1 }, poll_calls := n, posts := p2, deferred := 1,
        clock := [INTERVAL] }
    else { x := x, poll_calls := n, posts := [], deferred := 0, clock := [INTERVAL] }
  else if x.updated ≠ 0 then
    { x := { x with device := { x.device with calls := x.device.calls ++ [.send_queue x.timetag] },
                    updated := 0 },
      poll_calls := n, posts := [], deferred := 0, clock := [INTERVAL] }
  else { x := x, poll_calls := n, posts := [], deferred := 0, clock := [INTERVAL] }

/-- What the library reports about the device on the network. -/
structure t_net where
  name : String
  iface : String
  address : String
  port : Int
  deriving DecidableEq, Repr

/-- Function `mapdevice_print_properties` of `map.device.c`. -/
def mapdevice_print_properties (x : t_mapdevice) (net : t_net) : t_mapdevice :=
  if x.ready ≠ 0 then
    let b1 := x.buffer.set 0 (.A_SYM net.name)
    let o1 := x.outlet ++ [("name", b1.take 1)]
    let b2 := b1.set 0 (.A_SYM net.iface)
    let o2 := o1 ++ [("interface", b2.take 1)]
    let b3 := b2.set 0 (.A_SYM net.address)
    let o3 := o2 ++ [("IP", b3.take 1)]
    let b4 := b3.set 0 (.A_LONG net.port)
    let o4 := o3 ++ [("port", b4.take 1)]
    let b5 := b4.set 0 (.A_LONG (mpr_dev_get_sigs x.device .MPR_DIR_IN).length)
    let o5 := o4 ++ [("numInputs", b5.take 1)]
    let b6 := b5.set 0 (.A_LONG (mpr_dev_get_sigs x.device .MPR_DIR_OUT).length)
    let o6 := o5 ++ [("numOutputs", b6.take 1)]
    { x with buffer := b6, outlet := o6 }
  else x

/-- One period of the clock of a device: the messages its endpoints handle
before the clock goes off, then what the library answers during the tick. -/
structure t_tick where
  msgs : List t_msg
  polls : Nat → Int
  net_ready : Bool
  net_name : String

/-- A run of clock periods: the device after the last tick and, for each
tick in order, the number of times the properties report was scheduled. -/
def run_ticks (x : t_mapdevice) : List t_tick → t_mapdevice × List Nat
  | [] => (x, [])
  | t :: rest =>
    let p := mapdevice_poll (deliver_all x t.msgs) t.polls t.net_ready t.net_name
    let r := run_ticks p.x rest
    (r.1, p.deferred :: r.2)

/-! ## Concrete objects used in the closed statements -/

/-- A device object right after construction: no signal, nothing sent. -/
def fresh_device (id : Nat) : t_mapdevice :=
  { id := id, outlet := [], ht := none, name := "maxmsp",
    device := { sigs := [], next_sig := 0, calls := [], props := [] },
    timetag := 0, updated := 0, ready := 0,
    buffer := List.replicate MAX_LIST (.A_LONG 0), patcher := some [], iface := none }

/-- An endpoint object of the given class as its constructor leaves it:
scalar float signal `sig_name`, not bound, not instanced. -/
def fresh_endpoint (myobjname : Nat) (classname sig_name : String) (args : List t_atom) :
    t_mapin :=
  { myobjname := myobjname, classname := classname, patcher := [], poly_index := none,
    sig_name := sig_name, sig_length := 1, sig_type := 'f',
    dev_obj := none, sig_ptr := none, tt_ptr := none, sig_props := none,
    is_instance := 0, instance_id := 0, ht := none, args := args }

/-- The device 100 after the endpoint 7 of class map.out bound the name freq. -/
def device_with_freq : t_mapdevice :=
  (mapdevice_add_signal (fresh_device 100) (fresh_endpoint 7 "map.out" "freq" [])).1

/-- The arguments of a box `[map.in freq f]`. -/
def freq_args : List t_atom := [.A_SYM "freq", .A_SYM "f"]

/-- The world in which a `[map.in freq f]` box is created in the sub-patcher
[1] and a map.device box is created afterwards in the top-level patcher. -/
def world_endpoint_first : t_world :=
  (mapdevice_new (mapin_new empty_world [1] none freq_args).1 (some []) true []).1

/-- The world in which the map.device box is created in the top-level patcher
and the `[map.in freq f]` box is created afterwards in the sub-patcher [1]. -/
def world_device_first : t_world :=
  (mapin_new (mapdevice_new empty_world (some []) true []).1 [1] none freq_args).1

/-- The default instance of a new signal: id 0, no user data. -/
def default_inst : sig_inst :=
  { id := 0, data := none, active := false, created := 0, value := [] }

/-- A reserved instance as `sig_reserve_inst` creates it. -/
def reserved_inst (id : Int) (owner : Nat) : sig_inst :=
  { id := id, data := some owner, active := false, created := 0, value := [] }

/-- A device with one input signal (handle 0, endpoints 1 and 2, steal mode
`MPR_STEAL_OLDEST`) whose two instances are active: id 0, activated at stamp
5, and id 7, activated at stamp 9. -/
def overflow_device : t_mapdevice :=
  { fresh_device 100 with
    device :=
      { sigs := [{ handle := 0, dir := .MPR_DIR_IN, name := "freq", len := 1, type := 'f',
                   data := { home := 100, num_objs := 2, objs := [1, 2] },
                   insts := [{ id := 0, data := some 1, active := true, created := 5,
                               value := [] },
                             { id := 7, data := some 2, active := true, created := 9,
                               value := [] }],
                   props := [], steal := .MPR_STEAL_OLDEST, value := [] }],
        next_sig := 1, calls := [], props := [] } }

/-- The world with one map.device box, in the top-level patcher. -/
def world_with_device : t_world :=
  (mapdevice_new empty_world (some []) true []).1

/-- The input signal "freq" as `mpr_sig_new` creates it on an empty device. -/
def fresh_signal : mpr_sig :=
  (mpr_sig_new { sigs := [], next_sig := 0, calls := [], props := [] }
    .MPR_DIR_IN "freq" 1 'f').2

/-- The device 100 and the endpoint 1 of class map.in with the arguments
`@instance 3`, after `mapdevice_add_signal` bound the endpoint. -/
def bound_pair : t_mapdevice × t_mapin :=
  mapdevice_add_signal (fresh_device 100)
    (fresh_endpoint 1 "map.in" "freq" [.A_SYM "@instance", .A_LONG 3])

/-- The signal of `bound_pair`; its only instance is instance 3, owned by
endpoint 1. -/
def bound_signal : mpr_sig :=
  { fresh_signal with
    data := { home := 100, num_objs := 1, objs := [1] },
    insts := [reserved_inst 3 1] }

/-- The device of `bound_pair` after its endpoint handled the message
`int 5` at time 10: the queue is started, the device has not joined the
network yet. -/
def pending_device : t_mapdevice :=
  (mapin_int bound_pair.2 bound_pair.1 10 5).2

/-- The library call is a value write or an instance release that carries the
timetag `t`. -/
def lib_call.written_at (c : lib_call) (t : Nat) : Prop :=
  match c with
  | .update _ _ _ _ tt => tt = some t
  | .release _ _ tt => tt = some t
  | _ => False

instance (c : lib_call) (t : Nat) : Decidable (c.written_at t) := by
  unfold lib_call.written_at; cases c <;> infer_instance

/-- A clock period without messages in which every network poll returns 0 and
the library answers `net_ready` to `mpr_dev_ready`. -/
def quiet_tick (net_ready : Bool) : t_tick :=
  { msgs := [], polls := fun _ => 0, net_ready := net_ready, net_name := "maxmsp.1" }

/-- The endpoint of `bound_pair` gets `int 5` at time 10, `float 7` at time
20 and `release` at time 30. -/
def three_messages : List t_msg :=
  [{ x := bound_pair.2, now := 10, m := .int 5 },
   { x := bound_pair.2, now := 20, m := .float 7 },
   { x := bound_pair.2, now := 30, m := .release }]

/-- The input signal of `overflow_device` with steal mode 0. -/
def no_steal_signal : mpr_sig :=
  { handle := 0, dir := .MPR_DIR_IN, name := "freq", len := 1, type := 'f',
    data := { home := 100, num_objs := 2, objs := [1, 2] },
    insts := [{ id := 0, data := some 1, active := true, created := 5, value := [] },
              { id := 7, data := some 2, active := true, created := 9, value := [] }],
    props := [], steal := .none, value := [] }

/-- The device 100 with `no_steal_signal` as its only signal. -/
def no_steal_device : t_mapdevice :=
  { fresh_device 100 with
    device := { sigs := [no_steal_signal], next_sig := 1, calls := [], props := [] } }

/-- The map.device object of `world_endpoint_first`. -/
def device_of_endpoint_first : t_mapdevice :=
  world_endpoint_first.devices.headD (fresh_device 0)

/-! ## Value lists and the registry walk of `mpr.in.c` -/

/-- Function `check_ptrs` of `mpr.in.c`: 1 when the device or the signal
pointer is null; otherwise 0, with length and type of the signal read from
the library (device `d`) when no length is cached. -/
def mpr_in_check_ptrs (x : t_mpr_in) (d : mpr_dev) : t_mpr_in × Int :=
  if x.dev_obj.isNone || x.sig_ptr.isNone then (x, 1)
  else if x.length = 0 then
    match x.sig_ptr.bind d.find_sig with
    | some s => ({ x with length := s.len, type := s.type }, 0)
    | none => (x, 0)
  else (x, 0)

/-- Library `mpr_sig_set_value(sig, inst, len, type, value)`: the call is
recorded and the value of the instance is written. -/
def mpr_sig_set_value (d : mpr_dev) (h : Nat) (inst : Int) (len : Int) (type : Char)
    (value : List sig_val) : mpr_dev :=
  { d.modify_sig h (fun s => sig_update_inst s inst value) with
    calls := d.calls ++ [.set_value h inst len type value] }

/-- Method `mpr_in_list` of `mpr.in.c` on the endpoint and the library device
that holds its signal. The payload loops are those of `mapin_list`, over all
`argc` atoms. The remainder is that of C `int` (a cached length of 0 is taken
to leave the remainder non-zero). -/
def mpr_in_list (x : t_mpr_in) (d : mpr_dev) (argv : List t_atom) : t_mpr_in × mpr_dev :=
  let c := mpr_in_check_ptrs x d
  if c.2 ≠ 0 ∨ argv.length = 0 then (c.1, d)
  else
    let argc : Int := argv.length
    if argc < c.1.length ∨ Int.tmod argc c.1.length ≠ 0 then (c.1, d)
    else
      match c.1.sig_ptr with
      | none => (c.1, d)
      | some h =>
        if c.1.type = 'i' then
          match list_payload_int argv with
          | none => (c.1, d)
          | some value => (c.1, mpr_sig_set_value d h c.1.instance_id argc 'i' value)
        else if c.1.type = 'f' then
          match list_payload_float argv with
          | none => (c.1, d)
          | some value => (c.1, mpr_sig_set_value d h c.1.instance_id argc 'f' value)
        else (c.1, d)

/-- What the host and a device see of an mpr.in object: its class, its
registered name and its attributes. -/
def t_mpr_in.as_object (x : t_mpr_in) : t_mapin :=
  { myobjname := x.myobjname, classname := "mpr.in", patcher := x.patcher.getD [],
    poly_index := x.poly_index, sig_name := x.sig_name, sig_length := x.sig_length,
    sig_type := x.sig_type, dev_obj := x.dev_obj, sig_ptr := x.sig_ptr, tt_ptr := none,
    sig_props := none, is_instance := x.is_instanced, instance_id := x.instance_id,
    ht := x.ht, args := x.args }

/-- Method `add_to_hashtab` of `mpr.in.c`. The attached devices are notified
by the host; a device of `map.device.c` leaves an object of this class as it
is. -/
def mpr_in_add_to_hashtab (w : t_world) (x : t_mpr_in) (ht : Nat) : t_world × t_mpr_in :=
  if x.connect_state ≠ 0 then (w, x)
  else
    let r := hashtab_storeflags w ht x.as_object
    (r.1, { x with ht := some ht, connect_state := 1 })

/-- Function `mpr_in_loadbang` of `mpr.in.c`: the walk
`while (patcher) { lookup; if (ht) { add_to_hashtab; break; } patcher = parent }`
from the cached patcher; a lookup that finds nothing is taken to leave `ht`
null. -/
def mpr_in_loadbang (w : t_world) (x : t_mpr_in) : t_world × t_mpr_in :=
  match x.patcher with
  | none => (w, x)
  | some p =>
    match find_hashtab_upwards w "mprhash" p with
    | some ht => mpr_in_add_to_hashtab w x ht
    | none => (w, x)

/-! ## The atoms the device constructors read -/

/-- The cells of `argv` read by the loop `for (i = 0; i < argc-1; i++)` of
`mapdevice_new` (`map.device.c`) from index `i` on, in order; `argv i` is the
atom in cell `i` of the memory the host passes, of which the cells below
`argc` are the arguments. Every iteration advances `i`. -/
def alias_scan_reads (argv : Nat → t_atom) (argc : Int) : Nat → Nat → List Nat
  | 0, _ => []
  | fuel + 1, i =>
    if (i : Int) < argc - 1 then
      if (argv i).a_type = .A_SYM then
        if atom_streq (argv i) "@alias" ∨ atom_streq (argv i) "@interface" then
          if (argv (i + 1)).a_type = .A_SYM then
            i :: (i + 1) :: alias_scan_reads argv argc fuel (i + 2)
          else i :: (i + 1) :: alias_scan_reads argv argc fuel (i + 1)
        else i :: alias_scan_reads argv argc fuel (i + 1)
      else i :: alias_scan_reads argv argc fuel (i + 1)
    else []

/-- The cells of `argv` read by the second loop of `mapdevice_new`
(`map.device.c`), "add other declared properties", from index `i` on. -/
def props_scan_reads (argv : Nat → t_atom) (argc : Int) : Nat → Nat → List Nat
  | 0, _ => []
  | fuel + 1, i =>
    if (i : Int) < argc then
      if (i : Int) > argc - 2 then []
      else if atom_streq (argv i) "@alias" ∨ atom_streq (argv i) "@interface" then
        i :: props_scan_reads argv argc fuel (i + 2)
      else if starts_at (atom_get_string (argv i)) then
        match (argv (i + 1)).a_type with
        | .A_OBJ => i :: (i + 1) :: props_scan_reads argv argc fuel (i + 1)
        | _ => i :: (i + 1) :: props_scan_reads argv argc fuel (i + 2)
      else i :: props_scan_reads argv argc fuel (i + 1)
    else []

/-- The cells of `argv` that `mapdevice_new` of `map.device.c` reads when the
construction goes through: the test `argv->a_type == A_SYM` before the first
loop, then the two loops. -/
def mapdevice_new_reads (argv : Nat → t_atom) (argc : Nat) : List Nat :=
  0 :: (alias_scan_reads argv argc argc 0 ++ props_scan_reads argv argc argc 0)

/-- The cells of `argv` read by the loop `for (i = 0; i < argc; i++)` of
`mapdevice_new` of `mapdevice.c` from index `i` on. -/
def old_scan_reads (argv : Nat → t_atom) (argc : Int) : Nat → Nat → List Nat
  | 0, _ => []
  | fuel + 1, i =>
    if (i : Int) < argc then
      if (argv i).a_type = .A_SYM then
        if atom_streq (argv i) "@alias" ∨ atom_streq (argv i) "@interface" then
          if (argv (i + 1)).a_type = .A_SYM then
            i :: (i + 1) :: old_scan_reads argv argc fuel (i + 2)
          else i :: (i + 1) :: old_scan_reads argv argc fuel (i + 1)
        else i :: old_scan_reads argv argc fuel (i + 1)
      else i :: old_scan_reads argv argc fuel (i + 1)
    else []

/-- The memory the host passes for an argument list: the arguments in the
cells below `argc`, the atom `pad` in the cells that follow. -/
def argv_cells (args : List t_atom) (pad : t_atom) : Nat → t_atom :=
  fun i => args.getD i pad

/-- An mpr.in object as its constructor leaves it before the registry walk:
not registered, not bound, not instanced, nothing cached. -/
def fresh_mpr_in (myobjname : Nat) (sig_name : String) (sig_type : Char) (sig_length : Int)
    (args : List t_atom) : t_mpr_in :=
  { myobjname := myobjname, patcher := some [], poly_index := none, sig_name := sig_name,
    sig_length := sig_length, sig_type := sig_type, dev_obj := none, sig_ptr := none,
    is_instanced := 0, instance_id := 0, ht := none, args := args, connect_state := 0,
    length := 0, type := Char.ofNat 0 }

/-- The float 0.5. -/
def one_half : Rat := { num := 1, den := 2, den_nz := by decide, reduced := by decide }

/-- The device 100 after an endpoint 7 of class map.in bound the name pos, a
float signal of vector length 2, and that endpoint. -/
def bound_vec2 : t_mapdevice × t_mapin :=
  mapdevice_add_signal (fresh_device 100)
    { fresh_endpoint 7 "map.in" "pos" [] with sig_length := 2 }

/-- The library device of `bound_vec2` and an mpr.in object 8 whose device
and signal pointers point to it and to its signal pos. -/
def mpr_vec2 : mpr_dev × t_mpr_in :=
  (bound_vec2.1.device,
   { fresh_mpr_in 8 "pos" 'f' 2 [] with dev_obj := some 100, sig_ptr := some 0 })

/-- The signal pos of `bound_vec2`. -/
def vec2_signal : mpr_sig := bound_vec2.1.device.sigs.headD fresh_signal

/-- What the library has seen of a device since the calls `base`: nothing,
with the queue not started; or one queue start at a time `T` followed by
writes and releases that all carry `T`, with `T` the timetag of the device
and the queue marked as started. -/
def queue_state (base : List lib_call) (d : t_mapdevice) : Prop :=
  (d.updated = 0 ∧ d.device.calls = base)
  ∨ ∃ T ws, d.updated = 1 ∧ d.timetag = T ∧ d.device.calls = base ++ .start_queue T :: ws
      ∧ ∀ c ∈ ws, c.written_at T

/-- A clock period in which the endpoint of `bound_pair` handles
`three_messages` while the network is not ready yet. -/
def early_tick : t_tick :=
  { msgs := three_messages, polls := fun _ => 0, net_ready := false, net_name := "maxmsp.1" }

/-- An mpr.in object 8 placed in the sub-patcher [1], before its registry
walk. -/
def mpr_in_sub : t_mpr_in :=
  { fresh_mpr_in 8 "pos" 'f' 2 [] with patcher := some [1] }

/-- The atom `atom_setlong` / `atom_setfloat` writes for a signal value. -/
def sig_val.to_atom : sig_val → t_atom
  | .i v => .A_LONG v
  | .f v => .A_FLOAT v

/-- The signal freq of `device_with_freq`. -/
def freq_signal : mpr_sig := device_with_freq.device.sigs.headD fresh_signal

/-- One group `@key v1 ... vn` of an argument list. -/
structure t_group where
  key : String
  vals : List t_atom
  deriving DecidableEq, Repr

/-- The atoms of a list of groups, in order. -/
def group_atoms : List t_group → List t_atom
  | [] => []
  | g :: rest => .A_SYM g.key :: (g.vals ++ group_atoms rest)

/-- The atom type of the first value of a group. -/
def t_group.type (g : t_group) : e_atomtype := (g.vals.headD (.A_LONG 0)).a_type

/-- The groups of the forwarding branch: the key starts with '@' and is none
of the keys with a meaning of their own, there is at least one value, the
values are all integers, all floats or all symbols, and no value is a symbol
that starts with '@'. -/
def plain_group (g : t_group) : Prop :=
  starts_at g.key = true
  ∧ g.key ∉ ["@name", "@type", "@length", "@instance", "@min", "@minimum", "@max", "@maximum"]
  ∧ g.vals ≠ []
  ∧ g.type ≠ .A_OBJ
  ∧ (∀ a ∈ g.vals, a.a_type = g.type)
  ∧ (∀ a ∈ g.vals, ¬ (a.a_type = .A_SYM ∧ starts_at (atom_get_string a) = true))

instance (g : t_group) : Decidable (plain_group g) := by
  unfold plain_group; infer_instance

/-- The property a plain group stands for: named by the key without its
leading '@', typed by its values, holding the values in order, the symbols as
they are, the integers as C `int` (`int value[length]`), the floats as C
`float` (`float value[length]`). -/
def expected_prop (g : t_group) : sig_prop :=
  match g.type with
  | .A_SYM =>
    { key := .named (str_tail g.key), type := 's',
      value := g.vals.map (fun a => .s (atom_get_string a)) }
  | .A_FLOAT =>
    { key := .named (str_tail g.key), type := 'f',
      value := g.vals.map (fun a => .f (c_float (atom_getfloat a))) }
  | _ =>
    { key := .named (str_tail g.key), type := 'i',
      value := g.vals.map (fun a => .i (c_int (atom_getlong a))) }

/-- The groups `@foo 1 2`, `@unit Hz`, `@scale 0.5`. -/
def three_groups : List t_group :=
  [{ key := "@foo", vals := [.A_LONG 1, .A_LONG 2] },
   { key := "@unit", vals := [.A_SYM "Hz"] },
   { key := "@scale", vals := [.A_FLOAT one_half] }]

/-! ## The C conversions as relations -/

/-- The conversion of an integer `v` to C `int`: `w` is the value in the range
of `int` that differs from `v` by a multiple of 2^32. -/
def wraps_to_int (v w : Int) : Prop :=
  -2147483648 ≤ w ∧ w ≤ 2147483647 ∧ (w - v) % 4294967296 = 0

/-- The conversion of an integer `v` to `mpr_id`: `w` is the value in the
range of `uint64_t` that differs from `v` by a multiple of 2^64. -/
def wraps_to_u64 (v w : Int) : Prop :=
  0 ≤ w ∧ w < 18446744073709551616 ∧ (w - v) % 18446744073709551616 = 0

/-- The conversion of a float `q` to an integer type: `t` is `q` with its
fractional part discarded (truncation toward zero). -/
def truncates_to_int (q : Rat) (t : Int) : Prop :=
  (0 ≤ q → (t : Rat) ≤ q ∧ q < (t : Rat) + 1) ∧ (q ≤ 0 → (t : Rat) - 1 < q ∧ q ≤ (t : Rat))

/-- The conversion of `q` to C `float` (IEEE 754 round to nearest, ties to
even): `r` is a binary32 value, no binary32 value is nearer to `q`, and when
another one is as near, `r` is an even multiple of their distance. -/
def rounds_to_float (q r : Rat) : Prop :=
  is_binary32 r
  ∧ (∀ r2 : Rat, is_binary32 r2 → |r - q| ≤ |r2 - q|)
  ∧ (∀ r2 : Rat, is_binary32 r2 → r2 ≠ r → |r2 - q| = |r - q| →
      ∃ k : Int, r = 2 * (k : Rat) * (r2 - r))

/-- What a numeric atom `a` of a list becomes in the payload of a signal of
type `type`: an integer atom is converted to `int` or to `float`, a float atom
is truncated to `int` (a truncation outside the range of `int` is undefined in
C and gives `INT_MIN` here) or narrowed to `float`. -/
def converted_atom (type : Char) (a : t_atom) (w : sig_val) : Prop :=
  match a, w with
  | .A_LONG v, .i t => type = 'i' ∧ wraps_to_int v t
  | .A_FLOAT q, .i t =>
    type = 'i'
    ∧ ((-2147483649 : Rat) < q → q < (2147483648 : Rat) → truncates_to_int q t)
    ∧ (q ≤ (-2147483649 : Rat) ∨ (2147483648 : Rat) ≤ q → t = -2147483648)
  | .A_LONG v, .f r => type = 'f' ∧ (|(v : Rat)| ≤ FLT_MAX → rounds_to_float v r)
  | .A_FLOAT q, .f r => type = 'f' ∧ (|q| ≤ FLT_MAX → rounds_to_float q r)
  | _, _ => False

/-- What a value atom `a` of a plain group becomes in a property of type
`type`: a symbol is kept, an integer is converted to `int`, a float is
narrowed to `float`. -/
def forwarded_atom (type : Char) (a : t_atom) (w : prop_val) : Prop :=
  match a, w with
  | .A_SYM n, .s m => type = 's' ∧ m = n
  | .A_LONG v, .i t => type = 'i' ∧ wraps_to_int v t
  | .A_FLOAT q, .f r => type = 'f' ∧ (|q| ≤ FLT_MAX → rounds_to_float q r)
  | _, _ => False

/-- The `double` nearest to 0.1, which is what a float atom written 0.1
holds. -/
def one_tenth : Rat :=
  { num := 3602879701896397, den := 36028797018963968, den_nz := by decide,
    reduced := by decide }

/-- The `float` nearest to 0.1. -/
def one_tenth_float : Rat :=
  { num := 13421773, den := 134217728, den_nz := by decide, reduced := by decide }

/-- The float -2.5. -/
def minus_five_halves : Rat :=
  { num := -5, den := 2, den_nz := by decide, reduced := by decide }

/-- The device 100 after an endpoint 7 of class map.in bound the name steps,
an int signal of vector length 2, and that endpoint. -/
def bound_int2 : t_mapdevice × t_mapin :=
  mapdevice_add_signal (fresh_device 100)
    { fresh_endpoint 7 "map.in" "steps" [] with sig_length := 2, sig_type := 'i' }

/-- The library device of `bound_int2` and an mpr.in object 8 whose device
and signal pointers point to it and to its signal steps. -/
def mpr_int2 : mpr_dev × t_mpr_in :=
  (bound_int2.1.device,
   { fresh_mpr_in 8 "steps" 'i' 2 [] with dev_obj := some 100, sig_ptr := some 0 })

/-! ## Theorems -/

/-! ### The conversions to `int` and to `float` -/

/-- The cast to `int` lands in the 32-bit range and differs from its argument by a multiple of 2^32. -/
theorem c_int_range (v : Int) :
    -2147483648 ≤ c_int v ∧ c_int v ≤ 2147483647 ∧ (c_int v - v) % 4294967296 = 0 := by
  unfold c_int
  omega

/-- The structural logarithm brackets its argument between two powers of two. -/
theorem nat_log2_spec (fuel n : Nat) (h1 : 1 ≤ n) (h2 : n ≤ fuel) :
    2 ^ nat_log2 fuel n ≤ n ∧ n < 2 ^ (nat_log2 fuel n + 1) := by
  induction fuel generalizing n with
  | zero => omega
  | succ fuel ih =>
    simp only [nat_log2]
    split
    · simp; omega
    · obtain ⟨i1, i2⟩ := ih (n / 2) (by omega) (by omega)
      rw [pow_succ] at i2 ⊢
      rw [pow_succ]
      constructor
      · omega
      · omega

theorem two_zpow (e : Int) :
    (2 : Rat) ^ e = ((2 ^ e.toNat : Nat) : Rat) / ((2 ^ (-e).toNat : Nat) : Rat) := by
  rcases le_or_lt 0 e with h | h
  · have h1 : (-e).toNat = 0 := by omega
    have h2 : e = (e.toNat : Int) := by omega
    rw [h1]
    conv_lhs => rw [h2]
    rw [zpow_natCast]
    simp only [pow_zero, Nat.cast_one, div_one, Nat.cast_pow, Nat.cast_ofNat]
  · have h1 : e.toNat = 0 := by omega
    have h2 : e = -((-e).toNat : Int) := by omega
    rw [h1]
    conv_lhs => rw [h2]
    rw [zpow_neg, zpow_natCast]
    simp only [pow_zero, Nat.cast_one, one_div, Nat.cast_pow, Nat.cast_ofNat]

theorem round_half_even_cases (a b : Nat) (_hb : 0 < b) :
    (round_half_even a b = a / b ∧ 2 * (a % b) ≤ b)
    ∨ (round_half_even a b = a / b + 1 ∧ b ≤ 2 * (a % b)) := by
  unfold round_half_even
  simp only
  split
  · left; exact ⟨rfl, by omega⟩
  · split
    · right; exact ⟨rfl, by omega⟩
    · split
      · left; exact ⟨rfl, by omega⟩
      · right; exact ⟨rfl, by omega⟩

/-- No integer is nearer to `a / b` than `round_half_even a b`. -/
theorem round_half_even_nearest (a b : Nat) (hb : 0 < b) (k : Int) :
    |((round_half_even a b : Nat) : Int) * b - a| ≤ |k * b - a| := by
  have hdm : (a : Int) = (b : Int) * ((a / b : Nat) : Int) + ((a % b : Nat) : Int) := by
    exact_mod_cast (Nat.div_add_mod a b).symm
  have hr : ((a % b : Nat) : Int) < b := by exact_mod_cast Nat.mod_lt _ hb
  have hr0 : (0 : Int) ≤ ((a % b : Nat) : Int) := Int.natCast_nonneg _
  have hbz : (0 : Int) < b := by exact_mod_cast hb
  have hc := round_half_even_cases a b hb
  have hc : (((round_half_even a b : Nat) : Int) = ((a / b : Nat) : Int)
        ∧ 2 * ((a % b : Nat) : Int) ≤ b)
      ∨ (((round_half_even a b : Nat) : Int) = ((a / b : Nat) : Int) + 1
        ∧ (b : Int) ≤ 2 * ((a % b : Nat) : Int)) := by
    rcases hc with ⟨hm, h2⟩ | ⟨hm, h2⟩
    · left; exact ⟨by rw [hm], by exact_mod_cast h2⟩
    · right; exact ⟨by rw [hm]; simp only [Nat.cast_add, Nat.cast_one], by exact_mod_cast h2⟩
  generalize ((round_half_even a b : Nat) : Int) = m at hc
  generalize ((a / b : Nat) : Int) = q at hc hdm
  generalize ((a % b : Nat) : Int) = r at hc hdm hr hr0
  generalize (a : Int) = A at hdm
  generalize (b : Int) = B at hc hdm hr hbz
  rcases le_or_lt k q with hk | hk
  · have hle : k * B ≤ q * B := mul_le_mul_of_nonneg_right hk (le_of_lt hbz)
    rcases hc with ⟨hm, h2⟩ | ⟨hm, h2⟩
    · rw [hm, abs_le]
      have : k * B - A ≤ 0 := by nlinarith
      rw [abs_of_nonpos this]
      constructor <;> nlinarith
    · rw [hm, abs_le]
      have : k * B - A ≤ 0 := by nlinarith
      rw [abs_of_nonpos this]
      constructor <;> nlinarith
  · have hle : (q + 1) * B ≤ k * B :=
      mul_le_mul_of_nonneg_right (by omega) (le_of_lt hbz)
    rcases hc with ⟨hm, h2⟩ | ⟨hm, h2⟩
    · rw [hm, abs_le]
      have : 0 ≤ k * B - A := by nlinarith
      rw [abs_of_nonneg this]
      constructor <;> nlinarith
    · rw [hm, abs_le]
      have : 0 ≤ k * B - A := by nlinarith
      rw [abs_of_nonneg this]
      constructor <;> nlinarith

theorem round_half_even_le (a b n : Nat) (hb : 0 < b) (h : a ≤ n * b) :
    round_half_even a b ≤ n := by
  have hq : a / b ≤ n := Nat.div_le_of_le_mul (by rw [Nat.mul_comm]; exact h)
  rcases round_half_even_cases a b hb with ⟨hm, _⟩ | ⟨hm, h2⟩
  · omega
  · rw [hm]
    by_contra hc
    have hqn : a / b = n := by omega
    have hdm := Nat.div_add_mod a b
    rw [hqn] at hdm
    have hr : a % b = 0 := by nlinarith
    omega
theorem rat_floor_eq (q : Rat) : q.floor = ⌊q⌋ := rfl

theorem rat_ceil_spec (q : Rat) : (q.ceil : Rat) - 1 < q ∧ q ≤ (q.ceil : Rat) := by
  unfold Rat.ceil
  split
  · rename_i h
    have : ((q.num : Int) : Rat) = q := by
      have := Rat.num_div_den q
      rw [h] at this
      simpa using this
    rw [this]
    constructor <;> linarith
  · rename_i h
    have hf : q.num / (q.den : Int) = ⌊q⌋ := (Rat.floor_def' q).symm
    rw [hf]
    have h1 : ((⌊q⌋ : Int) : Rat) ≤ q := Int.floor_le q
    have h2 : q < ⌊q⌋ + 1 := Int.lt_floor_add_one q
    have h3 : ((⌊q⌋ : Int) : Rat) ≠ q := by
      intro he
      apply h
      rw [← he]
      exact Rat.den_intCast _
    push_cast
    constructor
    · have := lt_of_le_of_ne h1 h3
      linarith
    · linarith
theorem c_int_of_float_nonneg (q : Rat) (h0 : 0 ≤ q) :
    c_int_of_float q = if ⌊q⌋ ≤ 2147483647 then ⌊q⌋ else -2147483648 := by
  have hf0 : 0 ≤ ⌊q⌋ := Int.floor_nonneg.mpr h0
  simp only [c_int_of_float, if_pos h0, rat_floor_eq]
  by_cases h : ⌊q⌋ ≤ 2147483647
  · rw [if_pos h, if_pos ⟨by omega, h⟩]
  · rw [if_neg h, if_neg (fun hc => h hc.2)]

theorem c_int_of_float_neg (q : Rat) (h0 : q < 0) :
    c_int_of_float q = if -2147483648 ≤ q.ceil then q.ceil else -2147483648 := by
  have hc : q.ceil < 1 := by
    have := (rat_ceil_spec q).1
    have c3 : (q.ceil : Rat) < 1 := by linarith
    exact_mod_cast c3
  simp only [c_int_of_float, if_neg (not_le.mpr h0)]
  by_cases h : -2147483648 ≤ q.ceil
  · rw [if_pos h, if_pos ⟨h, by omega⟩]
  · rw [if_neg h, if_neg (fun hc => h hc.1)]

/-- Inside the range of `int`, the cast from a float truncates toward zero. -/
theorem c_int_of_float_trunc (q : Rat) (h1 : (-2147483649 : Rat) < q)
    (h2 : q < (2147483648 : Rat)) :
    (0 ≤ q → (c_int_of_float q : Rat) ≤ q ∧ q < (c_int_of_float q : Rat) + 1)
    ∧ (q ≤ 0 → (c_int_of_float q : Rat) - 1 < q ∧ q ≤ (c_int_of_float q : Rat)) := by
  have hpos : 0 ≤ q → c_int_of_float q = ⌊q⌋ := by
    intro h0
    have hf1 : ⌊q⌋ < 2147483648 := Int.floor_lt.mpr (by exact_mod_cast h2)
    rw [c_int_of_float_nonneg q h0, if_pos (by omega)]
  constructor
  · intro h0
    rw [hpos h0]
    exact ⟨Int.floor_le q, Int.lt_floor_add_one q⟩
  · intro h0
    rcases eq_or_lt_of_le h0 with h | h
    · subst h
      rw [hpos (le_refl _)]
      simp
    · have c4 : (-2147483649 : Rat) < (q.ceil : Rat) := by
        have := (rat_ceil_spec q).2
        linarith
      have c6 : -2147483649 < q.ceil := by exact_mod_cast c4
      rw [c_int_of_float_neg q h, if_pos (by omega)]
      exact rat_ceil_spec q

/-- Outside the range of `int`, the cast from a float gives `INT_MIN`. -/
theorem c_int_of_float_out_of_range (q : Rat)
    (h : q ≤ (-2147483649 : Rat) ∨ (2147483648 : Rat) ≤ q) :
    c_int_of_float q = -2147483648 := by
  rcases h with h | h
  · have h0 : q < 0 := by linarith
    rw [c_int_of_float_neg q h0]
    split
    · rename_i hr
      have c1 := (rat_ceil_spec q).1
      have c3 : (q.ceil : Rat) < -2147483648 := by linarith
      have c4 : q.ceil < -2147483648 := by exact_mod_cast c3
      omega
    · rfl
  · have h0 : 0 ≤ q := by linarith
    rw [c_int_of_float_nonneg q h0]
    have c1 : (2147483648 : Int) ≤ ⌊q⌋ := Int.le_floor.mpr (by exact_mod_cast h)
    rw [if_neg (by omega)]
theorem two_zpow_pos (e : Int) : (0 : Rat) < (2 : Rat) ^ e := zpow_pos (by norm_num) e

theorem binade_test (a b : Nat) (hb : 1 ≤ b) (c : Int) :
    (b * 2 ^ c.toNat ≤ a * 2 ^ (-c).toNat) ↔ (2 : Rat) ^ c ≤ (a : Rat) / b := by
  have hbq : (0 : Rat) < b := by exact_mod_cast hb
  have hd : (0 : Rat) < ((2 ^ (-c).toNat : Nat) : Rat) := by
    have : 0 < 2 ^ (-c).toNat := pow_pos (by norm_num) _
    exact_mod_cast this
  rw [two_zpow c, div_le_div_iff₀ hd hbq]
  constructor
  · intro h
    have : ((b * 2 ^ c.toNat : Nat) : Rat) ≤ ((a * 2 ^ (-c).toNat : Nat) : Rat) := by
      exact_mod_cast h
    push_cast at this ⊢
    linarith
  · intro h
    have : ((b * 2 ^ c.toNat : Nat) : Rat) ≤ ((a * 2 ^ (-c).toNat : Nat) : Rat) := by
      push_cast at h ⊢
      linarith
    exact_mod_cast this

/-- The binade exponent brackets the quotient between two powers of two. -/
theorem binade_spec (a b : Nat) (ha : 1 ≤ a) (hb : 1 ≤ b) :
    (2 : Rat) ^ binade a b ≤ (a : Rat) / b ∧ (a : Rat) / b < (2 : Rat) ^ (binade a b + 1) := by
  obtain ⟨a1, a2⟩ := nat_log2_spec a a ha (le_refl _)
  obtain ⟨b1, b2⟩ := nat_log2_spec b b hb (le_refl _)
  have hbq : (0 : Rat) < b := by exact_mod_cast hb
  have a1q : (2 : Rat) ^ (nat_log2 a a : Int) ≤ a := by
    rw [zpow_natCast]; exact_mod_cast a1
  have a2q : (a : Rat) < (2 : Rat) ^ ((nat_log2 a a : Int) + 1) := by
    have : ((nat_log2 a a : Int) + 1) = ((nat_log2 a a + 1 : Nat) : Int) := by push_cast; rfl
    rw [this, zpow_natCast]; exact_mod_cast a2
  have b1q : (2 : Rat) ^ (nat_log2 b b : Int) ≤ b := by
    rw [zpow_natCast]; exact_mod_cast b1
  have b2q : (b : Rat) < (2 : Rat) ^ ((nat_log2 b b : Int) + 1) := by
    have : ((nat_log2 b b : Int) + 1) = ((nat_log2 b b + 1 : Nat) : Int) := by push_cast; rfl
    rw [this, zpow_natCast]; exact_mod_cast b2
  have key : binade a b = if (2 : Rat) ^ ((nat_log2 a a : Int) - (nat_log2 b b : Int)) ≤ (a : Rat) / b
      then (nat_log2 a a : Int) - (nat_log2 b b : Int)
      else (nat_log2 a a : Int) - (nat_log2 b b : Int) - 1 := by
    simp only [binade, binade_test a b hb]
  generalize (nat_log2 a a : Int) = la at a1q a2q key
  generalize (nat_log2 b b : Int) = lb at b1q b2q key
  have h2 : (2 : Rat) ≠ 0 := by norm_num
  rw [key]
  split
  · rename_i ht
    refine ⟨ht, ?_⟩
    rw [div_lt_iff₀ hbq]
    have : (2 : Rat) ^ (la - lb + 1) * (2 : Rat) ^ lb = (2 : Rat) ^ (la + 1) := by
      rw [← zpow_add₀ h2]; congr 1; ring
    calc (a : Rat) < (2 : Rat) ^ (la + 1) := a2q
      _ = (2 : Rat) ^ (la - lb + 1) * (2 : Rat) ^ lb := this.symm
      _ ≤ (2 : Rat) ^ (la - lb + 1) * b :=
          mul_le_mul_of_nonneg_left b1q (le_of_lt (two_zpow_pos _))
  · rename_i ht
    constructor
    · rw [le_div_iff₀ hbq]
      have : (2 : Rat) ^ (la - lb - 1) * (2 : Rat) ^ (lb + 1) = (2 : Rat) ^ la := by
        rw [← zpow_add₀ h2]; congr 1; ring
      calc (2 : Rat) ^ (la - lb - 1) * b ≤ (2 : Rat) ^ (la - lb - 1) * (2 : Rat) ^ (lb + 1) :=
            mul_le_mul_of_nonneg_left (le_of_lt b2q) (le_of_lt (two_zpow_pos _))
        _ = (2 : Rat) ^ la := this
        _ ≤ a := a1q
    · have : la - lb - 1 + 1 = la - lb := by ring
      rw [this]
      exact not_le.mp ht
theorem float_exp_spec (a b : Nat) :
    -149 ≤ float_exp a b ∧ binade a b - 23 ≤ float_exp a b
    ∧ (float_exp a b = binade a b - 23 ∨ float_exp a b = -149 ∧ binade a b - 23 < -149) := by
  unfold float_exp
  split
  · rename_i h
    exact ⟨le_refl _, by omega, Or.inr ⟨rfl, h⟩⟩
  · rename_i h
    exact ⟨by omega, le_refl _, Or.inl rfl⟩

theorem float_scaled (a b : Nat) (hb : 1 ≤ b) (e : Int) :
    0 < b * 2 ^ e.toNat
    ∧ ((a * 2 ^ (-e).toNat : Nat) : Rat) / ((b * 2 ^ e.toNat : Nat) : Rat)
        = (a : Rat) / b / (2 : Rat) ^ e := by
  have hp : 0 < 2 ^ e.toNat := pow_pos (by norm_num) _
  have hn : 0 < 2 ^ (-e).toNat := pow_pos (by norm_num) _
  have hpq : (0 : Rat) < ((2 ^ e.toNat : Nat) : Rat) := by exact_mod_cast hp
  have hnq : (0 : Rat) < ((2 ^ (-e).toNat : Nat) : Rat) := by exact_mod_cast hn
  have hbq : (0 : Rat) < b := by exact_mod_cast hb
  refine ⟨Nat.mul_pos hb hp, ?_⟩
  rw [two_zpow e, Nat.cast_mul, Nat.cast_mul]
  field_simp

theorem float_grid_nearest (a b : Nat) (hb : 1 ≤ b) (k : Int) :
    |(float_sig a b : Rat) * (2 : Rat) ^ float_exp a b - (a : Rat) / b|
      ≤ |(k : Rat) * (2 : Rat) ^ float_exp a b - (a : Rat) / b| := by
  obtain ⟨hB, hs⟩ := float_scaled a b hb (float_exp a b)
  have hn := round_half_even_nearest (a * 2 ^ (-(float_exp a b)).toNat)
    (b * 2 ^ (float_exp a b).toNat) hB k
  have hm : float_sig a b = round_half_even (a * 2 ^ (-(float_exp a b)).toNat)
    (b * 2 ^ (float_exp a b).toNat) := rfl
  rw [← hm] at hn
  generalize float_sig a b = m at hn ⊢
  generalize float_exp a b = e at hn hs hB ⊢
  generalize a * 2 ^ (-e).toNat = A at hn hs
  generalize b * 2 ^ e.toNat = B at hn hs hB
  have hBq : (0 : Rat) < B := by exact_mod_cast hB
  have hpe := two_zpow_pos e
  have hx : (a : Rat) / b = (A : Rat) / B * (2 : Rat) ^ e := by
    rw [hs]; field_simp; ring
  have hnq : |((m : Int) : Rat) * (B : Rat) - (A : Rat)| ≤ |(k : Rat) * (B : Rat) - (A : Rat)| := by
    exact_mod_cast hn
  have e1 : ∀ t : Rat, t * (2 : Rat) ^ e - (A : Rat) / B * (2 : Rat) ^ e
      = (t * B - A) * ((2 : Rat) ^ e / B) := by
    intro t; field_simp; ring
  have hpos : (0 : Rat) < (2 : Rat) ^ e / B := div_pos hpe hBq
  rw [hx, e1, e1, abs_mul, abs_mul, abs_of_pos hpos]
  have := mul_le_mul_of_nonneg_right hnq (le_of_lt hpos)
  simpa using this

theorem float_sig_le (a b n : Nat) (hb : 1 ≤ b)
    (h : (a : Rat) / b ≤ (n : Rat) * (2 : Rat) ^ float_exp a b) : float_sig a b ≤ n := by
  obtain ⟨hB, hs⟩ := float_scaled a b hb (float_exp a b)
  apply round_half_even_le _ _ _ hB
  have hBq : (0 : Rat) < ((b * 2 ^ (float_exp a b).toNat : Nat) : Rat) := by exact_mod_cast hB
  have hpe := two_zpow_pos (float_exp a b)
  have h1 : ((a * 2 ^ (-(float_exp a b)).toNat : Nat) : Rat)
      / ((b * 2 ^ (float_exp a b).toNat : Nat) : Rat) ≤ n := by
    rw [hs, div_le_iff₀ hpe]; exact h
  rw [div_le_iff₀ hBq] at h1
  exact_mod_cast h1
theorem binary32_abs_bound (M : Int) (hM : M.natAbs < 2 ^ 24) :
    |(M : Rat)| ≤ 16777215 := by
  have h1 : ((M.natAbs : Nat) : Rat) = |(M : Rat)| := by
    rw [Nat.cast_natAbs, Int.cast_abs]
  rw [← h1]
  have : M.natAbs ≤ 16777215 := by
    have h2 : (2 : Nat) ^ 24 = 16777216 := by norm_num
    omega
  exact_mod_cast this

theorem float_round_nearest (a b : Nat) (ha : 1 ≤ a) (hb : 1 ≤ b) (r : Rat)
    (hr : is_binary32 r) :
    |(float_sig a b : Rat) * (2 : Rat) ^ float_exp a b - (a : Rat) / b|
      ≤ |r - (a : Rat) / b| := by
  obtain ⟨M, E, hM, hE1, hE2, rfl⟩ := hr
  have h2 : (2 : Rat) ≠ 0 := by norm_num
  by_cases hE : float_exp a b ≤ E
  · have hk := float_grid_nearest a b hb (M * 2 ^ (E - float_exp a b).toNat)
    have hc : (((M * 2 ^ (E - float_exp a b).toNat : Int)) : Rat) * (2 : Rat) ^ float_exp a b
        = (M : Rat) * (2 : Rat) ^ E := by
      have h3 : (((E - float_exp a b).toNat : Nat) : Int) = E - float_exp a b :=
        Int.toNat_of_nonneg (by omega)
      have h4 : (2 : Rat) ^ (E - float_exp a b).toNat = (2 : Rat) ^ (E - float_exp a b) := by
        rw [← zpow_natCast, h3]
      push_cast
      rw [h4, mul_assoc, ← zpow_add₀ h2]
      congr 2
      ring
    rw [hc] at hk
    exact hk
  · obtain ⟨e1, e2, e3⟩ := float_exp_spec a b
    have he : float_exp a b = binade a b - 23 := by
      rcases e3 with h | ⟨h, _⟩
      · exact h
      · omega
    obtain ⟨x1, x2⟩ := binade_spec a b ha hb
    have hk := float_grid_nearest a b hb (2 ^ 23)
    have hg : (((2 ^ 23 : Int)) : Rat) * (2 : Rat) ^ float_exp a b = (2 : Rat) ^ binade a b := by
      have : (((2 ^ 23 : Int)) : Rat) = (2 : Rat) ^ (23 : Int) := by norm_num
      rw [this, ← zpow_add₀ h2, he]
      congr 1
      ring
    rw [hg] at hk
    have hMq := binary32_abs_bound M hM
    have hpE := two_zpow_pos E
    have hEle : (2 : Rat) ^ E ≤ (2 : Rat) ^ (binade a b - 24) :=
      zpow_le_zpow_right₀ (by norm_num) (by omega)
    have hsplit : (2 : Rat) ^ binade a b = 16777216 * (2 : Rat) ^ (binade a b - 24) := by
      have : (16777216 : Rat) = (2 : Rat) ^ (24 : Int) := by norm_num
      rw [this, ← zpow_add₀ h2]
      congr 1
      ring
    have hr1 : (M : Rat) * (2 : Rat) ^ E < (2 : Rat) ^ binade a b := by
      have h5 : (M : Rat) ≤ 16777215 := le_trans (le_abs_self _) hMq
      have hp24 := two_zpow_pos (binade a b - 24)
      calc (M : Rat) * (2 : Rat) ^ E ≤ 16777215 * (2 : Rat) ^ E :=
            mul_le_mul_of_nonneg_right h5 (le_of_lt hpE)
        _ ≤ 16777215 * (2 : Rat) ^ (binade a b - 24) :=
            mul_le_mul_of_nonneg_left hEle (by norm_num)
        _ < (2 : Rat) ^ binade a b := by rw [hsplit]; linarith
    have hk2 : |(2 : Rat) ^ binade a b - (a : Rat) / b| = (a : Rat) / b - (2 : Rat) ^ binade a b := by
      rw [abs_of_nonpos (by linarith)]; ring
    have hr2 : |(M : Rat) * (2 : Rat) ^ E - (a : Rat) / b|
        = (a : Rat) / b - (M : Rat) * (2 : Rat) ^ E := by
      rw [abs_of_nonpos (by linarith)]; ring
    rw [hk2] at hk
    rw [hr2]
    linarith

theorem float_round_binary32 (a b : Nat) (ha : 1 ≤ a) (hb : 1 ≤ b)
    (hmax : (a : Rat) / b ≤ FLT_MAX) :
    float_sig a b * 2 ^ (float_exp a b).toNat < 2 ^ 128
    ∧ is_binary32 ((float_sig a b : Rat) * (2 : Rat) ^ float_exp a b) := by
  have h2 : (2 : Rat) ≠ 0 := by norm_num
  obtain ⟨e1, e2, e3⟩ := float_exp_spec a b
  obtain ⟨x1, x2⟩ := binade_spec a b ha hb
  have hmax2 : FLT_MAX < (2 : Rat) ^ (128 : Int) := by
    unfold FLT_MAX; norm_num
  have hb0 : binade a b ≤ 127 := by
    by_contra hc
    have : (2 : Rat) ^ (128 : Int) ≤ (2 : Rat) ^ binade a b :=
      zpow_le_zpow_right₀ (by norm_num) (by omega)
    linarith
  have he104 : float_exp a b ≤ 104 := by
    rcases e3 with h | ⟨h, _⟩ <;> omega
  have hK : float_sig a b ≤ 16777215 * 2 ^ (104 - float_exp a b).toNat := by
    apply float_sig_le a b _ hb
    have h3 : (((104 - float_exp a b).toNat : Nat) : Int) = 104 - float_exp a b :=
      Int.toNat_of_nonneg (by omega)
    have h4 : (2 : Rat) ^ (104 - float_exp a b).toNat = (2 : Rat) ^ (104 - float_exp a b) := by
      rw [← zpow_natCast, h3]
    have h5 : (((16777215 * 2 ^ (104 - float_exp a b).toNat : Nat)) : Rat)
        * (2 : Rat) ^ float_exp a b = FLT_MAX := by
      push_cast
      rw [h4, mul_assoc, ← zpow_add₀ h2]
      have : 104 - float_exp a b + float_exp a b = (104 : Int) := by ring
      rw [this]
      unfold FLT_MAX; norm_num
    rw [h5]
    exact hmax
  have h24 : float_sig a b ≤ 16777216 := by
    apply float_sig_le a b _ hb
    have h5 : ((16777216 : Nat) : Rat) * (2 : Rat) ^ float_exp a b
        = (2 : Rat) ^ (float_exp a b + 24) := by
      have : ((16777216 : Nat) : Rat) = (2 : Rat) ^ (24 : Int) := by norm_num
      rw [this, ← zpow_add₀ h2]
      congr 1
      ring
    rw [h5]
    have : (2 : Rat) ^ (binade a b + 1) ≤ (2 : Rat) ^ (float_exp a b + 24) :=
      zpow_le_zpow_right₀ (by norm_num) (by omega)
    linarith
  constructor
  · rcases le_or_lt 0 (float_exp a b) with h | h
    · have h6 : (104 - float_exp a b).toNat + (float_exp a b).toNat = 104 := by omega
      calc float_sig a b * 2 ^ (float_exp a b).toNat
          ≤ 16777215 * 2 ^ (104 - float_exp a b).toNat * 2 ^ (float_exp a b).toNat :=
            Nat.mul_le_mul_right _ hK
        _ = 16777215 * 2 ^ 104 := by rw [Nat.mul_assoc, ← pow_add, h6]
        _ < 2 ^ 128 := by norm_num
    · have h6 : (float_exp a b).toNat = 0 := by omega
      rw [h6, pow_zero, Nat.mul_one]
      calc float_sig a b ≤ 16777216 := h24
        _ < 2 ^ 128 := by norm_num
  · by_cases hm : float_sig a b < 16777216
    · refine ⟨(float_sig a b : Int), float_exp a b, ?_, e1, he104, ?_⟩
      · rw [Int.natAbs_ofNat]
        calc float_sig a b < 16777216 := hm
          _ = 2 ^ 24 := by norm_num
      · push_cast
        rfl
    · have hm2 : float_sig a b = 16777216 := by omega
      have hne : float_exp a b ≠ 104 := by
        intro h
        rw [h] at hK
        simp at hK
        omega
      refine ⟨8388608, float_exp a b + 1, by decide, by omega, by omega, ?_⟩
      rw [hm2, zpow_add₀ h2]
      push_cast
      ring
theorem is_binary32_neg (r : Rat) (h : is_binary32 r) : is_binary32 (-r) := by
  obtain ⟨M, E, hM, h1, h2, rfl⟩ := h
  exact ⟨-M, E, by rw [Int.natAbs_neg]; exact hM, h1, h2, by push_cast; ring⟩

theorem c_float_split (q : Rat) (hn : q.num ≠ 0) :
    1 ≤ q.num.natAbs ∧ 1 ≤ q.den ∧ ((q.num.natAbs : Rat) / q.den = |q|)
    ∧ (q = (q.num.sign : Rat) * ((q.num.natAbs : Rat) / q.den))
    ∧ ((q.num.sign : Rat) = 1 ∨ (q.num.sign : Rat) = -1)
    ∧ (float_sig q.num.natAbs q.den * 2 ^ (float_exp q.num.natAbs q.den).toNat < 2 ^ 128 →
        c_float q = (q.num.sign : Rat)
          * ((float_sig q.num.natAbs q.den : Rat) * (2 : Rat) ^ float_exp q.num.natAbs q.den)) := by
  have ha : 1 ≤ q.num.natAbs := Int.natAbs_pos.mpr hn
  have hb : 1 ≤ q.den := q.den_pos
  have hbq : (0 : Rat) < q.den := by exact_mod_cast hb
  have hq : q = (q.num.sign : Rat) * ((q.num.natAbs : Rat) / q.den) := by
    have h1 : (q.num : Rat) = (q.num.sign : Rat) * (q.num.natAbs : Rat) := by
      have h0 : ((q.num.sign * (q.num.natAbs : Int) : Int) : Rat) = (q.num : Rat) := by
        rw [Int.sign_mul_natAbs]
      rw [Int.cast_mul, Int.cast_natCast] at h0
      exact h0.symm
    conv_lhs => rw [← Rat.num_div_den q, h1]
    ring
  have hs : (q.num.sign : Rat) = 1 ∨ (q.num.sign : Rat) = -1 := by
    rcases lt_trichotomy q.num 0 with h | h | h
    · right; rw [Int.sign_eq_neg_one_of_neg h]; norm_num
    · exact absurd h hn
    · left; rw [Int.sign_eq_one_of_pos h]; norm_num
  have hx0 : (0 : Rat) ≤ (q.num.natAbs : Rat) / q.den := by positivity
  have habs : (q.num.natAbs : Rat) / q.den = |q| := by
    conv_rhs => rw [hq]
    rw [abs_mul, abs_of_nonneg hx0]
    rcases hs with h | h <;> rw [h] <;> simp
  refine ⟨ha, hb, habs, hq, hs, ?_⟩
  intro hov
  unfold c_float
  rw [if_neg hn]
  simp only
  rw [if_neg (not_le.mpr hov), Rat.mkRat_eq_div, two_zpow (float_exp q.num.natAbs q.den)]
  push_cast
  ring

/-- Within the finite range, `c_float q` is a binary32 value and no binary32 value is nearer to `q`. -/
theorem c_float_nearest (q : Rat) (h : |q| ≤ FLT_MAX) :
    is_binary32 (c_float q) ∧ ∀ r : Rat, is_binary32 r → |c_float q - q| ≤ |r - q| := by
  by_cases hn : q.num = 0
  · have hq : q = 0 := Rat.zero_of_num_zero hn
    subst hq
    have hc : c_float 0 = 0 := by decide
    rw [hc]
    refine ⟨⟨0, 0, by decide, by decide, by decide, by simp⟩, ?_⟩
    intro r _
    simp
  · obtain ⟨ha, hb, habs, hq, hs, hval⟩ := c_float_split q hn
    rw [← habs] at h
    obtain ⟨hov, hrep⟩ := float_round_binary32 _ _ ha hb h
    have hv := hval hov
    have hnear := float_round_nearest _ _ ha hb
    rw [hv]
    generalize (float_sig q.num.natAbs q.den : Rat) * (2 : Rat) ^ float_exp q.num.natAbs q.den = v
      at hrep hnear
    generalize (q.num.natAbs : Rat) / q.den = x at hq hnear
    generalize (q.num.sign : Rat) = s at hq hs
    rcases hs with h1 | h1
    · subst h1
      rw [one_mul] at hq ⊢
      subst hq
      exact ⟨hrep, hnear⟩
    · subst h1
      rw [neg_one_mul] at hq ⊢
      subst hq
      refine ⟨is_binary32_neg _ hrep, ?_⟩
      intro r hr
      have := hnear (-r) (is_binary32_neg r hr)
      have e1 : -v - -x = -(v - x) := by ring
      have e2 : r - -x = -(-r - x) := by ring
      rw [e1, e2, abs_neg, abs_neg]
      exact this

/-- A binary32 value is unchanged by `c_float`. -/
theorem c_float_of_binary32 (q : Rat) (h : is_binary32 q) : c_float q = q := by
  have hmax : |q| ≤ FLT_MAX := by
    obtain ⟨M, E, hM, h1, h2, rfl⟩ := h
    have hMq := binary32_abs_bound M hM
    have hE : (2 : Rat) ^ E ≤ (2 : Rat) ^ (104 : Int) :=
      zpow_le_zpow_right₀ (by norm_num) h2
    rw [abs_mul, abs_of_pos (two_zpow_pos E)]
    calc |(M : Rat)| * (2 : Rat) ^ E ≤ 16777215 * (2 : Rat) ^ E :=
          mul_le_mul_of_nonneg_right hMq (le_of_lt (two_zpow_pos E))
      _ ≤ 16777215 * (2 : Rat) ^ (104 : Int) := mul_le_mul_of_nonneg_left hE (by norm_num)
      _ = FLT_MAX := by unfold FLT_MAX; norm_num
  have := (c_float_nearest q hmax).2 q h
  rw [sub_self, abs_zero] at this
  have h0 := abs_eq_zero.mp (le_antisymm this (abs_nonneg _))
  linarith
theorem round_half_even_cases3 (a b : Nat) :
    (2 * (a % b) < b ∧ round_half_even a b = a / b)
    ∨ (b < 2 * (a % b) ∧ round_half_even a b = a / b + 1)
    ∨ (2 * (a % b) = b ∧ round_half_even a b % 2 = 0
        ∧ (round_half_even a b = a / b ∨ round_half_even a b = a / b + 1)) := by
  unfold round_half_even
  simp only
  split
  · left; exact ⟨by assumption, rfl⟩
  · split
    · right; left; exact ⟨by assumption, rfl⟩
    · split
      · right; right; exact ⟨by omega, by assumption, Or.inl rfl⟩
      · right; right; exact ⟨by omega, by omega, Or.inr rfl⟩

/-- Another integer is as near to `a / b` only in a tie, and then the rounded one is even. -/
theorem round_half_even_tie (a b : Nat) (hb : 0 < b) (k : Int)
    (hne : k ≠ ((round_half_even a b : Nat) : Int))
    (heq : |k * b - a| = |((round_half_even a b : Nat) : Int) * b - a|) :
    round_half_even a b % 2 = 0
    ∧ (k = ((round_half_even a b : Nat) : Int) + 1 ∨ k = ((round_half_even a b : Nat) : Int) - 1) := by
  have hdm : (a : Int) = (b : Int) * ((a / b : Nat) : Int) + ((a % b : Nat) : Int) := by
    exact_mod_cast (Nat.div_add_mod a b).symm
  have hr : ((a % b : Nat) : Int) < b := by exact_mod_cast Nat.mod_lt _ hb
  have hr0 : (0 : Int) ≤ ((a % b : Nat) : Int) := Int.natCast_nonneg _
  have hbz : (0 : Int) < b := by exact_mod_cast hb
  have hc : (2 * ((a % b : Nat) : Int) < b
        ∧ ((round_half_even a b : Nat) : Int) = ((a / b : Nat) : Int))
      ∨ ((b : Int) < 2 * ((a % b : Nat) : Int)
        ∧ ((round_half_even a b : Nat) : Int) = ((a / b : Nat) : Int) + 1)
      ∨ (2 * ((a % b : Nat) : Int) = b ∧ round_half_even a b % 2 = 0
        ∧ (((round_half_even a b : Nat) : Int) = ((a / b : Nat) : Int)
          ∨ ((round_half_even a b : Nat) : Int) = ((a / b : Nat) : Int) + 1)) := by
    rcases round_half_even_cases3 a b with ⟨h1, h2⟩ | ⟨h1, h2⟩ | ⟨h1, h2, h3⟩
    · left; exact ⟨by exact_mod_cast h1, by rw [h2]⟩
    · right; left
      exact ⟨by exact_mod_cast h1, by rw [h2]; simp only [Nat.cast_add, Nat.cast_one]⟩
    · right; right
      refine ⟨by exact_mod_cast h1, h2, ?_⟩
      rcases h3 with h3 | h3
      · left; rw [h3]
      · right; rw [h3]; simp only [Nat.cast_add, Nat.cast_one]
  generalize round_half_even a b % 2 = par at hc ⊢
  generalize ((round_half_even a b : Nat) : Int) = m at hc hne heq ⊢
  generalize ((a / b : Nat) : Int) = q at hc hdm
  generalize ((a % b : Nat) : Int) = r at hc hdm hr hr0
  generalize (a : Int) = A at hdm heq
  generalize (b : Int) = B at hc hdm hr hbz heq
  have hlow : ∀ t : Int, t ≤ q - 1 → |t * B - A| = A - t * B ∧ r + B ≤ A - t * B := by
    intro t ht
    have : t * B ≤ (q - 1) * B := mul_le_mul_of_nonneg_right ht (le_of_lt hbz)
    have h0 : t * B - A ≤ 0 := by nlinarith
    rw [abs_of_nonpos h0]
    constructor
    · ring
    · nlinarith
  have hhigh : ∀ t : Int, q + 2 ≤ t → |t * B - A| = t * B - A ∧ 2 * B - r ≤ t * B - A := by
    intro t ht
    have : (q + 2) * B ≤ t * B := mul_le_mul_of_nonneg_right ht (le_of_lt hbz)
    have h0 : 0 ≤ t * B - A := by nlinarith
    rw [abs_of_nonneg h0]
    constructor
    · rfl
    · nlinarith
  have hq0 : |q * B - A| = r := by
    have : q * B - A = -r := by rw [hdm]; ring
    rw [this, abs_neg, abs_of_nonneg hr0]
  have hq1 : |(q + 1) * B - A| = B - r := by
    have : (q + 1) * B - A = B - r := by rw [hdm]; ring
    rw [this, abs_of_nonneg (by omega)]
  rcases le_or_lt k (q - 1) with hk | hk
  · obtain ⟨l1, l2⟩ := hlow k hk
    rcases hc with ⟨c1, c2⟩ | ⟨c1, c2⟩ | ⟨c1, c2, c3 | c3⟩
    · rw [c2, hq0] at heq; omega
    · rw [c2, hq1] at heq; omega
    · rw [c3, hq0] at heq; omega
    · rw [c3, hq1] at heq; omega
  · rcases le_or_lt (q + 2) k with hk2 | hk2
    · obtain ⟨l1, l2⟩ := hhigh k hk2
      rcases hc with ⟨c1, c2⟩ | ⟨c1, c2⟩ | ⟨c1, c2, c3 | c3⟩
      · rw [c2, hq0] at heq; omega
      · rw [c2, hq1] at heq; omega
      · rw [c3, hq0] at heq; omega
      · rw [c3, hq1] at heq; omega
    · have hk3 : k = q ∨ k = q + 1 := by omega
      rcases hc with ⟨c1, c2⟩ | ⟨c1, c2⟩ | ⟨c1, c2, c3 | c3⟩
      · rcases hk3 with h | h
        · exact absurd (h.trans c2.symm) hne
        · rw [c2, hq0, h, hq1] at heq; omega
      · rcases hk3 with h | h
        · rw [c2, hq1, h, hq0] at heq; omega
        · exact absurd (h.trans c2.symm) hne
      · refine ⟨c2, ?_⟩
        rcases hk3 with h | h
        · exact absurd (h.trans c3.symm) hne
        · left; rw [h, c3]
      · refine ⟨c2, ?_⟩
        rcases hk3 with h | h
        · right; rw [h, c3]; ring
        · exact absurd (h.trans c3.symm) hne
theorem float_grid_tie (a b : Nat) (hb : 1 ≤ b) (k : Int)
    (hne : k ≠ ((float_sig a b : Nat) : Int))
    (heq : |(k : Rat) * (2 : Rat) ^ float_exp a b - (a : Rat) / b|
      = |(float_sig a b : Rat) * (2 : Rat) ^ float_exp a b - (a : Rat) / b|) :
    float_sig a b % 2 = 0
    ∧ (k = ((float_sig a b : Nat) : Int) + 1 ∨ k = ((float_sig a b : Nat) : Int) - 1) := by
  obtain ⟨hB, hs⟩ := float_scaled a b hb (float_exp a b)
  have hm : float_sig a b = round_half_even (a * 2 ^ (-(float_exp a b)).toNat)
    (b * 2 ^ (float_exp a b).toNat) := rfl
  have ht := round_half_even_tie (a * 2 ^ (-(float_exp a b)).toNat)
    (b * 2 ^ (float_exp a b).toNat) hB k
  rw [← hm] at ht
  apply ht hne
  generalize float_sig a b = m at heq ⊢
  generalize float_exp a b = e at heq hs hB ⊢
  generalize a * 2 ^ (-e).toNat = A at hs ⊢
  generalize b * 2 ^ e.toNat = B at hs hB ⊢
  have hBq : (0 : Rat) < B := by exact_mod_cast hB
  have hpe := two_zpow_pos e
  have hx : (a : Rat) / b = (A : Rat) / B * (2 : Rat) ^ e := by
    rw [hs]; field_simp; ring
  have e1 : ∀ t : Rat, t * (2 : Rat) ^ e - (A : Rat) / B * (2 : Rat) ^ e
      = (t * B - A) * ((2 : Rat) ^ e / B) := by
    intro t; field_simp; ring
  have hpos : (0 : Rat) < (2 : Rat) ^ e / B := div_pos hpe hBq
  rw [hx, e1, e1, abs_mul, abs_mul, abs_of_pos hpos] at heq
  have h3 := mul_right_cancel₀ (ne_of_gt hpos) heq
  have h4 : ((|k * (B : Int) - (A : Int)| : Int) : Rat)
      = ((|((m : Nat) : Int) * (B : Int) - (A : Int)| : Int) : Rat) := by
    push_cast
    exact h3
  exact_mod_cast h4

theorem float_round_tie (a b : Nat) (ha : 1 ≤ a) (hb : 1 ≤ b) (r : Rat)
    (hr : is_binary32 r)
    (hne : r ≠ (float_sig a b : Rat) * (2 : Rat) ^ float_exp a b)
    (heq : |r - (a : Rat) / b|
      = |(float_sig a b : Rat) * (2 : Rat) ^ float_exp a b - (a : Rat) / b|) :
    ∃ k : Int, (float_sig a b : Rat) * (2 : Rat) ^ float_exp a b
      = 2 * (k : Rat) * (r - (float_sig a b : Rat) * (2 : Rat) ^ float_exp a b) := by
  obtain ⟨M, E, hM, hE1, hE2, rfl⟩ := hr
  have h2 : (2 : Rat) ≠ 0 := by norm_num
  by_cases hE : float_exp a b ≤ E
  · have hc : (((M * 2 ^ (E - float_exp a b).toNat : Int)) : Rat) * (2 : Rat) ^ float_exp a b
        = (M : Rat) * (2 : Rat) ^ E := by
      have h3 : (((E - float_exp a b).toNat : Nat) : Int) = E - float_exp a b :=
        Int.toNat_of_nonneg (by omega)
      have h4 : (2 : Rat) ^ (E - float_exp a b).toNat = (2 : Rat) ^ (E - float_exp a b) := by
        rw [← zpow_natCast, h3]
      push_cast
      rw [h4, mul_assoc, ← zpow_add₀ h2]
      congr 2
      ring
    rw [← hc] at hne heq ⊢
    generalize M * 2 ^ (E - float_exp a b).toNat = K at hne heq ⊢
    have hKne : K ≠ ((float_sig a b : Nat) : Int) := by
      intro h
      apply hne
      rw [h]
      simp only [Int.cast_natCast]
    obtain ⟨hpar, hk⟩ := float_grid_tie a b hb K hKne heq
    have hj : ((float_sig a b : Nat) : Rat) = 2 * ((float_sig a b / 2 : Nat) : Rat) := by
      have : float_sig a b = 2 * (float_sig a b / 2) := by omega
      exact_mod_cast this
    rcases hk with hk | hk
    · refine ⟨((float_sig a b / 2 : Nat) : Int), ?_⟩
      rw [hk]
      simp only [Int.cast_add, Int.cast_one, Int.cast_natCast]
      generalize ((float_sig a b / 2 : Nat) : Rat) = j at hj ⊢
      rw [hj]
      ring
    · refine ⟨-((float_sig a b / 2 : Nat) : Int), ?_⟩
      rw [hk]
      simp only [Int.cast_sub, Int.cast_neg, Int.cast_one, Int.cast_natCast]
      generalize ((float_sig a b / 2 : Nat) : Rat) = j at hj ⊢
      rw [hj]
      ring
  · exfalso
    obtain ⟨e1, e2, e3⟩ := float_exp_spec a b
    have he : float_exp a b = binade a b - 23 := by
      rcases e3 with h | ⟨h, _⟩
      · exact h
      · omega
    obtain ⟨x1, x2⟩ := binade_spec a b ha hb
    have hk := float_grid_nearest a b hb (2 ^ 23)
    have hg : (((2 ^ 23 : Int)) : Rat) * (2 : Rat) ^ float_exp a b = (2 : Rat) ^ binade a b := by
      have : (((2 ^ 23 : Int)) : Rat) = (2 : Rat) ^ (23 : Int) := by norm_num
      rw [this, ← zpow_add₀ h2, he]
      congr 1
      ring
    rw [hg] at hk
    have hMq := binary32_abs_bound M hM
    have hpE := two_zpow_pos E
    have hEle : (2 : Rat) ^ E ≤ (2 : Rat) ^ (binade a b - 24) :=
      zpow_le_zpow_right₀ (by norm_num) (by omega)
    have hsplit : (2 : Rat) ^ binade a b = 16777216 * (2 : Rat) ^ (binade a b - 24) := by
      have : (16777216 : Rat) = (2 : Rat) ^ (24 : Int) := by norm_num
      rw [this, ← zpow_add₀ h2]
      congr 1
      ring
    have hr1 : (M : Rat) * (2 : Rat) ^ E < (2 : Rat) ^ binade a b := by
      have h5 : (M : Rat) ≤ 16777215 := le_trans (le_abs_self _) hMq
      have hp24 := two_zpow_pos (binade a b - 24)
      calc (M : Rat) * (2 : Rat) ^ E ≤ 16777215 * (2 : Rat) ^ E :=
            mul_le_mul_of_nonneg_right h5 (le_of_lt hpE)
        _ ≤ 16777215 * (2 : Rat) ^ (binade a b - 24) :=
            mul_le_mul_of_nonneg_left hEle (by norm_num)
        _ < (2 : Rat) ^ binade a b := by rw [hsplit]; linarith
    have hk2 : |(2 : Rat) ^ binade a b - (a : Rat) / b| = (a : Rat) / b - (2 : Rat) ^ binade a b := by
      rw [abs_of_nonpos (by linarith)]; ring
    have hr2 : |(M : Rat) * (2 : Rat) ^ E - (a : Rat) / b|
        = (a : Rat) / b - (M : Rat) * (2 : Rat) ^ E := by
      rw [abs_of_nonpos (by linarith)]; ring
    rw [hk2] at hk
    rw [hr2] at heq
    linarith

/-- When another binary32 value is as near to `q` as `c_float q`, the two are neighbours and
`c_float q` is the one with the even significand. -/
theorem c_float_ties_even (q : Rat) (h : |q| ≤ FLT_MAX) (r : Rat) (hr : is_binary32 r)
    (hne : r ≠ c_float q) (heq : |r - q| = |c_float q - q|) :
    ∃ k : Int, c_float q = 2 * (k : Rat) * (r - c_float q) := by
  by_cases hn : q.num = 0
  · exfalso
    have hq : q = 0 := Rat.zero_of_num_zero hn
    subst hq
    have hc : c_float 0 = 0 := by decide
    rw [hc] at hne heq
    rw [sub_zero, sub_zero, abs_zero] at heq
    exact hne (abs_eq_zero.mp heq)
  · obtain ⟨ha, hb, habs, hq, hs, hval⟩ := c_float_split q hn
    rw [← habs] at h
    obtain ⟨hov, hrep⟩ := float_round_binary32 _ _ ha hb h
    have hv := hval hov
    have htie := float_round_tie _ _ ha hb
    rw [hv] at hne heq ⊢
    generalize (float_sig q.num.natAbs q.den : Rat) * (2 : Rat) ^ float_exp q.num.natAbs q.den = v
      at hrep htie hne heq ⊢
    generalize (q.num.natAbs : Rat) / q.den = x at hq htie
    generalize (q.num.sign : Rat) = s at hq hs hne heq ⊢
    rcases hs with h1 | h1
    · subst h1
      rw [one_mul] at hq hne heq ⊢
      subst hq
      exact htie r hr hne heq
    · subst h1
      rw [neg_one_mul] at hq hne heq ⊢
      subst hq
      have hne2 : -r ≠ v := by
        intro hc
        apply hne
        rw [← hc]
        ring
      have e1 : -v - -x = -(v - x) := by ring
      have e2 : r - -x = -(-r - x) := by ring
      rw [e1, e2, abs_neg, abs_neg] at heq
      obtain ⟨k, hk⟩ := htie (-r) (is_binary32_neg r hr) hne2 heq
      refine ⟨k, ?_⟩
      linear_combination (-1 : Rat) * hk


theorem c_int_wraps (v : Int) : wraps_to_int v (c_int v) := c_int_range v

theorem c_u64_wraps (v : Int) : wraps_to_u64 v (c_u64 v) := by
  unfold wraps_to_u64 c_u64
  omega

theorem c_int_of_float_truncates (q : Rat) (h1 : (-2147483649 : Rat) < q)
    (h2 : q < (2147483648 : Rat)) : truncates_to_int q (c_int_of_float q) :=
  c_int_of_float_trunc q h1 h2

theorem c_float_rounds (q : Rat) (h : |q| ≤ FLT_MAX) : rounds_to_float q (c_float q) :=
  ⟨(c_float_nearest q h).1, (c_float_nearest q h).2,
    fun r2 hr hne heq => c_float_ties_even q h r2 hr hne heq⟩

/-- Only one integer is the conversion of `v` to `int`. -/
theorem wraps_to_int_unique (v w1 w2 : Int) (h1 : wraps_to_int v w1) (h2 : wraps_to_int v w2) :
    w1 = w2 := by
  unfold wraps_to_int at h1 h2
  omega

/-- Only one integer is the truncation of `q`. -/
theorem truncates_to_int_unique (q : Rat) (t1 t2 : Int) (h1 : truncates_to_int q t1)
    (h2 : truncates_to_int q t2) : t1 = t2 := by
  rcases le_total 0 q with h | h
  · obtain ⟨a1, a2⟩ := h1.1 h
    obtain ⟨b1, b2⟩ := h2.1 h
    have c1 : (t1 : Rat) < (t2 : Rat) + 1 := lt_of_le_of_lt a1 b2
    have c2 : (t2 : Rat) < (t1 : Rat) + 1 := lt_of_le_of_lt b1 a2
    have d1 : t1 < t2 + 1 := by exact_mod_cast c1
    have d2 : t2 < t1 + 1 := by exact_mod_cast c2
    omega
  · obtain ⟨a1, a2⟩ := h1.2 h
    obtain ⟨b1, b2⟩ := h2.2 h
    have c1 : (t1 : Rat) - 1 < (t2 : Rat) := lt_of_lt_of_le a1 b2
    have c2 : (t2 : Rat) - 1 < (t1 : Rat) := lt_of_lt_of_le b1 a2
    have d1 : t1 - 1 < t2 := by exact_mod_cast c1
    have d2 : t2 - 1 < t1 := by exact_mod_cast c2
    omega

/-- Only one value is the `float` that `q` rounds to. -/
theorem rounds_to_float_unique (q r1 r2 : Rat) (h1 : rounds_to_float q r1)
    (h2 : rounds_to_float q r2) : r1 = r2 := by
  by_contra hne
  obtain ⟨a1, a2, a3⟩ := h1
  obtain ⟨b1, b2, b3⟩ := h2
  have heq : |r2 - q| = |r1 - q| := le_antisymm (b2 r1 a1) (a2 r2 b1)
  obtain ⟨k1, e1⟩ := a3 r2 b1 (fun h => hne h.symm) heq
  obtain ⟨k2, e2⟩ := b3 r1 a1 hne heq.symm
  have hu : r2 - r1 ≠ 0 := fun h => hne (by linarith)
  have hz : (r2 - r1) * (1 + 2 * (k1 : Rat) + 2 * (k2 : Rat)) = 0 := by
    have : r2 - r1 = 2 * (k2 : Rat) * (r1 - r2) - 2 * (k1 : Rat) * (r2 - r1) := by
      linarith
    linear_combination this
  have hk : (1 + 2 * (k1 : Rat) + 2 * (k2 : Rat)) = 0 := by
    rcases mul_eq_zero.mp hz with h | h
    · exact absurd h hu
    · exact h
  have hk2 : (1 + 2 * k1 + 2 * k2 : Int) = 0 := by exact_mod_cast hk
  omega

theorem one_tenth_narrowed : c_float one_tenth = one_tenth_float := by decide

theorem coerce_int_converted (a : t_atom) (h : a.a_type = .A_LONG ∨ a.a_type = .A_FLOAT) :
    converted_atom 'i' a (.i (atom_coerce_int a)) := by
  cases a with
  | A_LONG v => exact ⟨rfl, c_int_wraps v⟩
  | A_FLOAT q =>
    exact ⟨rfl, fun h1 h2 => c_int_of_float_truncates q h1 h2,
      fun h3 => c_int_of_float_out_of_range q h3⟩
  | A_SYM n => simp [t_atom.a_type] at h
  | A_OBJ p => simp [t_atom.a_type] at h

theorem coerce_float_converted (a : t_atom) (h : a.a_type = .A_LONG ∨ a.a_type = .A_FLOAT) :
    converted_atom 'f' a (.f (atom_coerce_float a)) := by
  cases a with
  | A_LONG v => exact ⟨rfl, fun hm => c_float_rounds v hm⟩
  | A_FLOAT q => exact ⟨rfl, fun hm => c_float_rounds q hm⟩
  | A_SYM n => simp [t_atom.a_type] at h
  | A_OBJ p => simp [t_atom.a_type] at h

theorem forall2_map_of {α β : Type} (R : α → β → Prop) (f : α → β) (l : List α)
    (h : ∀ a ∈ l, R a (f a)) : List.Forall₂ R l (l.map f) := by
  induction l with
  | nil => exact List.Forall₂.nil
  | cons a rest ih =>
    exact List.Forall₂.cons (h a (List.mem_cons_self _ _))
      (ih (fun b hb => h b (List.mem_cons_of_mem _ hb)))

theorem expected_prop_forwarded (g : t_group) (hg : plain_group g) :
    (expected_prop g).key = .named (str_tail g.key)
    ∧ List.Forall₂ (forwarded_atom (expected_prop g).type) g.vals (expected_prop g).value := by
  obtain ⟨_, _, _, hobj, hall, _⟩ := hg
  unfold expected_prop
  cases ht : g.type with
  | A_SYM =>
    refine ⟨rfl, forall2_map_of _ _ g.vals ?_⟩
    intro a ha
    have := hall a ha
    rw [ht] at this
    cases a <;> simp [t_atom.a_type] at this
    exact ⟨rfl, rfl⟩
  | A_FLOAT =>
    refine ⟨rfl, forall2_map_of _ _ g.vals ?_⟩
    intro a ha
    have := hall a ha
    rw [ht] at this
    cases a <;> simp [t_atom.a_type] at this
    exact ⟨rfl, fun hm => c_float_rounds _ hm⟩
  | A_LONG =>
    refine ⟨rfl, forall2_map_of _ _ g.vals ?_⟩
    intro a ha
    have := hall a ha
    rw [ht] at this
    cases a <;> simp [t_atom.a_type] at this
    exact ⟨rfl, c_int_wraps _⟩
  | A_OBJ => exact absurd ht hobj

theorem sig_set_prop_core (s : mpr_sig) (k : prop_key) (t : Char) (v : List prop_val) :
    (sig_set_prop s k t v).core = s.core := rfl

theorem sig_remove_inst_core (s : mpr_sig) (id : Int) : (sig_remove_inst s id).core = s.core := rfl

theorem sig_reserve_inst_core (s : mpr_sig) (id : Int) (data : Option Nat) :
    (sig_reserve_inst s id data).core = s.core := by
  unfold sig_reserve_inst; split <;> rfl

theorem mapin_reserve_core (x : t_mapin) (s : mpr_sig) : (mapin_reserve x s).2.core = s.core := by
  unfold mapin_reserve
  simp only [sig_reserve_inst_core]
  split <;> rfl

theorem mapin_parse_loop_core_aux : ∀ (n : Nat) (l : List t_atom), l.length ≤ n →
    ∀ (x : t_mapin) (s : mpr_sig), (mapin_parse_loop l x s).2.core = s.core := by
  intro n
  induction n with
  | zero =>
    intro l hl x s
    have : l = [] := List.length_eq_zero.mp (Nat.le_zero.mp hl)
    subst this; rfl
  | succ n ih =>
    intro l hl x s
    match l, hl with
    | [], _ => rfl
    | [_], _ => rfl
    | a :: b :: rest, hl =>
      have h1 : rest.length ≤ n := by simp at hl; omega
      have h2 : (b :: rest).length ≤ n := by simp at hl ⊢; omega
      simp only [mapin_parse_loop]
      repeat' split
      all_goals first
        | rfl
        | exact ih _ h1 _ _
        | exact ih _ h2 _ _
        | exact (ih _ h1 _ _).trans (mapin_reserve_core _ _)

theorem mapin_parse_loop_core (l : List t_atom) (x : t_mapin) (s : mpr_sig) :
    (mapin_parse_loop l x s).2.core = s.core :=
  mapin_parse_loop_core_aux l.length l (Nat.le_refl _) x s

theorem modify_sig_core_eq (d : mpr_dev) (h : Nat) (f : mpr_sig → mpr_sig)
    (hf : ∀ s ∈ d.sigs, s.handle = h → (f s).core = s.core) :
    (d.modify_sig h f).sigs.map mpr_sig.core = d.sigs.map mpr_sig.core := by
  unfold mpr_dev.modify_sig
  simp only [List.map_map]
  apply List.map_congr_left
  intro s hs
  simp only [Function.comp]
  split
  · exact hf s hs (by assumption)
  · rfl

theorem find_sig_some (d : mpr_dev) (h : Nat) (s : mpr_sig) (hs : d.find_sig h = some s) :
    s ∈ d.sigs ∧ s.handle = h := by
  unfold mpr_dev.find_sig at hs
  exact ⟨List.mem_of_find?_eq_some hs, by simpa using List.find?_some hs⟩

theorem set_sig_ptr_core (x : t_mapin) (argv : List t_atom) (d : mpr_dev)
    (hd : (d.sigs.map (fun s => s.handle)).Nodup) :
    (set_sig_ptr x argv d).2.sigs.map mpr_sig.core = d.sigs.map mpr_sig.core
    ∧ (set_sig_ptr x argv d).2.next_sig = d.next_sig
    ∧ (set_sig_ptr x argv d).2.calls = d.calls := by
  unfold set_sig_ptr
  cases argv with
  | nil => exact ⟨rfl, rfl, rfl⟩
  | cons a tl =>
    cases a with
    | A_LONG v => exact ⟨rfl, rfl, rfl⟩
    | A_FLOAT v => exact ⟨rfl, rfl, rfl⟩
    | A_SYM v => exact ⟨rfl, rfl, rfl⟩
    | A_OBJ p =>
      cases p with
      | none => exact ⟨rfl, rfl, rfl⟩
      | some h =>
        cases hs : d.find_sig h with
        | none => simp [hs]
        | some s =>
          simp only [hs]
          refine ⟨?_, rfl, rfl⟩
          apply modify_sig_core_eq
          intro s' hs' hh
          obtain ⟨hmem, hh2⟩ := find_sig_some d h s hs
          have : s' = s := List.inj_on_of_nodup_map hd hs' hmem (hh.trans hh2.symm)
          subst this
          exact mapin_parse_loop_core _ _ _

theorem modify_sig_core (d : mpr_dev) (h : Nat) (f : mpr_sig → mpr_sig) :
    (d.modify_sig h f).sigs.map mpr_sig.core
      = d.sigs.map (fun s => if s.handle = h then (f s).core else s.core) := by
  unfold mpr_dev.modify_sig
  simp only [List.map_map]
  apply List.map_congr_left
  intro s _
  simp only [Function.comp]
  split <;> rfl

theorem handles_eq_of_core (l l' : List mpr_sig)
    (h : l'.map mpr_sig.core = l.map mpr_sig.core) :
    l'.map (fun s => s.handle) = l.map (fun s => s.handle) := by
  have := congrArg (List.map Prod.fst) h
  simpa [List.map_map, Function.comp, mpr_sig.core] using this

theorem filter_name_core (l l' : List mpr_sig) (name : String)
    (h : l'.map mpr_sig.core = l.map mpr_sig.core) :
    (mpr_list_filter_name l' name).map mpr_sig.core
      = (mpr_list_filter_name l name).map mpr_sig.core := by
  induction l generalizing l' with
  | nil =>
    have : l' = [] := by simpa using h
    subst this; rfl
  | cons a l ih =>
    cases l' with
    | nil => simp at h
    | cons b l' =>
      simp only [List.map_cons, List.cons.injEq] at h
      have hn : b.name = a.name := by
        have := congrArg (fun c => c.2.1) h.1
        simpa [mpr_sig.core] using this
      have := ih l' h.2
      unfold mpr_list_filter_name at this ⊢
      simp only [List.filter_cons, hn]
      split
      · simp only [List.map_cons, h.1, this]
      · exact this

/-- What the found branch of `mapdevice_add_signal` writes into the
`t_map_ptrs` of the signal. -/
theorem add_signal_found_core (x : t_mapdevice) (obj : t_mapin) (dir : mpr_dir)
    (sig : mpr_sig) (rest : List mpr_sig)
    (hw : x.device.wf) (hc : dir_of_class obj.classname = some dir)
    (hf : mpr_list_filter_name (mpr_dev_get_sigs x.device .MPR_DIR_ANY) obj.sig_name
            = sig :: rest) :
    (mapdevice_add_signal x obj).1.device.sigs.map mpr_sig.core
      = x.device.sigs.map (fun s => if s.handle = sig.handle then
          (s.handle, s.name, s.dir,
            ({ sig.data with
                objs := (realloc_objs sig.data.objs (sig.data.num_objs + 1)).set
                          sig.data.num_objs obj.myobjname,
                num_objs := sig.data.num_objs + 1 } : t_map_ptrs))
          else s.core)
    ∧ (mapdevice_add_signal x obj).1.device.next_sig = x.device.next_sig := by
  unfold mapdevice_add_signal
  simp only [hc, hf]
  have hcore := modify_sig_core x.device sig.handle
    (fun s => { s with data := { sig.data with
                objs := (realloc_objs sig.data.objs (sig.data.num_objs + 1)).set
                          sig.data.num_objs obj.myobjname,
                num_objs := sig.data.num_objs + 1 } })
  have hnd : ((x.device.modify_sig sig.handle
    (fun s => { s with data := { sig.data with
                objs := (realloc_objs sig.data.objs (sig.data.num_objs + 1)).set
                          sig.data.num_objs obj.myobjname,
                num_objs := sig.data.num_objs + 1 } })).sigs.map (fun s => s.handle)).Nodup := by
    have : (x.device.modify_sig sig.handle
      (fun s => { s with data := { sig.data with
                objs := (realloc_objs sig.data.objs (sig.data.num_objs + 1)).set
                          sig.data.num_objs obj.myobjname,
                num_objs := sig.data.num_objs + 1 } })).sigs.map (fun s => s.handle)
        = x.device.sigs.map (fun s => s.handle) := by
      unfold mpr_dev.modify_sig
      simp only [List.map_map]
      apply List.map_congr_left
      intro s _
      simp only [Function.comp]
      split <;> rfl
    rw [this]; exact hw.1
  obtain ⟨h1, h2, _⟩ := set_sig_ptr_core (set_dev_obj obj
      (((x.buffer.set 0 (.A_LONG _)).set 0 (.A_OBJ (some x.id))).take 1))
    ((((x.buffer.set 0 (.A_LONG _)).set 0 (.A_OBJ (some x.id))).set 0
      (.A_OBJ (some sig.handle))).take 1) _ hnd
  refine ⟨?_, ?_⟩
  · rw [h1, hcore]; rfl
  · rw [h2]; rfl

/-- What the not-found branch of `mapdevice_add_signal` adds to the device. -/
theorem add_signal_new_core (x : t_mapdevice) (obj : t_mapin) (dir : mpr_dir)
    (hw : x.device.wf) (hc : dir_of_class obj.classname = some dir)
    (hf : mpr_list_filter_name (mpr_dev_get_sigs x.device .MPR_DIR_ANY) obj.sig_name = []) :
    (mapdevice_add_signal x obj).1.device.sigs.map mpr_sig.core
      = x.device.sigs.map mpr_sig.core ++
          [(x.device.next_sig, obj.sig_name, dir,
            ({ home := x.id, num_objs := 1, objs := [obj.myobjname] } : t_map_ptrs))]
    ∧ (mapdevice_add_signal x obj).1.device.next_sig = x.device.next_sig + 1 := by
  unfold mapdevice_add_signal
  simp only [hc, hf]
  have hcore : ((mpr_sig_new x.device dir obj.sig_name (c_int obj.sig_length) obj.sig_type).1.modify_sig
      (mpr_sig_new x.device dir obj.sig_name (c_int obj.sig_length) obj.sig_type).2.handle
      (fun s => { s with data := { home := x.id, num_objs := 1, objs := [obj.myobjname] } })).sigs.map
        mpr_sig.core
      = x.device.sigs.map mpr_sig.core ++
          [(x.device.next_sig, obj.sig_name, dir,
            ({ home := x.id, num_objs := 1, objs := [obj.myobjname] } : t_map_ptrs))] := by
    rw [modify_sig_core]
    simp only [mpr_sig_new, List.map_append, List.map_cons, List.map_nil, if_true]
    congr 1
    apply List.map_congr_left
    intro s hs
    have := hw.2 s hs
    rw [if_neg (by omega)]
  have hnd : (((mpr_sig_new x.device dir obj.sig_name (c_int obj.sig_length) obj.sig_type).1.modify_sig
      (mpr_sig_new x.device dir obj.sig_name (c_int obj.sig_length) obj.sig_type).2.handle
      (fun s => { s with data := { home := x.id, num_objs := 1, objs := [obj.myobjname] } })).sigs.map
        (fun s => s.handle)).Nodup := by
    have h := congrArg (List.map Prod.fst) hcore
    simp only [List.map_map, List.map_append, List.map_cons, List.map_nil] at h
    have e : (Prod.fst ∘ mpr_sig.core) = (fun s : mpr_sig => s.handle) := rfl
    rw [e] at h
    rw [h]
    apply List.Nodup.append hw.1 (List.nodup_singleton _)
    intro a ha hb
    simp only [List.mem_singleton] at hb
    obtain ⟨s, hs, rfl⟩ := List.mem_map.mp ha
    have := hw.2 s hs
    omega
  obtain ⟨h1, h2, _⟩ := set_sig_ptr_core (set_dev_obj obj
      (((x.buffer.set 0 (.A_LONG _)).set 0 (.A_OBJ (some x.id))).take 1))
    ((((x.buffer.set 0 (.A_LONG _)).set 0 (.A_OBJ (some x.id))).set 0
      (.A_OBJ (some (mpr_sig_new x.device dir obj.sig_name (c_int obj.sig_length)
        obj.sig_type).2.handle))).take 1) _ hnd
  refine ⟨?_, ?_⟩
  · rw [h1, hcore]
  · rw [h2]; rfl

theorem wf_of_handles (d d' : mpr_dev) (hw : d.wf)
    (hh : d'.sigs.map (fun s => s.handle) = d.sigs.map (fun s => s.handle))
    (hn : d'.next_sig = d.next_sig) : d'.wf := by
  refine ⟨by rw [hh]; exact hw.1, ?_⟩
  intro s hs
  have : s.handle ∈ d'.sigs.map (fun s => s.handle) := List.mem_map.mpr ⟨s, hs, rfl⟩
  rw [hh] at this
  obtain ⟨t, ht, e⟩ := List.mem_map.mp this
  have := hw.2 t ht
  rw [hn]
  have e2 : t.handle = s.handle := e
  omega

theorem get_sigs_any (d : mpr_dev) : mpr_dev_get_sigs d .MPR_DIR_ANY = d.sigs := rfl

theorem realloc_set_append (L : List Nat) (o : Nat) :
    (realloc_objs L (L.length + 1)).set L.length o = L ++ [o] := by
  unfold realloc_objs
  have h1 : List.take (L.length + 1) L = L := List.take_of_length_le (by omega)
  have h2 : L.length + 1 - L.length = 1 := by omega
  rw [h1, h2]
  simp [List.set_append]

theorem filter_handles_ne (l : List mpr_sig) (name : String) (sig : mpr_sig) (rest : List mpr_sig)
    (hnd : (l.map (fun s => s.handle)).Nodup)
    (hf : mpr_list_filter_name l name = sig :: rest) :
    ∀ r ∈ rest, r.handle ≠ sig.handle := by
  have hsub : (sig :: rest).Sublist l := by
    rw [← hf]; exact List.filter_sublist l
  have hnd2 := List.Nodup.sublist (List.Sublist.map (fun s => s.handle) hsub) hnd
  simp only [List.map_cons, List.nodup_cons, List.mem_map, not_exists, not_and] at hnd2
  intro r hr e
  exact hnd2.1 r hr e

theorem filter_name_modify (d : mpr_dev) (h : Nat) (f : mpr_sig → mpr_sig) (name : String)
    (hf : ∀ s, (f s).name = s.name) :
    mpr_list_filter_name (d.modify_sig h f).sigs name
      = (mpr_list_filter_name d.sigs name).map (fun s => if s.handle = h then f s else s) := by
  unfold mpr_list_filter_name mpr_dev.modify_sig
  simp only
  rw [List.filter_map]
  congr 1
  apply List.filter_congr
  intro s _
  simp only [Function.comp]
  split <;> simp [hf]

/-- One `mapdevice_add_signal` on a device that already has a signal of the
declared name: the endpoint is appended to the first such signal. -/
theorem add_signal_found_named (x : t_mapdevice) (obj : t_mapin) (dir d : mpr_dir)
    (n : Nat) (L : List Nat) (rest : List (mpr_dir × Nat × List Nat))
    (hw : x.device.wf) (hc : dir_of_class obj.classname = some dir)
    (hb : bound_named x obj.sig_name = (d, n, L) :: rest) (hn : n = L.length) :
    bound_named (mapdevice_add_signal x obj).1 obj.sig_name
        = (d, n + 1, L ++ [obj.myobjname]) :: rest
    ∧ (mapdevice_add_signal x obj).1.device.wf := by
  unfold bound_named at hb
  cases hfl : mpr_list_filter_name (mpr_dev_get_sigs x.device .MPR_DIR_ANY) obj.sig_name with
  | nil => rw [hfl] at hb; simp at hb
  | cons sig rest' =>
    rw [hfl] at hb
    simp only [List.map_cons, List.cons.injEq, Prod.mk.injEq] at hb
    obtain ⟨⟨hd1, hd2, hd3⟩, hrest⟩ := hb
    obtain ⟨hcore, hnext⟩ := add_signal_found_core x obj dir sig rest' hw hc hfl
    have hcore' : (mapdevice_add_signal x obj).1.device.sigs.map mpr_sig.core
        = (x.device.modify_sig sig.handle (fun s => { s with data :=
            { sig.data with
                objs := (realloc_objs sig.data.objs (sig.data.num_objs + 1)).set
                          sig.data.num_objs obj.myobjname,
                num_objs := sig.data.num_objs + 1 } })).sigs.map mpr_sig.core := by
      rw [hcore, modify_sig_core]; rfl
    have hwf' : (mapdevice_add_signal x obj).1.device.wf := by
      refine wf_of_handles x.device _ hw ?_ hnext
      have := congrArg (List.map Prod.fst) hcore
      simp only [List.map_map] at this
      have e : (Prod.fst ∘ mpr_sig.core) = (fun s : mpr_sig => s.handle) := rfl
      rw [e] at this
      rw [this]
      apply List.map_congr_left
      intro s _
      simp only [Function.comp]
      split <;> rfl
    refine ⟨?_, hwf'⟩
    have hproj : ∀ l : List mpr_sig, l.map (fun s => (s.dir, s.data.num_objs, s.data.objs))
        = (l.map mpr_sig.core).map (fun c => (c.2.2.1, c.2.2.2.num_objs, c.2.2.2.objs)) := by
      intro l; simp [List.map_map, Function.comp, mpr_sig.core]
    unfold bound_named
    rw [get_sigs_any] at hfl ⊢
    rw [hproj, filter_name_core _ _ obj.sig_name hcore', ← hproj]
    have hfl2 : mpr_list_filter_name x.device.sigs obj.sig_name = sig :: rest' := hfl
    rw [filter_name_modify, hfl2]
    swap
    · intro s; rfl
    simp only [List.map_cons, List.map_map, if_true, List.cons.injEq, Prod.mk.injEq]
    refine ⟨⟨hd1, ?_, ?_⟩, ?_⟩
    · omega
    · simp only [hd2, hd3, hn]; exact realloc_set_append L _
    · rw [← hrest]
      apply List.map_congr_left
      intro r hr
      have := filter_handles_ne x.device.sigs obj.sig_name sig rest' hw.1 hfl2 r hr
      simp only [Function.comp, if_neg this]

theorem filter_name_map_core (l : List mpr_sig) (name : String) :
    (mpr_list_filter_name l name).map mpr_sig.core
      = (l.map mpr_sig.core).filter (fun c => c.2.1 = name) := by
  unfold mpr_list_filter_name
  rw [List.filter_map]
  rfl

theorem bound_named_eq (x : t_mapdevice) (name : String) :
    bound_named x name
      = ((x.device.sigs.map mpr_sig.core).filter (fun c => c.2.1 = name)).map
          (fun c => (c.2.2.1, c.2.2.2.num_objs, c.2.2.2.objs)) := by
  unfold bound_named
  rw [get_sigs_any, ← filter_name_map_core, List.map_map]
  rfl

/-- One `mapdevice_add_signal` on a device without a signal of the declared
name: one signal is created, with the endpoint as its only entry. -/
theorem add_signal_new_named (x : t_mapdevice) (obj : t_mapin) (dir : mpr_dir)
    (hw : x.device.wf) (hc : dir_of_class obj.classname = some dir)
    (hb : bound_named x obj.sig_name = []) :
    bound_named (mapdevice_add_signal x obj).1 obj.sig_name = [(dir, 1, [obj.myobjname])]
    ∧ (mapdevice_add_signal x obj).1.device.wf := by
  have hfl : mpr_list_filter_name (mpr_dev_get_sigs x.device .MPR_DIR_ANY) obj.sig_name = [] := by
    unfold bound_named at hb
    exact List.map_eq_nil_iff.mp hb
  obtain ⟨hcore, hnext⟩ := add_signal_new_core x obj dir hw hc hfl
  constructor
  · rw [bound_named_eq, hcore, List.filter_append, ← filter_name_map_core]
    rw [get_sigs_any] at hfl
    rw [hfl]
    simp
  · have hh := congrArg (List.map Prod.fst) hcore
    simp only [List.map_map, List.map_append, List.map_cons, List.map_nil] at hh
    have e : (Prod.fst ∘ mpr_sig.core) = (fun s : mpr_sig => s.handle) := rfl
    rw [e] at hh
    refine ⟨?_, ?_⟩
    · rw [hh]
      apply List.Nodup.append hw.1 (List.nodup_singleton _)
      intro a ha hb'
      simp only [List.mem_singleton] at hb'
      obtain ⟨s, hs, rfl⟩ := List.mem_map.mp ha
      have := hw.2 s hs
      omega
    · intro s hs
      have : s.handle ∈ (mapdevice_add_signal x obj).1.device.sigs.map (fun s => s.handle) :=
        List.mem_map.mpr ⟨s, hs, rfl⟩
      rw [hh] at this
      rw [hnext]
      rcases List.mem_append.mp this with h | h
      · obtain ⟨t, ht, e2⟩ := List.mem_map.mp h
        have := hw.2 t ht
        have e3 : t.handle = s.handle := e2
        omega
      · simp only [List.mem_singleton] at h
        omega

theorem erase_eq_eraseIdx_indexOf (l : List Nat) (e : Nat) :
    l.erase e = l.eraseIdx (l.indexOf e) := by
  induction l with
  | nil => rfl
  | cons a l ih =>
    by_cases h : a = e
    · subst h; simp
    · rw [List.erase_cons_tail (by simpa using h), List.indexOf_cons_ne _ h, List.eraseIdx_cons_succ, ih]

theorem find_obj_loop_eq (objs : List Nat) (e : Nat) :
    ∀ (fuel i : Nat), i + fuel = objs.length →
      find_obj_loop objs objs.length e fuel i = i + (objs.drop i).indexOf e := by
  intro fuel
  induction fuel with
  | zero =>
    intro i hi
    have : objs.drop i = [] := List.drop_eq_nil_of_le (by omega)
    simp [find_obj_loop, this]
  | succ fuel ih =>
    intro i hi
    have hlt : i < objs.length := by omega
    have hd : objs.drop i = objs[i] :: objs.drop (i + 1) := List.drop_eq_getElem_cons hlt
    simp only [find_obj_loop, hlt, if_true, List.getElem?_eq_getElem hlt, Option.some.injEq]
    by_cases h : objs[i] = e
    · simp [h, hd]
    · rw [if_neg h, ih (i + 1) (by omega), hd, List.indexOf_cons_ne _ h]
      omega

theorem shift_loop_length (n : Nat) : ∀ (fuel i : Nat) (objs : List Nat),
    (shift_loop n fuel i objs).length = objs.length := by
  intro fuel
  induction fuel with
  | zero => intro i objs; rfl
  | succ fuel ih =>
    intro i objs
    simp only [shift_loop]
    split
    · rw [ih]; simp
    · rfl

theorem shift_loop_get (n : Nat) : ∀ (fuel i : Nat) (objs : List Nat),
    objs.length = n → 1 ≤ i → n ≤ i + fuel →
    ∀ j, (shift_loop n fuel i objs)[j]? =
      if i - 1 ≤ j ∧ j + 1 < n then objs[j + 1]? else objs[j]? := by
  intro fuel
  induction fuel with
  | zero =>
    intro i objs hl hi hf j
    have hc : ¬ (i - 1 ≤ j ∧ j + 1 < n) := by omega
    simp only [shift_loop]
    rw [if_neg hc]
  | succ fuel ih =>
    intro i objs hl hi hf j
    simp only [shift_loop]
    by_cases hlt : i < n
    · rw [if_pos hlt, ih (i + 1) _ (by simp [hl]) (by omega) (by omega) j]
      have hil : i < objs.length := by omega
      have hgd : objs.getD i 0 = objs[i] := by
        simp [List.getD_eq_getElem?_getD, List.getElem?_eq_getElem hil]
      simp only [List.getElem?_set, hgd]
      by_cases h1 : i ≤ j ∧ j + 1 < n
      · have c1 : i + 1 - 1 ≤ j ∧ j + 1 < n := by omega
        have c2 : i - 1 ≤ j ∧ j + 1 < n := by omega
        have c3 : ¬ (i - 1 = j + 1) := by omega
        rw [if_pos c1, if_pos c2, if_neg c3]
      · have c1 : ¬ (i + 1 - 1 ≤ j ∧ j + 1 < n) := by omega
        rw [if_neg c1]
        by_cases h2 : i - 1 = j
        · have c2 : i - 1 ≤ j ∧ j + 1 < n := by omega
          have c4 : i - 1 < objs.length := by omega
          rw [if_pos h2, if_pos c4, if_pos c2]
          have : j + 1 = i := by omega
          subst this
          exact (List.getElem?_eq_getElem hil).symm
        · have c2 : ¬ (i - 1 ≤ j ∧ j + 1 < n) := by omega
          rw [if_neg h2, if_neg c2]
    · have hc : ¬ (i - 1 ≤ j ∧ j + 1 < n) := by omega
      rw [if_neg hlt, if_neg hc]

theorem remove_obj_eq (ptrs : t_map_ptrs) (e : Nat) (hw : ptrs.wf) (he : e ∈ ptrs.objs) :
    remove_obj ptrs e
      = some { ptrs with objs := ptrs.objs.erase e, num_objs := ptrs.num_objs - 1 } := by
  unfold t_map_ptrs.wf at hw
  have hidx : find_obj_loop ptrs.objs ptrs.num_objs e ptrs.num_objs 0 = ptrs.objs.indexOf e := by
    rw [hw, find_obj_loop_eq ptrs.objs e ptrs.objs.length 0 (by omega)]
    simp
  have hlt : ptrs.objs.indexOf e < ptrs.objs.length := List.indexOf_lt_length.mpr he
  unfold remove_obj
  simp only [hidx]
  have hne : ¬ (ptrs.objs.indexOf e = ptrs.num_objs) := by omega
  rw [if_neg hne]
  congr 2
  rw [erase_eq_eraseIdx_indexOf]
  apply List.ext_getElem?
  intro j
  unfold realloc_objs
  rw [shift_loop_length, hw]
  have h0 : ptrs.objs.length - 1 - ptrs.objs.length = 0 := by omega
  rw [h0, List.replicate_zero, List.append_nil, List.getElem?_take, List.getElem?_eraseIdx]
  by_cases hj : j < ptrs.objs.length - 1
  · rw [if_pos hj, shift_loop_get ptrs.objs.length _ _ _ rfl (by omega) (by omega)]
    by_cases hji : j < ptrs.objs.indexOf e
    · have c : ¬ (ptrs.objs.indexOf e + 1 - 1 ≤ j ∧ j + 1 < ptrs.objs.length) := by omega
      rw [if_neg c, if_pos hji]
    · have c : ptrs.objs.indexOf e + 1 - 1 ≤ j ∧ j + 1 < ptrs.objs.length := by omega
      rw [if_pos c, if_neg hji]
  · have c : ¬ (j < ptrs.objs.indexOf e) := by omega
    rw [if_neg hj, if_neg c]
    exact (List.getElem?_eq_none (by omega)).symm

/-- C1 (counterexample): on the device where endpoint 7 is already bound to
"freq", binding the map.out endpoints 1 and 2 under "freq" leaves one signal
whose endpoint list is [7, 1, 2] with `num_objs = 3`, not [1, 2]. -/
theorem add_signal_twice_counterexample :
    device_with_freq.device.wf ∧
    bound_named
        (mapdevice_add_signal
          (mapdevice_add_signal device_with_freq (fresh_endpoint 1 "map.out" "freq" [])).1
          (fresh_endpoint 2 "map.out" "freq" [])).1 "freq"
      = [(.MPR_DIR_OUT, 3, [7, 1, 2])] := by
  decide

/-- C1 (amended): for every well-formed device state and every two map.out
endpoints E1, E2 declaring the same signal name, `mapdevice_add_signal` for E1
and then for E2 gives: when the device had no signal of that name, exactly one
signal of that name, of direction out, with endpoint list exactly [E1, E2] and
`num_objs = 2`; when it already had one, no new signal of that name and E1, E2
appended, in this order, to the endpoint list of the first such signal. -/
theorem add_signal_twice_same_name (x : t_mapdevice) (E1 E2 : t_mapin)
    (hw : x.device.wf)
    (h1 : E1.classname = "map.out") (h2 : E2.classname = "map.out")
    (hn : E1.sig_name = E2.sig_name) :
    (bound_named x E1.sig_name = [] →
      bound_named (mapdevice_add_signal (mapdevice_add_signal x E1).1 E2).1 E1.sig_name
        = [(.MPR_DIR_OUT, 2, [E1.myobjname, E2.myobjname])])
    ∧ (∀ d L rest, bound_named x E1.sig_name = (d, L.length, L) :: rest →
      bound_named (mapdevice_add_signal (mapdevice_add_signal x E1).1 E2).1 E1.sig_name
        = (d, L.length + 2, L ++ [E1.myobjname, E2.myobjname]) :: rest) := by
  have c1 : dir_of_class E1.classname = some .MPR_DIR_OUT := by rw [h1]; rfl
  have c2 : dir_of_class E2.classname = some .MPR_DIR_OUT := by rw [h2]; rfl
  constructor
  · intro hb
    obtain ⟨hb1, hw1⟩ := add_signal_new_named x E1 _ hw c1 hb
    rw [hn] at hb1 ⊢
    have := (add_signal_found_named _ E2 _ _ 1 [E1.myobjname] [] hw1 c2 hb1 rfl).1
    simpa using this
  · intro d L rest hb
    obtain ⟨hb1, hw1⟩ := add_signal_found_named x E1 _ d L.length L rest hw c1 hb rfl
    rw [hn] at hb1 ⊢
    have := (add_signal_found_named _ E2 _ d (L.length + 1) (L ++ [E1.myobjname]) rest hw1 c2
      hb1 (by simp)).1
    simpa using this

/-- C1 (witness): on a fresh device, the map.out endpoints 1 and 2 declaring
"freq" end up as the endpoint list [1, 2] of the one signal "freq". -/
theorem add_signal_twice_same_name_witness :
    bound_named
        (mapdevice_add_signal
          (mapdevice_add_signal (fresh_device 100) (fresh_endpoint 1 "map.out" "freq" [])).1
          (fresh_endpoint 2 "map.out" "freq" [])).1 "freq"
      = [(.MPR_DIR_OUT, 2, [1, 2])] :=
  (add_signal_twice_same_name (fresh_device 100) (fresh_endpoint 1 "map.out" "freq" [])
    (fresh_endpoint 2 "map.out" "freq" []) (by decide) rfl rfl rfl).1 (by decide)

theorem filter_modify_data (d : mpr_dev) (name : String) (sig : mpr_sig) (rest : List mpr_sig)
    (nd : t_map_ptrs)
    (hnd : (d.sigs.map (fun s => s.handle)).Nodup)
    (hfl : mpr_list_filter_name d.sigs name = sig :: rest) :
    (mpr_list_filter_name (d.modify_sig sig.handle (fun s => { s with data := nd })).sigs name).map
        (fun s => (s.dir, s.data.num_objs, s.data.objs))
      = (sig.dir, nd.num_objs, nd.objs) ::
          rest.map (fun s => (s.dir, s.data.num_objs, s.data.objs)) := by
  rw [filter_name_modify, hfl]
  swap
  · intro s; rfl
  simp only [List.map_cons, List.map_map, if_true, List.cons.injEq, true_and]
  apply List.map_congr_left
  intro r hr
  have := filter_handles_ne d.sigs name sig rest hnd hfl r hr
  simp only [Function.comp, if_neg this]

theorem free_count (p : mpr_sig → Bool) (sig : mpr_sig) : ∀ (l : List mpr_sig),
    (l.map (fun s => s.handle)).Nodup → sig ∈ l → p sig = true →
    ((l.filter (fun s => s.handle ≠ sig.handle)).filter p).length + 1 = (l.filter p).length := by
  intro l
  induction l with
  | nil => intro _ hm; simp at hm
  | cons a l ih =>
    intro hnd hm hp
    simp only [List.map_cons, List.nodup_cons, List.mem_map, not_exists, not_and] at hnd
    rcases List.mem_cons.mp hm with h | h
    · subst h
      have hall : l.filter (fun s => s.handle ≠ sig.handle) = l := by
        apply List.filter_eq_self.mpr
        intro s hs
        have := hnd.1 s hs
        simpa using this
      have e1 : (sig :: l).filter (fun s => s.handle ≠ sig.handle) = l := by
        rw [List.filter_cons]; simp only [ne_eq, not_true_eq_false, decide_False]
        exact hall
      rw [e1, List.filter_cons, if_pos hp, List.length_cons]
    · have hne : a.handle ≠ sig.handle := fun e => hnd.1 sig h e.symm
      have := ih hnd.2 h hp
      have e1 : (a :: l).filter (fun s => s.handle ≠ sig.handle)
          = a :: l.filter (fun s => s.handle ≠ sig.handle) := by
        rw [List.filter_cons]; simp [hne]
      rw [e1]
      by_cases hpa : p a = true
      · rw [List.filter_cons, if_pos hpa, List.filter_cons, if_pos hpa, List.length_cons,
          List.length_cons]
        omega
      · rw [List.filter_cons, if_neg hpa, List.filter_cons, if_neg hpa]
        exact this

/-- C2: when the name of endpoint e is bound to one signal whose endpoint list
is exactly [e], `mapdevice_remove_signal` for e releases the signal:
afterwards the device has no signal of that name and the number of signals of
that direction has dropped by one. -/
theorem remove_signal_last_endpoint (x : t_mapdevice) (e : t_mapin) (d : mpr_dir)
    (hw : x.device.wf)
    (hb : bound_named x e.sig_name = [(d, 1, [e.myobjname])]) :
    bound_named (mapdevice_remove_signal x e) e.sig_name = []
    ∧ (mpr_dev_get_sigs (mapdevice_remove_signal x e).device d).length + 1
        = (mpr_dev_get_sigs x.device d).length := by
  unfold bound_named at hb
  rw [get_sigs_any] at hb
  cases hfl : mpr_list_filter_name x.device.sigs e.sig_name with
  | nil => rw [hfl] at hb; simp at hb
  | cons sig rest =>
    rw [hfl] at hb
    simp only [List.map_cons, List.cons.injEq, Prod.mk.injEq, List.map_eq_nil_iff] at hb
    obtain ⟨⟨hd1, hd2, _⟩, hrest⟩ := hb
    subst hrest
    have hrm : mapdevice_remove_signal x e
        = { x with device := mpr_sig_free x.device sig.handle } := by
      unfold mapdevice_remove_signal
      simp only [get_sigs_any, hfl, hd2, if_true]
    have hmem : sig ∈ x.device.sigs := by
      have : sig ∈ mpr_list_filter_name x.device.sigs e.sig_name := by rw [hfl]; simp
      exact (List.mem_filter.mp this).1
    rw [hrm]
    constructor
    · unfold bound_named
      rw [get_sigs_any]
      simp only [mpr_sig_free, mpr_list_filter_name, List.map_eq_nil_iff]
      unfold mpr_list_filter_name at hfl
      rw [List.filter_filter]
      have : List.filter (fun a => decide (a.name = e.sig_name) && decide (a.handle ≠ sig.handle))
          x.device.sigs
          = List.filter (fun a => decide (a.handle ≠ sig.handle))
              (List.filter (fun s => decide (s.name = e.sig_name)) x.device.sigs) := by
        rw [List.filter_filter]
        apply List.filter_congr
        intro s _
        exact Bool.and_comm _ _
      rw [this, hfl]
      simp
    · cases d with
      | MPR_DIR_ANY =>
        have := free_count (fun _ => true) sig x.device.sigs hw.1 hmem rfl
        simpa [mpr_dev_get_sigs, mpr_sig_free] using this
      | MPR_DIR_IN =>
        have := free_count (fun s => decide (s.dir = .MPR_DIR_IN)) sig x.device.sigs hw.1 hmem
          (by simp [hd1])
        simpa [mpr_dev_get_sigs, mpr_sig_free] using this
      | MPR_DIR_OUT =>
        have := free_count (fun s => decide (s.dir = .MPR_DIR_OUT)) sig x.device.sigs hw.1 hmem
          (by simp [hd1])
        simpa [mpr_dev_get_sigs, mpr_sig_free] using this

/-- C2 (witness): endpoint 7 is the only endpoint of "freq" on
`device_with_freq`; removing it leaves no signal "freq" and no output. -/
theorem remove_signal_last_endpoint_witness :
    bound_named (mapdevice_remove_signal device_with_freq
        (fresh_endpoint 7 "map.out" "freq" [])) "freq" = []
    ∧ (mpr_dev_get_sigs (mapdevice_remove_signal device_with_freq
        (fresh_endpoint 7 "map.out" "freq" [])).device .MPR_DIR_OUT).length + 1
        = (mpr_dev_get_sigs device_with_freq.device .MPR_DIR_OUT).length :=
  remove_signal_last_endpoint device_with_freq (fresh_endpoint 7 "map.out" "freq" [])
    .MPR_DIR_OUT (by decide) (by decide)

/-- C3: when the name of endpoint e is bound to a signal whose endpoint list L
has at least two entries and holds e, `mapdevice_remove_signal` for e keeps
the signal (the signals of the device, their names and directions are
unchanged) and leaves the endpoint list equal to L with the first occurrence
of e erased, `num_objs` one less. -/
theorem remove_signal_other_endpoints_stay (x : t_mapdevice) (e : t_mapin) (d : mpr_dir)
    (L : List Nat) (rest : List (mpr_dir × Nat × List Nat))
    (hw : x.device.wf)
    (hb : bound_named x e.sig_name = (d, L.length, L) :: rest)
    (h2 : 2 ≤ L.length) (he : e.myobjname ∈ L) :
    bound_named (mapdevice_remove_signal x e) e.sig_name
        = (d, L.length - 1, L.erase e.myobjname) :: rest
    ∧ (mapdevice_remove_signal x e).device.sigs.map (fun s => (s.handle, s.name, s.dir))
        = x.device.sigs.map (fun s => (s.handle, s.name, s.dir)) := by
  unfold bound_named at hb
  rw [get_sigs_any] at hb
  cases hfl : mpr_list_filter_name x.device.sigs e.sig_name with
  | nil => rw [hfl] at hb; simp at hb
  | cons sig rest' =>
    rw [hfl] at hb
    simp only [List.map_cons, List.cons.injEq, Prod.mk.injEq] at hb
    obtain ⟨⟨hd1, hd2, hd3⟩, hrest⟩ := hb
    have hpw : sig.data.wf := by unfold t_map_ptrs.wf; rw [hd2, hd3]
    have hro := remove_obj_eq sig.data e.myobjname hpw (by rw [hd3]; exact he)
    have hrm : mapdevice_remove_signal x e
        = { x with device := x.device.modify_sig sig.handle (fun s => { s with data :=
              { sig.data with objs := sig.data.objs.erase e.myobjname,
                              num_objs := sig.data.num_objs - 1 } }) } := by
      unfold mapdevice_remove_signal
      have hne : ¬ (sig.data.num_objs = 1) := by omega
      simp only [get_sigs_any, hfl, hro, if_neg hne]
    rw [hrm]
    constructor
    · unfold bound_named
      rw [get_sigs_any]
      simp only
      rw [filter_modify_data x.device e.sig_name sig rest' _ hw.1 hfl, hrest, hd1, hd2, hd3]
    · simp only [mpr_dev.modify_sig, List.map_map]
      apply List.map_congr_left
      intro s _
      simp only [Function.comp]
      split <;> rfl

/-- C3 (witness): with endpoints [7, 1, 2] bound to "freq", removing endpoint 1
leaves [7, 2]. -/
theorem remove_signal_other_endpoints_stay_witness :
    bound_named (mapdevice_remove_signal
        (mapdevice_add_signal
          (mapdevice_add_signal device_with_freq (fresh_endpoint 1 "map.out" "freq" [])).1
          (fresh_endpoint 2 "map.out" "freq" [])).1
        (fresh_endpoint 1 "map.out" "freq" [])) "freq"
      = [(.MPR_DIR_OUT, 2, [7, 2])] :=
  (remove_signal_other_endpoints_stay
    (mapdevice_add_signal
      (mapdevice_add_signal device_with_freq (fresh_endpoint 1 "map.out" "freq" [])).1
      (fresh_endpoint 2 "map.out" "freq" [])).1
    (fresh_endpoint 1 "map.out" "freq" []) .MPR_DIR_OUT [7, 1, 2] []
    (by decide) (by decide) (by decide) (by decide)).1

/-- C4 (counterexample): on `device_with_freq`, where "freq" was created by the
map.out endpoint 7, binding the map.in endpoint 2 declaring "freq" creates no
input signal; endpoint 2 is appended to the endpoint list of the output
signal. -/
theorem add_signal_other_direction_counterexample :
    bound_named (mapdevice_add_signal device_with_freq
        (fresh_endpoint 2 "map.in" "freq" [])).1 "freq"
      = [(.MPR_DIR_OUT, 2, [7, 2])]
    ∧ mpr_dev_get_sigs (mapdevice_add_signal device_with_freq
        (fresh_endpoint 2 "map.in" "freq" [])).1.device .MPR_DIR_IN = [] := by
  decide

/-- C4 (amended): `mapdevice_add_signal` looks the existing signal up by name
alone, among the signals of any direction: for every well-formed device that
has a signal named N created by a map.out endpoint, binding a map.in endpoint
declaring N appends it to the endpoint list of that signal and creates no
signal (the signals of the device, their names and directions are unchanged). -/
theorem add_signal_lookup_by_name_only (x : t_mapdevice) (obj : t_mapin)
    (L : List Nat) (rest : List (mpr_dir × Nat × List Nat))
    (hw : x.device.wf) (hc : obj.classname = "map.in")
    (hb : bound_named x obj.sig_name = (.MPR_DIR_OUT, L.length, L) :: rest) :
    bound_named (mapdevice_add_signal x obj).1 obj.sig_name
        = (.MPR_DIR_OUT, L.length + 1, L ++ [obj.myobjname]) :: rest
    ∧ (mapdevice_add_signal x obj).1.device.sigs.map (fun s => (s.handle, s.name, s.dir))
        = x.device.sigs.map (fun s => (s.handle, s.name, s.dir)) := by
  have c : dir_of_class obj.classname = some .MPR_DIR_IN := by rw [hc]; rfl
  refine ⟨(add_signal_found_named x obj _ _ L.length L rest hw c hb rfl).1, ?_⟩
  cases hfl : mpr_list_filter_name (mpr_dev_get_sigs x.device .MPR_DIR_ANY) obj.sig_name with
  | nil => unfold bound_named at hb; rw [hfl] at hb; simp at hb
  | cons sig rest' =>
    obtain ⟨hcore, _⟩ := add_signal_found_core x obj _ sig rest' hw c hfl
    have := congrArg (List.map (fun c : Nat × String × mpr_dir × t_map_ptrs =>
      (c.1, c.2.1, c.2.2.1))) hcore
    simp only [List.map_map] at this
    refine Eq.trans ?_ (Eq.trans this ?_)
    · rfl
    · apply List.map_congr_left
      intro s _
      simp only [Function.comp]
      split <;> rfl

/-- C4 (witness): the general statement at `device_with_freq` and the map.in
endpoint 2. -/
theorem add_signal_lookup_by_name_only_witness :
    bound_named (mapdevice_add_signal device_with_freq
        (fresh_endpoint 2 "map.in" "freq" [])).1 "freq"
      = [(.MPR_DIR_OUT, 2, [7, 2])] :=
  (add_signal_lookup_by_name_only device_with_freq (fresh_endpoint 2 "map.in" "freq" [])
    [7] [] (by decide) rfl (by decide)).1

theorem upstream_found_iff (w : t_world) (p : t_patcher) :
    upstream_found w p = true ↔
      ∃ q, q <:+ p ∧ (object_obex_lookup w q "mprhash").isSome = true := by
  induction p with
  | nil =>
    simp only [upstream_found]
    constructor
    · intro h; exact ⟨[], List.suffix_refl _, h⟩
    · rintro ⟨q, hq, h⟩
      have : q = [] := List.suffix_nil.mp hq
      subst this; exact h
  | cons a parent ih =>
    simp only [upstream_found]
    constructor
    · intro h
      split at h
      · exact ⟨a :: parent, List.suffix_refl _, by assumption⟩
      · obtain ⟨q, hq, hl⟩ := ih.mp h
        exact ⟨q, hq.trans (List.suffix_cons a parent), hl⟩
    · rintro ⟨q, hq, h⟩
      rcases List.suffix_cons_iff.mp hq with e | hq'
      · subst e; rw [if_pos h]
      · split
        · rfl
        · exact ih.mpr ⟨q, hq', h⟩

theorem iterate_check_downstream_of_device (w : t_world) (p q : t_patcher) (dv : t_mapdevice)
    (hm : dv ∈ w.devices) (hp : dv.patcher = some q) (hs : p <:+ q) :
    iterate_check_downstream w p = 1 := by
  unfold iterate_check_downstream
  rw [if_pos]
  apply Bool.or_eq_true_iff.mpr
  left
  apply List.any_eq_true.mpr
  refine ⟨dv, hm, ?_⟩
  simp [hp, hs, check_downstream]

theorem iterate_check_downstream_of_obj (w : t_world) (p : t_patcher) (o : t_mapin)
    (hm : o ∈ w.objs) (hc : o.classname = "map.device") (hs : p <:+ o.patcher) :
    iterate_check_downstream w p = 1 := by
  unfold iterate_check_downstream
  rw [if_pos]
  apply Bool.or_eq_true_iff.mpr
  right
  apply List.any_eq_true.mpr
  refine ⟨o, hm, ?_⟩
  simp [hc, hs, check_downstream]

/-- C6: `mapdevice_attach` returns non-zero whenever the patcher of the new
device or one of its ancestors already stores a registry, and whenever a
map.device object exists in the patcher or below it; the world is then left
as it was (no hashtab created, nothing stored in any obex, no endpoint
registered or bound), and `mapdevice_new` returns null with the library
device released: the world after it is the world after `object_alloc` alone. -/
theorem mapdevice_attach_refuses_second_device (w : t_world) (x : t_mapdevice)
    (p : t_patcher)
    (h : (∃ q, q <:+ p ∧ (object_obex_lookup w q "mprhash").isSome = true)
       ∨ (∃ dv ∈ w.devices, ∃ q, dv.patcher = some q ∧ p <:+ q)
       ∨ (∃ o ∈ w.objs, o.classname = "map.device" ∧ p <:+ o.patcher)) :
    (mapdevice_attach w x (some p)).2.2 ≠ 0
    ∧ (mapdevice_attach w x (some p)).1 = w
    ∧ ∀ (net_ok : Bool) (argv : List t_atom),
        (mapdevice_new w (some p) net_ok argv).2 = none
        ∧ (mapdevice_new w (some p) net_ok argv).1 = (object_alloc w).1 := by
  have key : ∀ (w : t_world) (x : t_mapdevice),
      ((∃ q, q <:+ p ∧ (object_obex_lookup w q "mprhash").isSome = true)
       ∨ (∃ dv ∈ w.devices, ∃ q, dv.patcher = some q ∧ p <:+ q)
       ∨ (∃ o ∈ w.objs, o.classname = "map.device" ∧ p <:+ o.patcher)) →
      mapdevice_attach w x (some p) = (w, { x with patcher := some p }, 1) := by
    intro w x h
    unfold mapdevice_attach
    simp only
    by_cases hu : upstream_found w p = true
    · rw [if_pos hu]
    · rw [if_neg hu]
      have hd : iterate_check_downstream w p ≠ 0 := by
        rcases h with h | h | h
        · exact absurd ((upstream_found_iff w p).mpr h) hu
        · obtain ⟨dv, hm, q, hp, hs⟩ := h
          rw [iterate_check_downstream_of_device w p q dv hm hp hs]; decide
        · obtain ⟨o, hm, hc, hs⟩ := h
          rw [iterate_check_downstream_of_obj w p o hm hc hs]; decide
      rw [if_pos hd]
  refine ⟨by rw [key w x h]; simp, by rw [key w x h], ?_⟩
  intro net_ok argv
  unfold mapdevice_new
  cases net_ok with
  | false => simp
  | true =>
    simp only [Bool.not_eq_true, Bool.true_eq_false, if_false]
    rw [key]
    · simp [mpr_dev_free, mpr_dev_new]
    · rcases h with h | h | h
      · left; exact h
      · right; left; exact h
      · right; right; exact h

theorem obex_lookup_congr (w w' : t_world) (h : w'.obex = w.obex) (p : t_patcher)
    (key : String) : object_obex_lookup w' p key = object_obex_lookup w p key := by
  unfold object_obex_lookup; rw [h]

theorem obex_store_frame (w : t_world) (p : t_patcher) (key : String) (v : Option Nat) :
    (object_obex_store w p key v).devices = w.devices
    ∧ (object_obex_store w p key v).objs = w.objs
    ∧ (object_obex_store w p key v).hashtabs = w.hashtabs
    ∧ (object_obex_store w p key v).net_devs = w.net_devs
    ∧ (object_obex_store w p key v).next_obj = w.next_obj := by
  unfold object_obex_store
  cases v <;> exact ⟨rfl, rfl, rfl, rfl, rfl⟩

theorem find_filter_other {α : Type} (l : List α) (f g : α → Bool)
    (h : ∀ a, f a = true → g a = true) :
    (l.filter g).find? f = l.find? f := by
  induction l with
  | nil => rfl
  | cons a l ih =>
    by_cases hg : g a = true
    · rw [List.filter_cons, if_pos hg, List.find?_cons, List.find?_cons, ih]
    · have hf : f a = false := by
        cases hfa : f a with
        | false => rfl
        | true => exact absurd (h a hfa) hg
      rw [List.filter_cons, if_neg hg, List.find?_cons, hf, ih]

theorem obex_lookup_store_other (w : t_world) (p q : t_patcher) (k k' : String)
    (v : Option Nat) (hne : ¬ (q = p ∧ k' = k)) :
    object_obex_lookup (object_obex_store w p k v) q k' = object_obex_lookup w q k' := by
  have hf : (w.obex.filter (fun e => ¬ (e.1 = p ∧ e.2.1 = k))).find?
        (fun e => e.1 = q ∧ e.2.1 = k')
      = w.obex.find? (fun e => e.1 = q ∧ e.2.1 = k') := by
    apply find_filter_other
    intro a ha
    simp only [decide_eq_true_eq] at ha ⊢
    intro hc
    exact hne ⟨ha.1.symm.trans hc.1, ha.2.symm.trans hc.2⟩
  unfold object_obex_lookup object_obex_store
  cases v with
  | none => simp only; rw [hf]
  | some h =>
    simp only
    rw [List.find?_append, hf]
    cases hx : w.obex.find? (fun e => e.1 = q ∧ e.2.1 = k') with
    | some e => rfl
    | none =>
      have : ¬ (p = q ∧ k = k') := fun hc => hne ⟨hc.1.symm, hc.2.symm⟩
      simp [this]

theorem obex_lookup_store_same (w : t_world) (p : t_patcher) (k : String) (h : Nat) :
    object_obex_lookup (object_obex_store w p k (some h)) p k = some h := by
  unfold object_obex_lookup object_obex_store
  simp only
  rw [List.find?_append]
  have : (w.obex.filter (fun e => ¬ (e.1 = p ∧ e.2.1 = k))).find?
      (fun e => e.1 = p ∧ e.2.1 = k) = none := by
    apply List.find?_eq_none.mpr
    intro e he
    have := (List.mem_filter.mp he).2
    simp only [decide_eq_true_eq] at this
    simpa using this
  rw [this]
  simp

theorem obex_store_count (w : t_world) (p : t_patcher) (k : String) (v : Option Nat)
    (hc : ∀ q key, (w.obex.filter (fun e => e.1 = q ∧ e.2.1 = key)).length ≤ 1) :
    ∀ q key, ((object_obex_store w p k v).obex.filter
      (fun e => e.1 = q ∧ e.2.1 = key)).length ≤ 1 := by
  intro q key
  have hle : ((w.obex.filter (fun e => ¬ (e.1 = p ∧ e.2.1 = k))).filter
      (fun e => e.1 = q ∧ e.2.1 = key)).length ≤ 1 := by
    refine le_trans ?_ (hc q key)
    apply List.Sublist.length_le
    exact List.Sublist.filter _ (List.filter_sublist _)
  unfold object_obex_store
  cases v with
  | none => exact hle
  | some h =>
    simp only [List.filter_append, List.length_append]
    by_cases hq : q = p ∧ key = k
    · obtain ⟨rfl, rfl⟩ := hq
      have : (w.obex.filter (fun e => ¬ (e.1 = q ∧ e.2.1 = key))).filter
          (fun e => e.1 = q ∧ e.2.1 = key) = [] := by
        apply List.filter_eq_nil_iff.mpr
        intro e he
        have := (List.mem_filter.mp he).2
        simp only [decide_eq_true_eq] at this
        simp only [decide_eq_true_eq]
        exact this
      rw [this]
      simp
    · have : [(p, k, h)].filter (fun e => e.1 = q ∧ e.2.1 = key) = [] := by
        apply List.filter_eq_nil_iff.mpr
        intro e he
        simp only [List.mem_singleton] at he
        subst he
        simp only [decide_eq_true_eq]
        intro hc2
        exact hq ⟨hc2.1.symm, hc2.2.symm⟩
      rw [this]
      simpa using hle

theorem device_inv_congr (w w' : t_world) (ho : w'.obex = w.obex)
    (hd : w'.devices = w.devices) (hj : w'.objs = w.objs) (hn : w.next_obj ≤ w'.next_obj)
    (hI : device_inv w) : device_inv w' := by
  obtain ⟨h1, h2, h3, h4⟩ := hI
  refine ⟨by rw [hj]; exact h1, ?_, by rw [hd]; exact h3, by rw [ho]; exact h4⟩
  intro x hx
  rw [hd] at hx
  obtain ⟨hlt, p, h, hp, hh, hl⟩ := h2 x hx
  exact ⟨by omega, p, h, hp, hh, by rw [obex_lookup_congr w w' ho]; exact hl⟩

theorem upstream_found_congr (w w' : t_world) (ho : w'.obex = w.obex) (p : t_patcher) :
    upstream_found w' p = upstream_found w p := by
  induction p with
  | nil => simp only [upstream_found, obex_lookup_congr w w' ho]
  | cons a parent ih => simp only [upstream_found, obex_lookup_congr w w' ho, ih]

theorem mapdevice_attach_success (w : t_world) (x : t_mapdevice) (p : t_patcher)
    (hobjs : w.objs = []) (hids : ∀ q ∈ w.devices, q.id ≠ x.id)
    (hu : ¬ upstream_found w p = true) (hd : ¬ iterate_check_downstream w p ≠ 0) :
    mapdevice_attach w x (some p)
      = ({ object_attach_byptr_register
            (object_obex_store (hashtab_new w).1 p "mprhash" (some w.next_obj)) x.id w.next_obj
           with devices := w.devices ++ [{ x with patcher := some p, ht := some w.next_obj }] },
         { x with patcher := some p, ht := some w.next_obj }, 0) := by
  unfold mapdevice_attach
  simp only [if_neg hu, if_neg hd]
  have ho : (object_attach_byptr_register
      (object_obex_store (hashtab_new w).1 p "mprhash" (some (hashtab_new w).2)) x.id
        (hashtab_new w).2).objs = [] := by
    unfold object_attach_byptr_register
    simp only [(obex_store_frame _ _ _ _).2.1]
    exact hobjs
  have hdv : (object_attach_byptr_register
      (object_obex_store (hashtab_new w).1 p "mprhash" (some (hashtab_new w).2)) x.id
        (hashtab_new w).2).devices = w.devices := by
    unfold object_attach_byptr_register
    simp only [(obex_store_frame _ _ _ _).1]
    rfl
  simp only [ho, List.filter_nil, List.foldl_nil, hdv]
  have hf : (w.devices ++ [{ x with patcher := some p, ht := some (hashtab_new w).2 }]).find?
      (fun q => q.id = x.id) = some { x with patcher := some p, ht := some (hashtab_new w).2 } := by
    rw [List.find?_append]
    have : w.devices.find? (fun q => q.id = x.id) = none := by
      apply List.find?_eq_none.mpr
      intro q hq
      simpa using hids q hq
    rw [this]
    simp
  simp only [hf]
  refine Prod.ext ?_ rfl
  simp only [t_world.mk.injEq]
  exact ⟨rfl, rfl, rfl, ho.symm, rfl, rfl⟩

theorem put_device_new (l : List t_mapdevice) (x x' : t_mapdevice) (i : Nat) (hid : x.id = i)
    (hids : ∀ q ∈ l, q.id ≠ i) :
    (l ++ [x]).map (fun q => if q.id = i then x' else q) = l ++ [x'] := by
  rw [List.map_append]
  congr 1
  · conv_rhs => rw [← List.map_id l]
    apply List.map_congr_left
    intro q hq
    rw [if_neg (hids q hq)]
    rfl
  · simp [hid]

theorem mapdevice_attach_cases (w : t_world) (x : t_mapdevice) (patcher : Option t_patcher) :
    ((mapdevice_attach w x patcher).2.2 ≠ 0 ∧ (mapdevice_attach w x patcher).1 = w)
    ∨ (∃ p, patcher = some p ∧ ¬ upstream_found w p = true
        ∧ ¬ iterate_check_downstream w p ≠ 0) := by
  cases patcher with
  | none => left; simp [mapdevice_attach]
  | some p =>
    by_cases hu : upstream_found w p = true
    · left; unfold mapdevice_attach; simp only [if_pos hu]; simp
    · by_cases hd : iterate_check_downstream w p ≠ 0
      · left; unfold mapdevice_attach; simp only [if_neg hu, if_pos hd]; simp
      · right; exact ⟨p, rfl, hu, hd⟩

theorem device_inv_attach (w : t_world) (x : t_mapdevice) (p : t_patcher) (d : mpr_dev)
    (hI : device_inv w) (hids : ∀ q ∈ w.devices, q.id ≠ x.id) (hlt : x.id < w.next_obj)
    (hu : ¬ upstream_found w p = true) (hd : ¬ iterate_check_downstream w p ≠ 0) :
    device_inv ((mapdevice_attach w x (some p)).1.put_device
      { (mapdevice_attach w x (some p)).2.1 with device := d, ready := 0, updated := 0 }) := by
  obtain ⟨h1, h2, h3, h4⟩ := hI
  rw [mapdevice_attach_success _ _ p h1 hids hu hd]
  simp only [t_world.put_device]
  rw [put_device_new w.devices { x with patcher := some p, ht := some w.next_obj } _ x.id rfl hids]
  have hlk : ∀ q key, ¬ (q = p ∧ key = "mprhash") →
      object_obex_lookup
        (object_obex_store (hashtab_new w).1 p "mprhash" (some w.next_obj)) q key
      = object_obex_lookup w q key := by
    intro q key hne
    rw [obex_lookup_store_other _ _ _ _ _ _ hne]
    rfl
  refine ⟨h1, ?_, ?_, ?_⟩
  · intro y hy
    rcases List.mem_append.mp hy with hy | hy
    · obtain ⟨hlt', px, h, hp, hh, hl⟩ := h2 y hy
      refine ⟨?_, px, h, hp, hh, ?_⟩
      · show y.id < w.next_obj + 1
        omega
      · have hne : ¬ (px = p ∧ "mprhash" = "mprhash") := by
          rintro ⟨e, _⟩
          subst e
          apply hu
          exact (upstream_found_iff w px).mpr ⟨px, List.suffix_refl _, by rw [hl]; rfl⟩
        rw [← hl, ← hlk px "mprhash" hne]
        exact obex_lookup_congr _ _ rfl _ _
    · simp only [List.mem_singleton] at hy
      subst hy
      refine ⟨?_, p, w.next_obj, rfl, rfl, ?_⟩
      · show x.id < w.next_obj + 1
        omega
      · have := obex_lookup_store_same (hashtab_new w).1 p "mprhash" w.next_obj
        exact (obex_lookup_congr _ _ rfl _ _).trans this
  · apply List.pairwise_append.mpr
    refine ⟨h3, List.pairwise_singleton _ _, ?_⟩
    intro a ha b hb
    simp only [List.mem_singleton] at hb
    subst hb
    intro pa pb hpa hpb
    have e : pb = p := by
      have : some p = some pb := hpb
      exact (Option.some.inj this).symm
    subst e
    obtain ⟨_, pa', h, hp, _, hl⟩ := h2 a ha
    have e2 : pa' = pa := Option.some.inj (hp.symm.trans hpa)
    subst e2
    constructor
    · intro hs
      apply hu
      exact (upstream_found_iff w pb).mpr ⟨pa', hs, by rw [hl]; rfl⟩
    · intro hs
      apply hd
      rw [iterate_check_downstream_of_device w pb pa' a ha hp hs]
      decide
  · exact obex_store_count _ p "mprhash" _ h4

theorem mapdevice_attach_zero (w : t_world) (x : t_mapdevice) (p : t_patcher)
    (hu : ¬ upstream_found w p = true) (hd : ¬ iterate_check_downstream w p ≠ 0) :
    (mapdevice_attach w x (some p)).2.2 = 0 := by
  unfold mapdevice_attach
  simp only [if_neg hu, if_neg hd]
  split <;> rfl

theorem device_inv_create (w : t_world) (p : Option t_patcher) (ok : Bool)
    (argv : List t_atom) (hI : device_inv w) :
    device_inv (mapdevice_new w p ok argv).1 := by
  have hI0 : device_inv (object_alloc w).1 :=
    device_inv_congr w _ rfl rfl rfl (Nat.le_succ _) hI
  have hI1 : ∀ i, device_inv (mpr_dev_new (object_alloc w).1 i) :=
    fun i => device_inv_congr w _ rfl rfl rfl (Nat.le_succ _) hI
  unfold mapdevice_new
  cases ok with
  | false => simpa using hI0
  | true =>
    simp only [Bool.not_eq_true, Bool.true_eq_false, if_false]
    have hid : (mapdevice_init (object_alloc w).2 argv).id = w.next_obj := rfl
    rcases mapdevice_attach_cases (mpr_dev_new (object_alloc w).1
        (mapdevice_init (object_alloc w).2 argv).id)
      (mapdevice_init (object_alloc w).2 argv) p with ⟨hr, hw⟩ | ⟨p, rfl, hu, hd⟩
    · rw [if_pos hr, hw]
      exact device_inv_congr w _ rfl rfl rfl (Nat.le_succ _) hI
    · have hz := mapdevice_attach_zero _ (mapdevice_init (object_alloc w).2 argv) p hu hd
      have hnz : ¬ ((mapdevice_attach (mpr_dev_new (object_alloc w).1
          (mapdevice_init (object_alloc w).2 argv).id)
          (mapdevice_init (object_alloc w).2 argv) (some p)).2.2 ≠ 0) := by
        rw [hz]; simp
      rw [if_neg hnz]
      refine device_inv_attach _ _ p _ (hI1 _) ?_ ?_ hu hd
      · intro q hq
        have := (hI.2.1 q hq).1
        rw [hid]; omega
      · show w.next_obj < w.next_obj + 1
        omega

theorem foldl_fixed {α β : Type} (f : α → β → α) (a : α) (l : List β)
    (h : ∀ b, f a b = a) : l.foldl f a = a := by
  induction l with
  | nil => rfl
  | cons b l ih => rw [List.foldl_cons, h b, ih]

theorem mapdevice_detach_no_objs (w : t_world) (x : t_mapdevice) (ht : Nat) (p : t_patcher)
    (hobjs : w.objs = []) (hh : x.ht = some ht) (hp : x.patcher = some p) :
    mapdevice_detach w x
      = object_obex_store
          { w with hashtabs := w.hashtabs.filter (fun t => t.handle ≠ ht) } p "mprhash" none := by
  unfold mapdevice_detach
  simp only [hh, hp]
  rw [foldl_fixed _ w (hashtab_keys w ht) (by intro k; simp [hobjs])]
  rw [foldl_fixed _ w (hashtab_keys w ht) (by intro k; simp [hobjs])]

theorem unrelated_symm : Symmetric unrelated_patchers := by
  intro a b h pb pa hb ha
  exact ⟨(h pa pb ha hb).2, (h pa pb ha hb).1⟩

theorem device_inv_destroy (w : t_world) (x : t_mapdevice) (hx : x ∈ w.devices)
    (hI : device_inv w) : device_inv (mapdevice_free w x) := by
  obtain ⟨h1, h2, h3, h4⟩ := hI
  obtain ⟨_, p, ht, hp, hh, hl⟩ := h2 x hx
  unfold mapdevice_free
  rw [mapdevice_detach_no_objs w x ht p h1 hh hp]
  refine ⟨?_, ?_, ?_, ?_⟩
  · exact h1
  · intro y hy
    have hy' : y ∈ w.devices ∧ y.id ≠ x.id := by
      have := List.mem_filter.mp hy
      exact ⟨this.1, by simpa using this.2⟩
    obtain ⟨hlt, py, hty, hpy, hhy, hly⟩ := h2 y hy'.1
    refine ⟨hlt, py, hty, hpy, hhy, ?_⟩
    have hne : y ≠ x := fun e => hy'.2 (by rw [e])
    have hun := List.Pairwise.forall unrelated_symm h3 hy'.1 hx hne
    have hpne : ¬ (py = p ∧ "mprhash" = "mprhash") := by
      rintro ⟨e, _⟩
      subst e
      exact (hun py py hpy hp).1 (List.suffix_refl _)
    rw [← hly]
    exact (obex_lookup_congr _ _ rfl _ _).trans
      ((obex_lookup_store_other _ p py "mprhash" "mprhash" none hpne).trans
        (obex_lookup_congr _ _ rfl _ _))
  · exact List.Pairwise.sublist (List.filter_sublist _) h3
  · exact obex_store_count _ p "mprhash" none h4

theorem device_inv_event (w : t_world) (ev : dev_event) (hI : device_inv w) :
    device_inv (run_dev_event w ev) := by
  cases ev with
  | create p ok argv => exact device_inv_create w p ok argv hI
  | destroy id =>
    unfold run_dev_event
    cases hf : w.devices.find? (fun x => x.id = id) with
    | none => simpa [hf] using hI
    | some x => simpa [hf] using device_inv_destroy w x (List.mem_of_find?_eq_some hf) hI

theorem device_inv_events (evs : List dev_event) (w : t_world) (hI : device_inv w) :
    device_inv (run_dev_events w evs) := by
  induction evs generalizing w with
  | nil => exact hI
  | cons ev evs ih => exact ih _ (device_inv_event w ev hI)

theorem device_inv_empty : device_inv empty_world := by
  refine ⟨rfl, ?_, List.Pairwise.nil, ?_⟩
  · intro x hx; simp [empty_world] at hx
  · intro p key; simp [empty_world]

/-- C7: in every state reached from the empty world by a sequence of device
creations (`mapdevice_new`) and destructions (`mapdevice_free`), every
patcher stores at most one registry under "mprhash" and no two live devices
have patchers that are equal or nested in one another. -/
theorem single_device_per_scope (evs : List dev_event) :
    (∀ p, ((run_dev_events empty_world evs).obex.filter
        (fun e => e.1 = p ∧ e.2.1 = "mprhash")).length ≤ 1)
    ∧ (run_dev_events empty_world evs).devices.Pairwise unrelated_patchers := by
  have h := device_inv_events evs empty_world device_inv_empty
  exact ⟨fun p => h.2.2.2 p "mprhash", h.2.2.1⟩

/-- C5 (the code at the failing input): with the device in the top-level
patcher and a `[map.in freq f]` box in the sub-patcher [1], the endpoint
created before the device ends up stored in the registry and bound to the
signal "freq"; the endpoint created after the device is neither registered
nor bound, and the device has no signal: `mapin_new` looks for the key
"mapperhash", `mapdevice_attach` stores the registry under "mprhash". -/
theorem creation_order_changes_binding :
    (world_endpoint_first.objs.map (fun o => (o.ht, o.dev_obj, o.sig_ptr))
        = [(some 2, some 1, some 0)]
      ∧ world_endpoint_first.hashtabs.map (fun t => t.keys) = [[0]]
      ∧ world_endpoint_first.devices.map (fun x => bound_named x "freq")
        = [[(.MPR_DIR_IN, 1, [0])]])
    ∧ (world_device_first.objs.map (fun o => (o.ht, o.dev_obj, o.sig_ptr))
        = [(none, none, none)]
      ∧ world_device_first.hashtabs.map (fun t => t.keys) = [[]]
      ∧ world_device_first.devices.map (fun x => bound_named x "freq") = [[]]) := by
  decide

theorem find_sig_modify (d : mpr_dev) (h h' : Nat) (f : mpr_sig → mpr_sig)
    (hf : ∀ s, (f s).handle = s.handle) :
    (d.modify_sig h f).find_sig h'
      = (d.find_sig h').map (fun s => if s.handle = h then f s else s) := by
  unfold mpr_dev.find_sig mpr_dev.modify_sig
  simp only
  rw [List.find?_map]
  have e : ((fun s : mpr_sig => decide (s.handle = h')) ∘
      fun s => if s.handle = h then f s else s) = (fun s : mpr_sig => decide (s.handle = h')) := by
    funext s
    simp only [Function.comp]
    split
    · rw [hf]
    · rfl
  rw [e]

theorem str_tail_instance : str_tail "@instance" = "instance" := by decide

/-- C8 as written fails for an integer outside the range of the instance id:
`@instance 4294967301` processed by a map.in endpoint on a fresh signal makes
5 the instance id of the endpoint and leaves instance 5, not instance
4294967301, as the only instance of the signal. -/
theorem instance_id_out_of_range :
    (mapin_parse_extra_properties
        (fresh_endpoint 1 "map.in" "freq" [.A_SYM "@instance", .A_LONG 4294967301])
        fresh_signal).1.instance_id = 5
    ∧ (mapin_parse_extra_properties
        (fresh_endpoint 1 "map.in" "freq" [.A_SYM "@instance", .A_LONG 4294967301])
        fresh_signal).2.insts = [reserved_inst 5 1] := by
  decide

/-- C8 (amended): an `@instance k` directive with integer k processed by
`parse_extra_properties` on a bound endpoint, in `map.in.c` (first part) and
in `mpr.in.c` (second part): the instance id is k converted to the type of
the id, `int` in `map.in.c` and `mpr_id` in `mpr.in.c`, which is k itself
when k is in the range of that type; the signal loses its instance 0 exactly
when that carries no owner data, the endpoint is marked as instanced with
that id, and one reservation is made, of that id with the endpoint as owner
data. On a fresh signal this leaves the instance with that id, owned by the
endpoint, as the only instance; when the id is not reserved yet, the list of
instances grows by exactly that one instance owned by the endpoint; when
there is owner data on instance 0, every instance present before, instance 0
with its owner included, is still there afterwards. -/
theorem instance_directive_reserves (k : Int) :
    (∀ (x : t_mapin) (s : mpr_sig),
      x.args = [.A_SYM "@instance", .A_LONG k] →
      wraps_to_int k (c_int k)
      ∧ (-2147483648 ≤ k ∧ k ≤ 2147483647 → c_int k = k)
      ∧ (mapin_parse_extra_properties x s).1.is_instance = 1
      ∧ (mapin_parse_extra_properties x s).1.instance_id = c_int k
      ∧ (mapin_parse_extra_properties x s).2
          = sig_reserve_inst (if sig_get_inst_data s 0 = none then sig_remove_inst s 0 else s)
              (c_int k) (some x.myobjname)
      ∧ (s.insts = [default_inst] →
          (mapin_parse_extra_properties x s).2.insts = [reserved_inst (c_int k) x.myobjname])
      ∧ ((∀ n ∈ (if sig_get_inst_data s 0 = none then sig_remove_inst s 0 else s).insts,
            n.id ≠ c_int k) →
          (mapin_parse_extra_properties x s).2.insts
            = (if sig_get_inst_data s 0 = none then sig_remove_inst s 0 else s).insts
                ++ [reserved_inst (c_int k) x.myobjname])
      ∧ (sig_get_inst_data s 0 ≠ none →
          s.insts <+: (mapin_parse_extra_properties x s).2.insts))
    ∧ (∀ (x : t_mpr_in) (s : mpr_sig),
      wraps_to_u64 k (c_u64 k)
      ∧ (0 ≤ k ∧ k < 18446744073709551616 → c_u64 k = k)
      ∧ (mpr_in_parse_extra_properties x [.A_SYM "@instance", .A_LONG k] s).1.is_instanced = 1
      ∧ (mpr_in_parse_extra_properties x [.A_SYM "@instance", .A_LONG k] s).1.instance_id
          = c_u64 k
      ∧ (mpr_in_parse_extra_properties x [.A_SYM "@instance", .A_LONG k] s).2
          = sig_reserve_inst (if sig_get_inst_data s 0 = none then sig_remove_inst s 0 else s)
              (c_u64 k) (some x.myobjname)
      ∧ (s.insts = [default_inst] →
          (mpr_in_parse_extra_properties x [.A_SYM "@instance", .A_LONG k] s).2.insts
            = [reserved_inst (c_u64 k) x.myobjname])
      ∧ ((∀ n ∈ (if sig_get_inst_data s 0 = none then sig_remove_inst s 0 else s).insts,
            n.id ≠ c_u64 k) →
          (mpr_in_parse_extra_properties x [.A_SYM "@instance", .A_LONG k] s).2.insts
            = (if sig_get_inst_data s 0 = none then sig_remove_inst s 0 else s).insts
                ++ [reserved_inst (c_u64 k) x.myobjname])
      ∧ (sig_get_inst_data s 0 ≠ none →
          s.insts <+: (mpr_in_parse_extra_properties x [.A_SYM "@instance", .A_LONG k] s).2.insts)) := by
  have hfresh : ∀ (j : Int) (s : mpr_sig) (o : Nat), s.insts = [default_inst] →
      (sig_reserve_inst (if sig_get_inst_data s 0 = none then sig_remove_inst s 0 else s)
        j (some o)).insts = [reserved_inst j o] := by
    intro j s o hs
    have h0 : sig_get_inst_data s 0 = none := by
      simp [sig_get_inst_data, hs, default_inst]
    simp [h0, sig_reserve_inst, sig_remove_inst, hs, default_inst, reserved_inst]
  have hone : ∀ (j : Int) (s : mpr_sig) (o : Nat), (∀ n ∈ s.insts, n.id ≠ j) →
      (sig_reserve_inst s j (some o)).insts = s.insts ++ [reserved_inst j o] := by
    intro j s o hs
    unfold sig_reserve_inst
    have : s.insts.any (fun n => decide (n.id = j)) = false := by
      apply Bool.eq_false_iff.mpr
      intro hc
      obtain ⟨n, hn, e⟩ := List.any_eq_true.mp hc
      exact hs n hn (by simpa using e)
    rw [this]
    rfl
  have hkeep : ∀ (j : Int) (s : mpr_sig) (o : Nat), sig_get_inst_data s 0 ≠ none →
      s.insts <+: (sig_reserve_inst (if sig_get_inst_data s 0 = none then sig_remove_inst s 0 else s)
        j (some o)).insts := by
    intro j s o hs
    rw [if_neg hs]
    unfold sig_reserve_inst
    split
    · exact List.prefix_refl _
    · exact List.prefix_append _ _
  have hin : -2147483648 ≤ k ∧ k ≤ 2147483647 → c_int k = k := by
    intro hr
    unfold c_int
    omega
  have hu : 0 ≤ k ∧ k < 18446744073709551616 → c_u64 k = k := by
    intro hr
    unfold c_u64
    omega
  constructor
  · intro x s hx
    have hr : mapin_parse_extra_properties x s
        = ({ x with instance_id := c_int k, is_instance := 1 },
           sig_reserve_inst (if sig_get_inst_data s 0 = none then sig_remove_inst s 0 else s)
              (c_int k) (some x.myobjname)) := by
      unfold mapin_parse_extra_properties
      rw [hx]
      simp [mapin_parse_loop, t_atom.a_type, atom_streq, atom_getlong, mapin_reserve]
      exact hx
    rw [hr]
    exact ⟨c_int_wraps k, hin, rfl, rfl, rfl, hfresh _ s _, hone _ _ _, hkeep _ s _⟩
  · intro x s
    have hr : mpr_in_parse_extra_properties x [.A_SYM "@instance", .A_LONG k] s
        = ({ x with instance_id := c_u64 k, is_instanced := 1 },
           sig_reserve_inst (if sig_get_inst_data s 0 = none then sig_remove_inst s 0 else s)
              (c_u64 k) (some x.myobjname)) := by
      unfold mpr_in_parse_extra_properties
      simp [mpr_in_parse_loop, t_atom.a_type, atom_streq, atom_getlong, atom_get_string,
        mpr_in_reserve, mpr_in_set_property, value_run, starts_at, str_tail_instance]
    rw [hr]
    exact ⟨c_u64_wraps k, hu, rfl, rfl, rfl, hfresh _ s _, hone _ _ _, hkeep _ s _⟩

/-- The signal a value message leaves behind and the library calls it makes. -/
theorem mapin_write_effect (x : t_mapin) (dv : t_mapdevice) (now h : Nat)
    (value : List sig_val) (s : mpr_sig) (hfind : dv.device.find_sig h = some s) :
    (mapin_write x dv now h value).device.calls
        = (mapdevice_maybe_start_queue dv now).device.calls ++
            [.update h (if x.is_instance ≠ 0 then some x.instance_id else none) value 1
              (x.tt_ptr.map (fun _ => (mapdevice_maybe_start_queue dv now).timetag))]
    ∧ (mapin_write x dv now h value).device.find_sig h
        = some (if x.is_instance ≠ 0 then sig_update_inst s x.instance_id value
                else sig_update s value)
    ∧ ∀ h', h' ≠ h →
        (mapin_write x dv now h value).device.find_sig h' = dv.device.find_sig h' := by
  have hq : ∀ h', (mapdevice_maybe_start_queue dv now).device.find_sig h'
      = dv.device.find_sig h' := by
    intro h'
    unfold mapdevice_maybe_start_queue
    split <;> rfl
  have hother : ∀ (f : mpr_sig → mpr_sig) (d : mpr_dev) (h' : Nat), h' ≠ h →
      (∀ s, (f s).handle = s.handle) →
      (d.modify_sig h f).find_sig h' = d.find_sig h' := by
    intro f d h' hne hf
    rw [find_sig_modify d h h' f hf]
    cases hs : d.find_sig h' with
    | none => rfl
    | some t =>
      have := (find_sig_some d h' t hs).2
      simp only [Option.map_some']
      rw [if_neg (by omega)]
  unfold mapin_write
  by_cases hi : x.is_instance ≠ 0
  · simp only [if_pos hi]
    refine ⟨trivial, ?_, ?_⟩
    · show ((mapdevice_maybe_start_queue dv now).device.modify_sig h _).find_sig h = _
      rw [find_sig_modify, hq, hfind]
      swap
      · intro t; rfl
      simp only [Option.map_some']
      rw [if_pos (find_sig_some dv.device h s hfind).2]
    · intro h' hne
      show ((mapdevice_maybe_start_queue dv now).device.modify_sig h _).find_sig h' = _
      rw [hother _ _ h' hne, hq]
      intro t; rfl
  · simp only [if_neg hi]
    refine ⟨trivial, ?_, ?_⟩
    · show ((mapdevice_maybe_start_queue dv now).device.modify_sig h _).find_sig h = _
      rw [find_sig_modify, hq, hfind]
      swap
      · intro t; rfl
      simp only [Option.map_some']
      rw [if_pos (find_sig_some dv.device h s hfind).2]
    · intro h' hne
      show ((mapdevice_maybe_start_queue dv now).device.modify_sig h _).find_sig h' = _
      rw [hother _ _ h' hne, hq]
      intro t; rfl

theorem mapin_int_eq (x : t_mapin) (dv : t_mapdevice) (s : mpr_sig) (h now : Nat) (l : Int)
    (hdev : x.dev_obj = some dv.id) (hsig : x.sig_ptr = some h)
    (hprops : x.sig_props = none ∨ x.sig_props = some h)
    (hfind : dv.device.find_sig h = some s) (hlen : s.len = 1) :
    (mapin_int x dv now l).2
      = mapin_write { x with sig_props := some h } dv now h
          (if s.type = 'i' then [.i (c_int l)] else if s.type = 'f' then [.f (c_float (l : Rat))]
            else []) := by
  unfold mapin_int check_ptrs
  rcases hprops with hp | hp
  · simp [hdev, hsig, hp, hfind, hlen]
  · simp [hdev, hsig, hp, hfind, hlen]
    congr 1
    cases x; simp_all

theorem mapin_float_eq (x : t_mapin) (dv : t_mapdevice) (s : mpr_sig) (h now : Nat) (d : Rat)
    (hdev : x.dev_obj = some dv.id) (hsig : x.sig_ptr = some h)
    (hprops : x.sig_props = none ∨ x.sig_props = some h)
    (hfind : dv.device.find_sig h = some s) (hlen : s.len = 1) :
    (mapin_float x dv now d).2
      = mapin_write { x with sig_props := some h } dv now h
          (if s.type = 'f' then [.f (c_float d)] else if s.type = 'i' then [.i (c_int_of_float d)]
            else []) := by
  unfold mapin_float check_ptrs
  rcases hprops with hp | hp
  · simp [hdev, hsig, hp, hfind, hlen]
  · simp [hdev, hsig, hp, hfind, hlen]
    congr 1
    cases x; simp_all

/-- C9: for an endpoint of `map.in.c` bound to a signal of length 1 (type i
or f) of its device, an int message and a float message each make exactly one
value write, of one value v, after the queue start: an instanced endpoint
(`is_instance` set, as left by `@instance k`) writes to the instance
`instance_id` of the signal, the value of the signal and the other instances
stay as they are; an endpoint that is not instanced writes the value of the
signal and no instance. No other signal of the device changes. -/
theorem value_message_writes_once (x : t_mapin) (dv : t_mapdevice) (s : mpr_sig)
    (h now : Nat)
    (hdev : x.dev_obj = some dv.id) (hsig : x.sig_ptr = some h)
    (hprops : x.sig_props = none ∨ x.sig_props = some h)
    (hfind : dv.device.find_sig h = some s) (hlen : s.len = 1)
    (htype : s.type = 'i' ∨ s.type = 'f') :
    (∀ l : Int, ∃ (v : sig_val) (s' : mpr_sig),
      (mapin_int x dv now l).2.device.calls
          = (mapdevice_maybe_start_queue dv now).device.calls ++
              [.update h (if x.is_instance ≠ 0 then some x.instance_id else none) [v] 1
                (x.tt_ptr.map (fun _ => (mapdevice_maybe_start_queue dv now).timetag))]
      ∧ (mapin_int x dv now l).2.device.find_sig h = some s'
      ∧ (x.is_instance ≠ 0 → s'.value = s.value ∧ s'.insts = s.insts.map
            (fun n => if n.id = x.instance_id then { n with value := [v] } else n))
      ∧ (x.is_instance = 0 → s'.value = [v] ∧ s'.insts = s.insts)
      ∧ ∀ h', h' ≠ h →
          (mapin_int x dv now l).2.device.find_sig h' = dv.device.find_sig h')
    ∧ (∀ d : Rat, ∃ (v : sig_val) (s' : mpr_sig),
      (mapin_float x dv now d).2.device.calls
          = (mapdevice_maybe_start_queue dv now).device.calls ++
              [.update h (if x.is_instance ≠ 0 then some x.instance_id else none) [v] 1
                (x.tt_ptr.map (fun _ => (mapdevice_maybe_start_queue dv now).timetag))]
      ∧ (mapin_float x dv now d).2.device.find_sig h = some s'
      ∧ (x.is_instance ≠ 0 → s'.value = s.value ∧ s'.insts = s.insts.map
            (fun n => if n.id = x.instance_id then { n with value := [v] } else n))
      ∧ (x.is_instance = 0 → s'.value = [v] ∧ s'.insts = s.insts)
      ∧ ∀ h', h' ≠ h →
          (mapin_float x dv now d).2.device.find_sig h' = dv.device.find_sig h') := by
  have main : ∀ (v : sig_val) (dv2 : t_mapdevice),
      dv2 = mapin_write { x with sig_props := some h } dv now h [v] →
      ∃ (s' : mpr_sig),
        dv2.device.calls
          = (mapdevice_maybe_start_queue dv now).device.calls ++
              [.update h (if x.is_instance ≠ 0 then some x.instance_id else none) [v] 1
                (x.tt_ptr.map (fun _ => (mapdevice_maybe_start_queue dv now).timetag))]
        ∧ dv2.device.find_sig h = some s'
        ∧ (x.is_instance ≠ 0 → s'.value = s.value ∧ s'.insts = s.insts.map
            (fun n => if n.id = x.instance_id then { n with value := [v] } else n))
        ∧ (x.is_instance = 0 → s'.value = [v] ∧ s'.insts = s.insts)
        ∧ ∀ h', h' ≠ h → dv2.device.find_sig h' = dv.device.find_sig h' := by
    intro v dv2 e
    obtain ⟨c1, c2, c3⟩ := mapin_write_effect { x with sig_props := some h } dv now h [v] s hfind
    rw [← e] at c1 c2 c3
    refine ⟨_, c1, c2, ?_, ?_, c3⟩
    · intro hi
      simp only [if_pos hi]
      exact ⟨rfl, rfl⟩
    · intro hi
      have : ¬ (x.is_instance ≠ 0) := by simp [hi]
      simp only [if_neg this]
      exact ⟨rfl, rfl⟩
  constructor
  · intro l
    have e := mapin_int_eq x dv s h now l hdev hsig hprops hfind hlen
    rcases htype with ht | ht
    · rw [ht] at e
      simp only [if_true] at e
      exact ⟨.i (c_int l), main _ _ e⟩
    · rw [ht] at e
      rw [if_neg (by decide), if_pos rfl] at e
      exact ⟨.f (c_float (l : Rat)), main _ _ e⟩
  · intro d
    have e := mapin_float_eq x dv s h now d hdev hsig hprops hfind hlen
    rcases htype with ht | ht
    · rw [ht] at e
      rw [if_neg (by decide), if_pos rfl] at e
      exact ⟨.i (c_int_of_float d), main _ _ e⟩
    · rw [ht] at e
      simp only [if_true] at e
      exact ⟨.f (c_float d), main _ _ e⟩

/-- C10 (the code at the failing input): on `overflow_device` the library
reports instance 0 as the oldest active instance; on an overflow event with
steal mode oldest `mapdevice_sig_handler` of `map.device.c` makes no release
call and both instances stay active, while
`mapdevice_instance_event_handler` of `mapdevice.c` releases instance 0. -/
theorem overflow_steal_oldest_skips_id_zero :
    (oldest_active [{ id := 0, data := some 1, active := true, created := 5, value := [] },
        { id := 7, data := some 2, active := true, created := 9, value := [] }]).map
          (fun n => n.id) = some 0
    ∧ (mapdevice_sig_handler overflow_device 0 .MPR_SIG_INST_OFLW 8 1 'f' none 42).map
        (fun r => (r.1.device.calls,
          r.1.device.sigs.map (fun s => s.insts.map (fun n => (n.id, n.active)))))
        = some ([], [[(0, true), (7, true)]])
    ∧ (mapdevice_instance_event_handler overflow_device 0 8 .IN_OVERFLOW 42).map
        (fun r => (r.1.device.calls,
          r.1.device.sigs.map (fun s => s.insts.map (fun n => (n.id, n.active)))))
        = some ([.release 0 0 (some 42)], [[(0, false), (7, true)]]) := by
  decide

/-- C6 (witness): with a device in the top-level patcher, a second device in
the sub-patcher [1] is refused and the world keeps its one registry. -/
theorem mapdevice_attach_refuses_second_device_witness :
    (mapdevice_attach world_with_device (mapdevice_init 9 []) (some [1])).2.2 ≠ 0
    ∧ (mapdevice_attach world_with_device (mapdevice_init 9 []) (some [1])).1
        = world_with_device
    ∧ (mapdevice_new world_with_device (some [1]) true []).2 = none :=
  have h := mapdevice_attach_refuses_second_device world_with_device (mapdevice_init 9 []) [1]
    (Or.inl ⟨[], by decide, by decide⟩)
  ⟨h.1, h.2.1, (h.2.2 true []).1⟩

/-- C8 (witness): `@instance 5` processed by a map.in endpoint on a fresh
signal leaves instance 5, owned by the endpoint, as the only instance. -/
theorem instance_directive_reserves_witness :
    (mapin_parse_extra_properties
        (fresh_endpoint 1 "map.in" "freq" [.A_SYM "@instance", .A_LONG 5]) fresh_signal).2.insts
      = [reserved_inst 5 1] :=
  ((instance_directive_reserves 5).1
    (fresh_endpoint 1 "map.in" "freq" [.A_SYM "@instance", .A_LONG 5]) fresh_signal
    rfl).2.2.2.2.2.1 rfl

/-- C9 (witness): the int message 5 to the endpoint of `bound_pair`, which
processed `@instance 3`, makes one write, to instance 3. -/
theorem value_message_writes_once_witness :
    ∃ (v : sig_val) (s' : mpr_sig),
      (mapin_int bound_pair.2 bound_pair.1 77 5).2.device.calls
          = (mapdevice_maybe_start_queue bound_pair.1 77).device.calls ++
              [.update 0 (if bound_pair.2.is_instance ≠ 0 then some bound_pair.2.instance_id
                  else none) [v] 1
                (bound_pair.2.tt_ptr.map
                  (fun _ => (mapdevice_maybe_start_queue bound_pair.1 77).timetag))]
      ∧ (mapin_int bound_pair.2 bound_pair.1 77 5).2.device.find_sig 0 = some s'
      ∧ (bound_pair.2.is_instance ≠ 0 → s'.value = bound_signal.value
          ∧ s'.insts = bound_signal.insts.map
            (fun n => if n.id = bound_pair.2.instance_id then { n with value := [v] } else n))
      ∧ (bound_pair.2.is_instance = 0 → s'.value = [v] ∧ s'.insts = bound_signal.insts)
      ∧ ∀ h', h' ≠ 0 →
          (mapin_int bound_pair.2 bound_pair.1 77 5).2.device.find_sig h'
            = bound_pair.1.device.find_sig h' :=
  (value_message_writes_once bound_pair.2 bound_pair.1 bound_signal 0 77
    (by decide) (by decide) (by decide) (by decide) (by decide) (by decide)).1 5

/-! ### The update queue and the poll tick -/

theorem maybe_start_queue_again (x : t_mapdevice) (t u : Nat) :
    mapdevice_maybe_start_queue (mapdevice_maybe_start_queue x t) u =
      mapdevice_maybe_start_queue x t := by
  unfold mapdevice_maybe_start_queue
  by_cases h : x.updated = 0
  · simp [h]
  · simp [h]

theorem maybe_start_queue_fold (x : t_mapdevice) (t : Nat) (rest : List Nat) :
    rest.foldl mapdevice_maybe_start_queue (mapdevice_maybe_start_queue x t) =
      mapdevice_maybe_start_queue x t := by
  induction rest with
  | nil => rfl
  | cons u rest ih => rw [List.foldl_cons, maybe_start_queue_again, ih]

/-- C12: called any number of times (at least once, at the times `t :: rest`)
on a device whose queue is not started, `mapdevice_maybe_start_queue` starts
the library queue exactly once, with the time read at the first call; the
timetag is that time and `updated` is 1; every later call leaves the state
as it is. -/
theorem maybe_start_queue_idempotent (x : t_mapdevice) (t : Nat) (rest : List Nat)
    (h : x.updated = 0) :
    (t :: rest).foldl mapdevice_maybe_start_queue x =
        { x with timetag := t,
                 device := { x.device with calls := x.device.calls ++ [.start_queue t] },
                 updated := 1 }
    ∧ ∀ u, mapdevice_maybe_start_queue ((t :: rest).foldl mapdevice_maybe_start_queue x) u =
        (t :: rest).foldl mapdevice_maybe_start_queue x := by
  have h1 : mapdevice_maybe_start_queue x t =
      { x with timetag := t,
               device := { x.device with calls := x.device.calls ++ [.start_queue t] },
               updated := 1 } := by
    unfold mapdevice_maybe_start_queue; rw [if_pos h]
  rw [List.foldl_cons, maybe_start_queue_fold]
  exact ⟨h1, fun u => maybe_start_queue_again x t u⟩

theorem maybe_start_queue_idempotent_witness :
    (fresh_device 100).updated = 0
    ∧ ([10, 20, 30].foldl mapdevice_maybe_start_queue (fresh_device 100)).device.calls =
        [.start_queue 10]
    ∧ ([10, 20, 30].foldl mapdevice_maybe_start_queue (fresh_device 100)).timetag = 10
    ∧ ([10, 20, 30].foldl mapdevice_maybe_start_queue (fresh_device 100)).updated = 1 := by
  rw [(maybe_start_queue_idempotent (fresh_device 100) 10 [20, 30] (by decide)).1]
  decide

/-- C13 as written fails: a device whose `updated` flag is set but which has
not joined the network yet (`ready` is 0) sends no queue on a poll tick and
keeps the flag. -/
theorem poll_not_ready_keeps_queue :
    pending_device.updated = 1
    ∧ pending_device.device.calls = [.start_queue 10, .update 0 (some 3) [.f 5] 1 (some 10)]
    ∧ (mapdevice_poll pending_device (fun _ => 0) false "maxmsp.1").x.device.calls =
        pending_device.device.calls
    ∧ (mapdevice_poll pending_device (fun _ => 0) false "maxmsp.1").x.updated = 1 := by
  decide

/-- C13 (amended): for every device state with `ready` and `updated` set, one
run of `mapdevice_poll` sends the queue exactly once, under the stored
timetag, and clears `updated`; nothing else of the device object changes. -/
theorem poll_sends_queue_when_ready (x : t_mapdevice) (polls : Nat → Int) (net_ready : Bool)
    (net_name : String) (hr : x.ready ≠ 0) (hu : x.updated ≠ 0) :
    (mapdevice_poll x polls net_ready net_name).x =
      { x with device := { x.device with calls := x.device.calls ++ [.send_queue x.timetag] },
               updated := 0 } := by
  unfold mapdevice_poll
  simp only [if_neg hr, if_pos hu]

theorem poll_sends_queue_when_ready_witness :
    ({ pending_device with ready := 1 } : t_mapdevice).ready ≠ 0 ∧
    (mapdevice_poll { pending_device with ready := 1 } (fun _ => 0) false "maxmsp.1").x.device.calls =
      [.start_queue 10, .update 0 (some 3) [.f 5] 1 (some 10), .send_queue 10] :=
  ⟨by decide, by
    rw [poll_sends_queue_when_ready { pending_device with ready := 1 } (fun _ => 0) false
      "maxmsp.1" (by decide) (by decide)]
    decide⟩

theorem poll_loop_le (polls : Nat → Int) (count n : Nat) :
    poll_loop polls count n ≤ n + count := by
  induction count generalizing n with
  | zero => simp [poll_loop]
  | succ c ih =>
    simp only [poll_loop]
    split
    · have := ih (n + 1); omega
    · omega

theorem poll_loop_ge (polls : Nat → Int) (count n : Nat) :
    n ≤ poll_loop polls count n := by
  induction count generalizing n with
  | zero => simp [poll_loop]
  | succ c ih =>
    simp only [poll_loop]
    split
    · have := ih (n + 1); omega
    · omega

theorem poll_loop_nonzero (polls : Nat → Int) (count n : Nat) :
    ∀ j, n ≤ j → j + 1 < poll_loop polls count n → polls j ≠ 0 := by
  induction count generalizing n with
  | zero => intro j h1 h2; simp only [poll_loop] at h2; omega
  | succ c ih =>
    intro j h1 h2
    simp only [poll_loop] at h2
    by_cases hp : polls n ≠ 0
    · rw [if_pos hp] at h2
      by_cases hj : j = n
      · rw [hj]; exact hp
      · exact ih (n + 1) j (by omega) h2
    · rw [if_neg hp] at h2; omega

theorem poll_loop_stops (polls : Nat → Int) (count n : Nat) :
    ∀ j, n ≤ j → j < n + count → polls j = 0 → (∀ i, n ≤ i → i < j → polls i ≠ 0) →
      poll_loop polls count n = j + 1 := by
  induction count generalizing n with
  | zero => intro j h1 h2; omega
  | succ c ih =>
    intro j h1 h2 h0 hb
    simp only [poll_loop]
    by_cases hj : j = n
    · subst hj; simp [h0]
    · have hp : polls n ≠ 0 := hb n (le_refl _) (by omega)
      rw [if_pos hp]
      exact ih (n + 1) j (by omega) (by omega) h0 (fun i hi1 hi2 => hb i (by omega) hi2)

theorem poll_loop_all (polls : Nat → Int) (count n : Nat) :
    (∀ i, n ≤ i → i < n + count → polls i ≠ 0) → poll_loop polls count n = n + count := by
  induction count generalizing n with
  | zero => intro _; simp [poll_loop]
  | succ c ih =>
    intro hb
    simp only [poll_loop]
    rw [if_pos (hb n (le_refl _) (by omega)), ih (n + 1) (fun i h1 h2 => hb i (by omega) (by omega))]
    omega

theorem mapdevice_poll_calls (x : t_mapdevice) (polls : Nat → Int) (net_ready : Bool)
    (net_name : String) :
    (mapdevice_poll x polls net_ready net_name).poll_calls = poll_loop polls 10 0 := by
  unfold mapdevice_poll
  simp only
  split
  · split <;> rfl
  · split <;> rfl

/-- C19: a run of `mapdevice_poll` calls the network poll at most 10 times;
every call but the last one made returned non-zero; the loop stops right
after the first call that returns 0, and makes 10 calls when none of the
first 10 returns 0. -/
theorem poll_at_most_ten_calls (x : t_mapdevice) (polls : Nat → Int) (net_ready : Bool)
    (net_name : String) :
    (mapdevice_poll x polls net_ready net_name).poll_calls ≤ 10
    ∧ (∀ j, j + 1 < (mapdevice_poll x polls net_ready net_name).poll_calls → polls j ≠ 0)
    ∧ (∀ j, j < 10 → polls j = 0 → (∀ i, i < j → polls i ≠ 0) →
        (mapdevice_poll x polls net_ready net_name).poll_calls = j + 1)
    ∧ ((∀ i, i < 10 → polls i ≠ 0) →
        (mapdevice_poll x polls net_ready net_name).poll_calls = 10) := by
  rw [mapdevice_poll_calls]
  refine ⟨?_, ?_, ?_, ?_⟩
  · have := poll_loop_le polls 10 0; omega
  · intro j hj; exact poll_loop_nonzero polls 10 0 j (Nat.zero_le _) hj
  · intro j hj h0 hb
    exact poll_loop_stops polls 10 0 j (Nat.zero_le _) (by omega) h0 (fun i _ hi => hb i hi)
  · intro hb
    have := poll_loop_all polls 10 0 (fun i _ hi => hb i (by omega))
    omega

/-! ### Messages and ticks -/

theorem check_ptrs_fields (x : t_mapin) :
    (check_ptrs x).1.tt_ptr = x.tt_ptr ∧ (check_ptrs x).1.is_instance = x.is_instance
    ∧ (check_ptrs x).1.instance_id = x.instance_id ∧ (check_ptrs x).1.sig_ptr = x.sig_ptr
    ∧ (check_ptrs x).1.dev_obj = x.dev_obj := by
  unfold check_ptrs
  split
  · exact ⟨rfl, rfl, rfl, rfl, rfl⟩
  · split <;> exact ⟨rfl, rfl, rfl, rfl, rfl⟩

theorem mapin_write_count_shape (x : t_mapin) (dv : t_mapdevice) (now h : Nat)
    (value : List sig_val) (count : Int) :
    ∃ (f : mpr_sig → mpr_sig) (c : lib_call), (∀ s, (f s).handle = s.handle)
      ∧ (x.tt_ptr.isSome → c.written_at (mapdevice_maybe_start_queue dv now).timetag)
      ∧ mapin_write_count x dv now h value count =
          { mapdevice_maybe_start_queue dv now with
            device := { (mapdevice_maybe_start_queue dv now).device.modify_sig h f with
              calls := (mapdevice_maybe_start_queue dv now).device.calls ++ [c] } } := by
  unfold mapin_write_count
  by_cases hi : x.is_instance ≠ 0
  · simp only [if_pos hi]
    refine ⟨_, _, ?_, ?_, rfl⟩
    · intro s; rfl
    · intro ht
      obtain ⟨p, hp⟩ := Option.isSome_iff_exists.mp ht
      simp [lib_call.written_at, hp]
  · simp only [if_neg hi]
    refine ⟨_, _, ?_, ?_, rfl⟩
    · intro s; rfl
    · intro ht
      obtain ⟨p, hp⟩ := Option.isSome_iff_exists.mp ht
      simp [lib_call.written_at, hp]

theorem mapin_write_eq_count (x : t_mapin) (dv : t_mapdevice) (now h : Nat)
    (value : List sig_val) :
    mapin_write x dv now h value = mapin_write_count x dv now h value 1 := rfl

theorem write_count_cases (x0 x : t_mapin) (dv : t_mapdevice) (now h : Nat)
    (value : List sig_val) (count : Int) (hx : x.tt_ptr = x0.tt_ptr) :
    ∃ (g : Nat) (f : mpr_sig → mpr_sig) (c : lib_call), (∀ s, (f s).handle = s.handle)
      ∧ (x0.tt_ptr.isSome → c.written_at (mapdevice_maybe_start_queue dv now).timetag)
      ∧ mapin_write_count x dv now h value count =
          { mapdevice_maybe_start_queue dv now with
            device := { (mapdevice_maybe_start_queue dv now).device.modify_sig g f with
              calls := (mapdevice_maybe_start_queue dv now).device.calls ++ [c] } } := by
  obtain ⟨f, c, h1, h2, h3⟩ := mapin_write_count_shape x dv now h value count
  exact ⟨h, f, c, h1, fun ht => h2 (by rw [hx]; exact ht), h3⟩

/-- A message either leaves the device as it is, or it starts the queue (when
that is not started) and then makes one write or release call, which carries
the timetag of the device as it is after the queue start. -/
theorem deliver_cases (dv : t_mapdevice) (msg : t_msg) :
    deliver dv msg = dv ∨
    ∃ (h : Nat) (f : mpr_sig → mpr_sig) (c : lib_call), (∀ s, (f s).handle = s.handle)
      ∧ (msg.x.tt_ptr.isSome → c.written_at (mapdevice_maybe_start_queue dv msg.now).timetag)
      ∧ deliver dv msg =
          { mapdevice_maybe_start_queue dv msg.now with
            device := { (mapdevice_maybe_start_queue dv msg.now).device.modify_sig h f with
              calls := (mapdevice_maybe_start_queue dv msg.now).device.calls ++ [c] } } := by
  obtain ⟨x, now, m⟩ := msg
  have hc := check_ptrs_fields x
  cases m with
  | int l =>
    simp only [deliver, mapin_int, mapin_write_eq_count]
    split
    · exact Or.inl rfl
    · split
      · split
        · exact Or.inl rfl
        · split
          · exact Or.inl rfl
          · exact Or.inr (write_count_cases x _ dv now _ _ _ hc.1)
      · exact Or.inl rfl
  | float d =>
    simp only [deliver, mapin_float, mapin_write_eq_count]
    split
    · exact Or.inl rfl
    · split
      · split
        · exact Or.inl rfl
        · split
          · exact Or.inl rfl
          · exact Or.inr (write_count_cases x _ dv now _ _ _ hc.1)
      · exact Or.inl rfl
  | list argv =>
    simp only [deliver, mapin_list]
    split
    · exact Or.inl rfl
    · split
      · split
        · exact Or.inl rfl
        · split
          · exact Or.inl rfl
          · split
            · exact Or.inl rfl
            · exact Or.inr (write_count_cases x _ dv now _ _ _ hc.1)
      · exact Or.inl rfl
  | release =>
    simp only [deliver, mapin_release]
    split
    · exact Or.inl rfl
    · split
      · exact Or.inl rfl
      · right
        refine ⟨_, _, _, ?_, ?_, rfl⟩
        · intro s; rfl
        · intro ht
          obtain ⟨p, hp⟩ := Option.isSome_iff_exists.mp ht
          simp [lib_call.written_at, hc.1, hp]

theorem maybe_start_queue_frame (x : t_mapdevice) (now : Nat) :
    (mapdevice_maybe_start_queue x now).ready = x.ready
    ∧ (mapdevice_maybe_start_queue x now).id = x.id
    ∧ (mapdevice_maybe_start_queue x now).device.sigs = x.device.sigs
    ∧ (mapdevice_maybe_start_queue x now).updated ≠ 0 := by
  unfold mapdevice_maybe_start_queue
  by_cases h : x.updated = 0
  · rw [if_pos h]; exact ⟨rfl, rfl, rfl, by simp⟩
  · rw [if_neg h]; exact ⟨rfl, rfl, rfl, h⟩

theorem deliver_ready (dv : t_mapdevice) (msg : t_msg) : (deliver dv msg).ready = dv.ready := by
  rcases deliver_cases dv msg with h | ⟨h, f, c, _, _, h3⟩
  · rw [h]
  · rw [h3]; exact (maybe_start_queue_frame dv msg.now).1

theorem deliver_all_ready (dv : t_mapdevice) (msgs : List t_msg) :
    (deliver_all dv msgs).ready = dv.ready := by
  unfold deliver_all
  induction msgs generalizing dv with
  | nil => rfl
  | cons m rest ih => rw [List.foldl_cons, ih, deliver_ready]

theorem run_ticks_append (x : t_mapdevice) (a b : List t_tick) :
    run_ticks x (a ++ b) =
      ((run_ticks (run_ticks x a).1 b).1, (run_ticks x a).2 ++ (run_ticks (run_ticks x a).1 b).2) := by
  induction a generalizing x with
  | nil => rfl
  | cons t rest ih =>
    have := ih (mapdevice_poll (deliver_all x t.msgs) t.polls t.net_ready t.net_name).x
    rw [List.cons_append]
    simp only [run_ticks]
    rw [this]
    rfl

theorem poll_when_ready (x : t_mapdevice) (polls : Nat → Int) (r : Bool) (n : String)
    (h : x.ready ≠ 0) :
    (mapdevice_poll x polls r n).x.ready = x.ready ∧ (mapdevice_poll x polls r n).deferred = 0 := by
  unfold mapdevice_poll
  simp only [if_neg h]
  split <;> exact ⟨rfl, rfl⟩

theorem poll_not_ready (x : t_mapdevice) (polls : Nat → Int) (r : Bool) (n : String)
    (h : x.ready = 0) :
    (mapdevice_poll x polls r n).x.ready = (if r then 1 else 0)
    ∧ (mapdevice_poll x polls r n).deferred = (if r then 1 else 0) := by
  unfold mapdevice_poll
  simp only [if_pos h]
  cases r
  · exact ⟨h, rfl⟩
  · exact ⟨rfl, rfl⟩

theorem run_ticks_ready (x : t_mapdevice) (ticks : List t_tick) (h : x.ready ≠ 0) :
    (run_ticks x ticks).1.ready ≠ 0 ∧ (run_ticks x ticks).2 = List.replicate ticks.length 0 := by
  induction ticks generalizing x with
  | nil => exact ⟨h, rfl⟩
  | cons t rest ih =>
    have hd : (deliver_all x t.msgs).ready ≠ 0 := by rw [deliver_all_ready]; exact h
    have hp := poll_when_ready (deliver_all x t.msgs) t.polls t.net_ready t.net_name hd
    have := ih (mapdevice_poll (deliver_all x t.msgs) t.polls t.net_ready t.net_name).x
      (by rw [hp.1]; exact hd)
    simp only [run_ticks, List.length_cons, List.replicate_succ]
    exact ⟨this.1, by rw [hp.2, this.2]⟩

theorem run_ticks_report (x : t_mapdevice) (ticks : List t_tick) (h0 : x.ready = 0) :
    ((∀ t ∈ ticks, t.net_ready = false)
        ∧ (run_ticks x ticks).2 = List.replicate ticks.length 0
        ∧ (run_ticks x ticks).1.ready = 0)
    ∨ ∃ pre t post, ticks = pre ++ t :: post ∧ (∀ u ∈ pre, u.net_ready = false)
        ∧ t.net_ready = true
        ∧ (run_ticks x ticks).2 =
            List.replicate pre.length 0 ++ 1 :: List.replicate post.length 0
        ∧ (run_ticks x ticks).1.ready ≠ 0 := by
  induction ticks generalizing x with
  | nil => left; exact ⟨by simp, rfl, h0⟩
  | cons t rest ih =>
    have hd : (deliver_all x t.msgs).ready = 0 := by rw [deliver_all_ready]; exact h0
    have hp := poll_not_ready (deliver_all x t.msgs) t.polls t.net_ready t.net_name hd
    cases hr : t.net_ready with
    | true =>
      right
      rw [hr] at hp
      have hne : (mapdevice_poll (deliver_all x t.msgs) t.polls true t.net_name).x.ready ≠ 0 := by
        rw [hp.1]; decide
      have := run_ticks_ready _ rest hne
      refine ⟨[], t, rest, rfl, by simp, hr, ?_, ?_⟩
      · simp only [run_ticks, hr, List.length_nil, List.replicate_zero, List.nil_append]
        rw [hp.2, this.2]; rfl
      · simp only [run_ticks, hr]; exact this.1
    | false =>
      rw [hr] at hp
      rcases ih (mapdevice_poll (deliver_all x t.msgs) t.polls false t.net_name).x hp.1 with
        ⟨h1, h2, h3⟩ | ⟨pre, u, post, h1, h2, h3, h4, h5⟩
      · left
        refine ⟨?_, ?_, ?_⟩
        · intro u hu
          rcases List.mem_cons.mp hu with rfl | hu
          · exact hr
          · exact h1 u hu
        · simp only [run_ticks, hr, List.length_cons, List.replicate_succ]
          rw [hp.2, h2]; rfl
        · simp only [run_ticks, hr]; exact h3
      · right
        refine ⟨t :: pre, u, post, by rw [h1]; rfl, ?_, h3, ?_, ?_⟩
        · intro v hv
          rcases List.mem_cons.mp hv with rfl | hv
          · exact hr
          · exact h2 v hv
        · simp only [run_ticks, hr, List.length_cons, List.replicate_succ, List.cons_append]
          rw [hp.2, h4]; rfl
        · simp only [run_ticks, hr]; exact h5

/-- C20: over every run of clock periods of a device that starts with `ready`
0 (messages to its endpoints may come in between the ticks), `ready` never
goes back to 0 once it is set, and the properties report is scheduled exactly
once: on the first tick at which the network reports ready, on no tick before
it and on no tick after it (and on no tick at all while the network never
reports ready, `ready` then staying 0). -/
theorem ready_monotone_report_once (x : t_mapdevice) (ticks : List t_tick) (h0 : x.ready = 0) :
    (∀ pre suf, ticks = pre ++ suf → (run_ticks x pre).1.ready ≠ 0 →
        (run_ticks x ticks).1.ready ≠ 0)
    ∧ (((∀ t ∈ ticks, t.net_ready = false)
          ∧ (run_ticks x ticks).2 = List.replicate ticks.length 0
          ∧ (run_ticks x ticks).1.ready = 0)
      ∨ ∃ pre t post, ticks = pre ++ t :: post ∧ (∀ u ∈ pre, u.net_ready = false)
          ∧ t.net_ready = true
          ∧ (run_ticks x ticks).2 =
              List.replicate pre.length 0 ++ 1 :: List.replicate post.length 0
          ∧ (run_ticks x ticks).1.ready ≠ 0) := by
  refine ⟨?_, run_ticks_report x ticks h0⟩
  intro pre suf he hr
  rw [he, run_ticks_append]
  exact (run_ticks_ready _ suf hr).1

theorem ready_monotone_report_once_witness :
    (fresh_device 100).ready = 0
    ∧ (run_ticks (fresh_device 100)
        [quiet_tick false, quiet_tick true, quiet_tick true, quiet_tick false]).2 = [0, 1, 0, 0]
    ∧ ∀ pre suf, [quiet_tick false, quiet_tick true, quiet_tick true, quiet_tick false] = pre ++ suf →
        (run_ticks (fresh_device 100) pre).1.ready ≠ 0 →
        (run_ticks (fresh_device 100)
          [quiet_tick false, quiet_tick true, quiet_tick true, quiet_tick false]).1.ready ≠ 0 :=
  ⟨by decide, by decide,
    (ready_monotone_report_once (fresh_device 100)
      [quiet_tick false, quiet_tick true, quiet_tick true, quiet_tick false] (by decide)).1⟩

theorem deliver_all_append (dv : t_mapdevice) (a b : List t_msg) :
    deliver_all dv (a ++ b) = deliver_all (deliver_all dv a) b := by
  unfold deliver_all; rw [List.foldl_append]

theorem bound_to_tt (x : t_mapin) (dv : t_mapdevice) (h : bound_to x dv) : x.tt_ptr.isSome := by
  rw [h.2.1]; rfl

/-- While the queue is started, messages only add writes and releases that
carry the stored timetag; timetag and flag stay. -/
theorem deliver_all_started (dv : t_mapdevice) (msgs : List t_msg)
    (htt : ∀ m ∈ msgs, m.x.tt_ptr.isSome) (hu : dv.updated ≠ 0) :
    (deliver_all dv msgs).timetag = dv.timetag
    ∧ (deliver_all dv msgs).updated = dv.updated
    ∧ ∃ ws, (deliver_all dv msgs).device.calls = dv.device.calls ++ ws
        ∧ ∀ c ∈ ws, c.written_at dv.timetag := by
  induction msgs generalizing dv with
  | nil => exact ⟨rfl, rfl, [], by simp [deliver_all], by simp⟩
  | cons m rest ih =>
    have hq : mapdevice_maybe_start_queue dv m.now = dv := by
      unfold mapdevice_maybe_start_queue; rw [if_neg hu]
    have hstep : (deliver dv m).timetag = dv.timetag ∧ (deliver dv m).updated = dv.updated
        ∧ ∃ ws, (deliver dv m).device.calls = dv.device.calls ++ ws
            ∧ ∀ c ∈ ws, c.written_at dv.timetag := by
      rcases deliver_cases dv m with h | ⟨h, f, c, _, h2, h3⟩
      · rw [h]; exact ⟨rfl, rfl, [], by simp, by simp⟩
      · rw [hq] at h2 h3
        rw [h3]
        refine ⟨rfl, rfl, [c], rfl, ?_⟩
        intro c' hc'
        rw [List.mem_singleton.mp hc']
        exact h2 (htt m (List.mem_cons_self _ _))
    obtain ⟨s1, s2, ws1, s3, s4⟩ := hstep
    obtain ⟨r1, r2, ws2, r3, r4⟩ := ih (deliver dv m)
      (fun u hu' => htt u (List.mem_cons_of_mem _ hu')) (by rw [s2]; exact hu)
    have he : deliver_all dv (m :: rest) = deliver_all (deliver dv m) rest := rfl
    rw [he]
    refine ⟨by rw [r1, s1], by rw [r2, s2], ws1 ++ ws2, by rw [r3, s3, List.append_assoc], ?_⟩
    intro c hc
    rcases List.mem_append.mp hc with hc | hc
    · exact s4 c hc
    · rw [← s1]; exact r4 c hc

theorem deliver_all_fresh (dv : t_mapdevice) (msgs : List t_msg)
    (htt : ∀ m ∈ msgs, m.x.tt_ptr.isSome) (hu : dv.updated = 0) :
    deliver_all dv msgs = dv
    ∨ ∃ pre m post ws, msgs = pre ++ m :: post ∧ deliver_all dv pre = dv
        ∧ (deliver_all dv msgs).device.calls = dv.device.calls ++ .start_queue m.now :: ws
        ∧ ws ≠ [] ∧ (∀ c ∈ ws, c.written_at m.now)
        ∧ (deliver_all dv msgs).timetag = m.now ∧ (deliver_all dv msgs).updated = 1 := by
  induction msgs with
  | nil => left; rfl
  | cons m rest ih =>
    have he : deliver_all dv (m :: rest) = deliver_all (deliver dv m) rest := rfl
    have hq : mapdevice_maybe_start_queue dv m.now =
        { dv with timetag := m.now,
                  device := { dv.device with calls := dv.device.calls ++ [.start_queue m.now] },
                  updated := 1 } := by
      unfold mapdevice_maybe_start_queue; rw [if_pos hu]
    rcases deliver_cases dv m with h | ⟨h, f, c, _, h2, h3⟩
    · rw [he, h]
      rcases ih (fun u hu' => htt u (List.mem_cons_of_mem _ hu')) with h1 | ⟨pre, u, post, ws, h1, h2, h3, h4⟩
      · left; exact h1
      · right
        refine ⟨m :: pre, u, post, ws, by rw [h1]; rfl, ?_, h3, h4⟩
        have : deliver_all dv (m :: pre) = deliver_all (deliver dv m) pre := rfl
        rw [this, h, h2]
    · right
      rw [hq] at h2 h3
      have hne : (deliver dv m).updated ≠ 0 := by rw [h3]; simp
      obtain ⟨r1, r2, ws, r3, r4⟩ := deliver_all_started (deliver dv m) rest
        (fun u hu' => htt u (List.mem_cons_of_mem _ hu')) hne
      have ht : (deliver dv m).timetag = m.now := by rw [h3]
      refine ⟨[], m, rest, c :: ws, rfl, rfl, ?_, by simp, ?_, ?_, ?_⟩
      · rw [he, r3, h3]; simp
      · intro c' hc'
        rcases List.mem_cons.mp hc' with rfl | hc'
        · exact h2 (htt m (List.mem_cons_self _ _))
        · rw [← ht]; exact r4 c' hc'
      · rw [he, r1, ht]
      · rw [he, r2, h3]

theorem set_two_take (l : List t_atom) (a b : t_atom) (h : 2 ≤ l.length) :
    ((l.set 0 a).set 1 b).take 2 = [a, b] := by
  match l, h with
  | _ :: _ :: _, _ => rfl

/-- C11: on an instance-overflow event for a signal whose steal mode is 0, the
handler returns, leaves the library device as it is (no instance is released,
no call is made) and sends the list `[inst, "overflow"]` once to each endpoint
of the endpoint list of the signal, in list order, and to no other object. -/
theorem overflow_no_steal_broadcasts (x : t_mapdevice) (h : Nat) (sig : mpr_sig) (inst len : Int)
    (type : Char) (val : Option (List sig_val)) (time : Nat)
    (hs : x.device.find_sig h = some sig) (hm : sig.steal = .none) (hw : sig.data.wf)
    (hb : 2 ≤ x.buffer.length) :
    ∃ x1, mapdevice_sig_handler x h .MPR_SIG_INST_OFLW inst len type val time =
        some (x1, sig.data.objs.map (fun o => (o, .list [.A_LONG inst, .A_SYM "overflow"])))
      ∧ x1.device = x.device := by
  unfold mapdevice_sig_handler
  simp only [hs, hm]
  refine ⟨{ x with buffer := (x.buffer.set 0 (.A_LONG inst)).set 1 (.A_SYM "overflow") }, ?_, rfl⟩
  rw [set_two_take x.buffer _ _ hb]
  unfold t_map_ptrs.wf at hw
  rw [hw, List.take_length]

theorem overflow_no_steal_broadcasts_witness :
    no_steal_device.device.find_sig 0 = some no_steal_signal
    ∧ no_steal_signal.data.objs = [1, 2]
    ∧ ∃ x1, mapdevice_sig_handler no_steal_device 0 .MPR_SIG_INST_OFLW 9 1 'f' none 42 =
        some (x1, no_steal_signal.data.objs.map
          (fun o => (o, .list [.A_LONG 9, .A_SYM "overflow"])))
      ∧ x1.device = no_steal_device.device :=
  ⟨by decide, by decide,
    overflow_no_steal_broadcasts no_steal_device 0 no_steal_signal 9 1 'f' none 42
      (by decide) (by decide) (by decide)
      (by show 2 ≤ (List.replicate MAX_LIST (t_atom.A_LONG 0)).length
          rw [List.length_replicate]; decide)⟩

theorem get_sigs_length_core (d : mpr_dev) (dir : mpr_dir) (hd : dir ≠ .MPR_DIR_ANY) :
    (mpr_dev_get_sigs d dir).length
      = ((d.sigs.map mpr_sig.core).filter (fun c => c.2.2.1 = dir)).length := by
  have : mpr_dev_get_sigs d dir = d.sigs.filter (fun s => s.dir = dir) := by
    cases dir <;> first | rfl | exact absurd rfl hd
  rw [this, List.filter_map, List.length_map]
  rfl

theorem dir_count_modify (l : List mpr_sig) (h : Nat) (D : t_map_ptrs) (dir : mpr_dir) :
    ((l.map (fun s => if s.handle = h then (s.handle, s.name, s.dir, D) else s.core)).filter
        (fun c => c.2.2.1 = dir)).length
      = ((l.map mpr_sig.core).filter (fun c => c.2.2.1 = dir)).length := by
  induction l with
  | nil => rfl
  | cons a l ih =>
    simp only [List.map_cons, List.filter_cons]
    have : (if a.handle = h then (a.handle, a.name, a.dir, D) else a.core).2.2.1 = a.core.2.2.1 := by
      split <;> rfl
    rw [this]
    split
    · simp only [List.length_cons, ih]
    · exact ih

theorem dir_of_class_ne_any (cls : String) (dir : mpr_dir) (h : dir_of_class cls = some dir) :
    dir ≠ .MPR_DIR_ANY := by
  unfold dir_of_class at h
  split at h
  · cases h; decide
  · split at h
    · cases h; decide
    · cases h

theorem add_signal_outlet (x : t_mapdevice) (obj : t_mapin) (dir : mpr_dir)
    (hw : x.device.wf) (hb : 1 ≤ x.buffer.length) (hc : dir_of_class obj.classname = some dir) :
    (mapdevice_add_signal x obj).1.outlet
      = x.outlet ++ [(if dir = .MPR_DIR_OUT then "numOutputs" else "numInputs",
          [.A_LONG (mpr_dev_get_sigs (mapdevice_add_signal x obj).1.device dir).length])] := by
  have hd := dir_of_class_ne_any _ _ hc
  have htake : ∀ a : t_atom, (x.buffer.set 0 a).take 1 = [a] := by
    intro a
    match hx : x.buffer, hb with
    | _ :: _, _ => rfl
  cases hf : mpr_list_filter_name (mpr_dev_get_sigs x.device .MPR_DIR_ANY) obj.sig_name with
  | nil =>
    have h1 := (add_signal_new_core x obj dir hw hc hf).1
    have h2 : ((mpr_sig_new x.device dir obj.sig_name (c_int obj.sig_length) obj.sig_type).1.modify_sig
        (mpr_sig_new x.device dir obj.sig_name (c_int obj.sig_length) obj.sig_type).2.handle
        (fun s => { s with data := { home := x.id, num_objs := 1, objs := [obj.myobjname] } })).sigs.map
          mpr_sig.core
        = x.device.sigs.map mpr_sig.core ++
            [(x.device.next_sig, obj.sig_name, dir,
              ({ home := x.id, num_objs := 1, objs := [obj.myobjname] } : t_map_ptrs))] := by
      rw [modify_sig_core]
      simp only [mpr_sig_new, List.map_append, List.map_cons, List.map_nil, if_true]
      congr 1
      apply List.map_congr_left
      intro s hs
      have := hw.2 s hs
      rw [if_neg (by omega)]
    have hcount : (mpr_dev_get_sigs (mapdevice_add_signal x obj).1.device dir).length
        = (mpr_dev_get_sigs ((mpr_sig_new x.device dir obj.sig_name (c_int obj.sig_length)
            obj.sig_type).1.modify_sig
          (mpr_sig_new x.device dir obj.sig_name (c_int obj.sig_length) obj.sig_type).2.handle
          (fun s => { s with data := { home := x.id, num_objs := 1, objs := [obj.myobjname] } }))
            dir).length := by
      rw [get_sigs_length_core _ dir hd, get_sigs_length_core _ dir hd, h1, h2]
    rw [hcount]
    unfold mapdevice_add_signal
    simp only [hc, hf, htake]
  | cons sig rest =>
    have h1 := (add_signal_found_core x obj dir sig rest hw hc hf).1
    have hcount : (mpr_dev_get_sigs (mapdevice_add_signal x obj).1.device dir).length
        = (mpr_dev_get_sigs (x.device.modify_sig sig.handle
            (fun s => { s with data := { sig.data with
                objs := (realloc_objs sig.data.objs (sig.data.num_objs + 1)).set
                          sig.data.num_objs obj.myobjname,
                num_objs := sig.data.num_objs + 1 } })) dir).length := by
      rw [get_sigs_length_core _ dir hd, get_sigs_length_core _ dir hd, h1, modify_sig_core]
      rfl
    rw [hcount]
    unfold mapdevice_add_signal
    simp only [hc, hf, htake]

theorem fresh_device_buffer (id : Nat) : (fresh_device id).buffer.length = MAX_LIST :=
  List.length_replicate _ _

theorem add_signal_buffer_length (x : t_mapdevice) (obj : t_mapin) :
    (mapdevice_add_signal x obj).1.buffer.length = x.buffer.length := by
  unfold mapdevice_add_signal
  split
  · rfl
  · simp only [List.length_set]

/-- C18: every `mapdevice_add_signal` for a map.out or map.in endpoint sends
exactly one message out of the device outlet, `numOutputs` for map.out and
`numInputs` for map.in, with one atom: the number of signals of that
direction the device has after the call. When a signal of the declared name
existed (found branch) that number is the one from before the call; when none
existed (not-found branch) it is one more. -/
theorem add_signal_reports_count (x : t_mapdevice) (obj : t_mapin)
    (hw : x.device.wf) (hb : 1 ≤ x.buffer.length)
    (hcls : obj.classname = "map.out" ∨ obj.classname = "map.in") :
    (mapdevice_add_signal x obj).1.outlet
      = x.outlet ++ [(if obj.classname = "map.out" then "numOutputs" else "numInputs",
          [.A_LONG (mpr_dev_get_sigs (mapdevice_add_signal x obj).1.device
            (if obj.classname = "map.out" then .MPR_DIR_OUT else .MPR_DIR_IN)).length])]
    ∧ (bound_named x obj.sig_name ≠ [] →
        (mpr_dev_get_sigs (mapdevice_add_signal x obj).1.device
            (if obj.classname = "map.out" then .MPR_DIR_OUT else .MPR_DIR_IN)).length
          = (mpr_dev_get_sigs x.device
            (if obj.classname = "map.out" then .MPR_DIR_OUT else .MPR_DIR_IN)).length)
    ∧ (bound_named x obj.sig_name = [] →
        (mpr_dev_get_sigs (mapdevice_add_signal x obj).1.device
            (if obj.classname = "map.out" then .MPR_DIR_OUT else .MPR_DIR_IN)).length
          = (mpr_dev_get_sigs x.device
            (if obj.classname = "map.out" then .MPR_DIR_OUT else .MPR_DIR_IN)).length + 1) := by
  have hc : dir_of_class obj.classname
      = some (if obj.classname = "map.out" then .MPR_DIR_OUT else .MPR_DIR_IN) := by
    unfold dir_of_class
    rcases hcls with h | h
    · simp [h]
    · simp [h]
  have hd := dir_of_class_ne_any _ _ hc
  have hsel : (if (if obj.classname = "map.out" then mpr_dir.MPR_DIR_OUT else mpr_dir.MPR_DIR_IN)
        = .MPR_DIR_OUT then "numOutputs" else "numInputs")
      = (if obj.classname = "map.out" then "numOutputs" else "numInputs") := by
    by_cases h : obj.classname = "map.out"
    · simp [h]
    · simp [h]
  refine ⟨?_, ?_, ?_⟩
  · rw [add_signal_outlet x obj _ hw hb hc, hsel]
  · intro hne
    cases hf : mpr_list_filter_name (mpr_dev_get_sigs x.device .MPR_DIR_ANY) obj.sig_name with
    | nil => exact absurd (by unfold bound_named; rw [hf]; rfl) hne
    | cons sig rest =>
      rw [get_sigs_length_core _ _ hd, get_sigs_length_core _ _ hd,
        (add_signal_found_core x obj _ sig rest hw hc hf).1, dir_count_modify]
  · intro he
    have hf : mpr_list_filter_name (mpr_dev_get_sigs x.device .MPR_DIR_ANY) obj.sig_name = [] := by
      unfold bound_named at he
      exact List.map_eq_nil_iff.mp he
    rw [get_sigs_length_core _ _ hd, get_sigs_length_core _ _ hd,
      (add_signal_new_core x obj _ hw hc hf).1, List.filter_append, List.length_append]
    simp

theorem add_signal_reports_count_witness :
    device_with_freq.device.wf
    ∧ (mapdevice_add_signal device_with_freq (fresh_endpoint 8 "map.out" "freq" [])).1.outlet
        = [("numOutputs", [.A_LONG 1]), ("numOutputs", [.A_LONG 1])]
    ∧ (mapdevice_add_signal device_with_freq (fresh_endpoint 8 "map.out" "gain" [])).1.outlet
        = [("numOutputs", [.A_LONG 1]), ("numOutputs", [.A_LONG 2])]
    ∧ (mpr_dev_get_sigs
          (mapdevice_add_signal device_with_freq (fresh_endpoint 8 "map.out" "freq" [])).1.device
          (if (fresh_endpoint 8 "map.out" "freq" []).classname = "map.out" then .MPR_DIR_OUT
            else .MPR_DIR_IN)).length
        = (mpr_dev_get_sigs device_with_freq.device
          (if (fresh_endpoint 8 "map.out" "freq" []).classname = "map.out" then .MPR_DIR_OUT
            else .MPR_DIR_IN)).length :=
  ⟨by decide, by decide, by decide,
    (add_signal_reports_count device_with_freq (fresh_endpoint 8 "map.out" "freq" [])
      (by decide)
      (by unfold device_with_freq
          rw [add_signal_buffer_length, fresh_device_buffer]; decide)
      (by decide)).2.1 (by decide)⟩

/-! ### Release events, removal of an unlisted endpoint, teardown -/

set_option maxRecDepth 8000 in
/-- C15 fails in the code: the device `device_with_freq` has one signal with a
single instance and the endpoint list [7]. For an upstream or a downstream
release event on it the handler reads `obj->o_outlet` with `obj` null (no
message is delivered to endpoint 7), and likewise on a signal with several
instances when the released instance has no owner; the update branch of the
same handler sends to the endpoint list when `obj` is null, and the handler
of `mapdevice.c` sends the release to the endpoint list. -/
theorem release_event_null_owner :
    bound_named device_with_freq "freq" = [(.MPR_DIR_OUT, 1, [7])]
    ∧ (device_with_freq.device.find_sig 0).map mpr_sig_get_num_inst = some 1
    ∧ mapdevice_sig_handler device_with_freq 0 .MPR_SIG_REL_UPSTRM 0 1 'f' none 42 = none
    ∧ mapdevice_sig_handler device_with_freq 0 .MPR_SIG_REL_DNSTRM 0 1 'f' none 42 = none
    ∧ mapdevice_sig_handler overflow_device 0 .MPR_SIG_REL_UPSTRM 3 1 'f' none 42 = none
    ∧ (mapdevice_sig_handler device_with_freq 0 .MPR_SIG_UPDATE 0 1 'f' (some [.f 3]) 42).map
        (fun r => r.2) = some [(7, .float 3)]
    ∧ (mapdevice_instance_event_handler device_with_freq 0 0 .IN_UPSTREAM_RELEASE 42).map
        (fun r => r.2)
        = some [(7, .list [.A_LONG 0, .A_SYM "release", .A_SYM "upstream"])] := by
  decide

theorem remove_obj_absent (ptrs : t_map_ptrs) (e : Nat) (hw : ptrs.wf) (he : e ∉ ptrs.objs) :
    remove_obj ptrs e = none := by
  unfold t_map_ptrs.wf at hw
  have hidx : find_obj_loop ptrs.objs ptrs.num_objs e ptrs.num_objs 0 = ptrs.num_objs := by
    rw [hw, find_obj_loop_eq ptrs.objs e ptrs.objs.length 0 (by omega)]
    simp [List.indexOf_eq_length.mpr he]
  unfold remove_obj
  simp only [hidx, if_true]

/-- The `else` branch of `mapdevice_remove_signal`: an endpoint that is not in
an endpoint list of two or more entries (or of none) leaves the device as it
is. -/
theorem remove_signal_unlisted_long (x : t_mapdevice) (e : t_mapin) (sig : mpr_sig)
    (rest : List mpr_sig)
    (hf : mpr_list_filter_name (mpr_dev_get_sigs x.device .MPR_DIR_ANY) e.sig_name = sig :: rest)
    (hw : sig.data.wf) (hn : sig.data.num_objs ≠ 1) (he : e.myobjname ∉ sig.data.objs) :
    mapdevice_remove_signal x e = x := by
  unfold mapdevice_remove_signal
  simp only [hf, if_neg hn, remove_obj_absent sig.data e.myobjname hw he]

/-- C17 fails in the code for a list of length 1: the name freq of
`device_with_freq` is bound to the endpoint list [7]; removing an object 9
that declares the name freq and is not in the list frees the signal. With
the list [7, 8] the same call leaves the list as it is. -/
theorem remove_signal_unlisted_frees_single :
    bound_named device_with_freq "freq" = [(.MPR_DIR_OUT, 1, [7])]
    ∧ bound_named (mapdevice_remove_signal device_with_freq
        (fresh_endpoint 9 "mpr.in" "freq" [])) "freq" = []
    ∧ (mapdevice_remove_signal device_with_freq
        (fresh_endpoint 9 "mpr.in" "freq" [])).device.sigs = []
    ∧ bound_named (mapdevice_remove_signal
        (mapdevice_add_signal device_with_freq (fresh_endpoint 8 "map.out" "freq" [])).1
        (fresh_endpoint 9 "mpr.in" "freq" [])) "freq" = [(.MPR_DIR_OUT, 2, [7, 8])] := by
  decide

theorem check_ptrs_unbound (o : t_mapin) (h : o.dev_obj = none ∨ o.sig_ptr = none) :
    check_ptrs o = (o, 1) := by
  unfold check_ptrs
  rcases h with h | h <;> simp [h]

/-- An endpoint whose device pointer or signal pointer is null returns from
every message with the device and itself as they were. -/
theorem unbound_ignores (o : t_mapin) (h : o.dev_obj = none ∨ o.sig_ptr = none)
    (dv : t_mapdevice) (now : Nat) :
    (∀ l, mapin_int o dv now l = (o, dv)) ∧ (∀ d, mapin_float o dv now d = (o, dv))
    ∧ (∀ argv, mapin_list o dv now argv = (o, dv)) ∧ mapin_release o dv now = (o, dv) := by
  have hc := check_ptrs_unbound o h
  refine ⟨?_, ?_, ?_, ?_⟩
  · intro l; unfold mapin_int; simp [hc]
  · intro d; unfold mapin_float; simp [hc]
  · intro argv; unfold mapin_list; simp [hc]
  · unfold mapin_release; simp [hc]

theorem notify_free_obj (w : t_world) (ht : Nat) (obj : t_mapin) :
    (notify_listeners w ht "hashtab_entry_free" obj).1.objs = w.objs
    ∧ (notify_listeners w ht "hashtab_entry_free" obj).2 = obj := by
  unfold notify_listeners
  refine ⟨rfl, ?_⟩
  simp only
  have key : ∀ (l : List t_mapdevice) (acc : List t_mapdevice × t_mapin),
      (l.foldl (fun (acc : List t_mapdevice × t_mapin) x =>
        if x.id ∈ hashtab_listeners w ht then
          match mapdevice_notify x "hashtab_entry_free" (some acc.2) with
          | (x1, some o1) => (acc.1 ++ [x1], o1)
          | (x1, none) => (acc.1 ++ [x1], acc.2)
        else (acc.1 ++ [x], acc.2)) acc).2 = acc.2 := by
    intro l
    induction l with
    | nil => intro acc; rfl
    | cons a l ih =>
      intro acc
      rw [List.foldl_cons, ih]
      split
      · simp [mapdevice_notify]
      · rfl
  exact key _ _

theorem chuckkey_obj (w : t_world) (ht : Nat) (obj : t_mapin) :
    (hashtab_chuckkey w ht obj).1.objs = w.objs ∧ (hashtab_chuckkey w ht obj).2 = obj := by
  unfold hashtab_chuckkey
  split
  · exact ⟨(notify_free_obj w ht obj).1, (notify_free_obj w ht obj).2⟩
  · exact ⟨rfl, rfl⟩

theorem remove_from_hashtab_obj (w : t_world) (x : t_mapin) :
    (remove_from_hashtab w x).1.objs = w.objs
    ∧ (remove_from_hashtab w x).2.myobjname = x.myobjname
    ∧ (remove_from_hashtab w x).2.dev_obj = none
    ∧ (remove_from_hashtab w x).2.sig_ptr = none
    ∧ (remove_from_hashtab w x).2.ht = none := by
  unfold remove_from_hashtab
  cases hx : x.ht with
  | none => exact ⟨rfl, rfl, rfl, rfl, hx⟩
  | some ht =>
    exact ⟨(chuckkey_obj w ht x).1, by show (hashtab_chuckkey w ht x).2.myobjname = _
                                       rw [(chuckkey_obj w ht x).2], rfl, rfl, rfl⟩
theorem put_obj_names (w : t_world) (o : t_mapin) :
    (w.put_obj o).objs.map (fun q => q.myobjname) = w.objs.map (fun q => q.myobjname) := by
  unfold t_world.put_obj
  simp only [List.map_map]
  apply List.map_congr_left
  intro q _
  simp only [Function.comp]
  split
  · rename_i h; exact h.symm
  · rfl

theorem detach_obj_name (x : t_mapdevice) (e : t_mapin) :
    (mapdevice_detach_obj x e).2.myobjname = e.myobjname := by
  unfold mapdevice_detach_obj set_sig_ptr set_dev_obj
  cases x.buffer with
  | nil => rfl
  | cons a tl => rfl

theorem detach_first_pass_names (xid : Nat) (ks : List Nat) (w : t_world) :
    (ks.foldl
      (fun (w : t_world) k =>
        match w.devices.find? (fun q => q.id = xid), w.objs.find? (fun o => o.myobjname = k) with
        | some xc, some e =>
          let r := mapdevice_detach_obj xc e
          (w.put_device r.1).put_obj r.2
        | _, _ => w) w).objs.map (fun q => q.myobjname)
      = w.objs.map (fun q => q.myobjname) := by
  induction ks generalizing w with
  | nil => rfl
  | cons k ks ih =>
    rw [List.foldl_cons, ih]
    split
    · rw [put_obj_names]; rfl
    · rfl

theorem detach_step (w : t_world) (k : Nat) :
    ((match w.objs.find? (fun (o : t_mapin) => o.myobjname = k) with
      | some e => (remove_from_hashtab w e).1.put_obj (remove_from_hashtab w e).2
      | none => w : t_world).objs.map (fun q => q.myobjname) = w.objs.map (fun q => q.myobjname))
    ∧ (∀ o ∈ (match w.objs.find? (fun (o : t_mapin) => o.myobjname = k) with
          | some e => (remove_from_hashtab w e).1.put_obj (remove_from_hashtab w e).2
          | none => w : t_world).objs,
        (o.myobjname = k → o.dev_obj = none ∧ o.sig_ptr = none ∧ o.ht = none)
        ∧ (o.myobjname ≠ k → o ∈ w.objs)) := by
  cases hf : w.objs.find? (fun o => o.myobjname = k) with
  | none =>
    refine ⟨rfl, ?_⟩
    intro o ho
    refine ⟨?_, fun _ => ho⟩
    intro hk
    have := List.find?_eq_none.mp hf o ho
    simp [hk] at this
  | some e =>
    have hek : e.myobjname = k := by simpa using List.find?_some hf
    obtain ⟨r1, r2, r3, r4, r5⟩ := remove_from_hashtab_obj w e
    refine ⟨by rw [put_obj_names, r1], ?_⟩
    intro o ho
    simp only [t_world.put_obj, r1, r2, hek] at ho
    obtain ⟨q, hq, rfl⟩ := List.mem_map.mp ho
    by_cases hqk : q.myobjname = k
    · rw [if_pos hqk]
      exact ⟨fun _ => ⟨r3, r4, r5⟩, fun hne => absurd (r2.trans hek) hne⟩
    · rw [if_neg hqk]
      exact ⟨fun h => absurd h hqk, fun _ => hq⟩

theorem detach_second_pass (ks : List Nat) (w : t_world) :
    (ks.foldl
      (fun (w : t_world) k =>
        match w.objs.find? (fun o => o.myobjname = k) with
        | some e => let r := remove_from_hashtab w e; r.1.put_obj r.2
        | none => w) w).objs.map (fun q => q.myobjname) = w.objs.map (fun q => q.myobjname)
    ∧ ∀ o ∈ (ks.foldl
      (fun (w : t_world) k =>
        match w.objs.find? (fun o => o.myobjname = k) with
        | some e => let r := remove_from_hashtab w e; r.1.put_obj r.2
        | none => w) w).objs,
        (o.myobjname ∈ ks → o.dev_obj = none ∧ o.sig_ptr = none ∧ o.ht = none)
        ∧ (o.myobjname ∉ ks → o ∈ w.objs) := by
  induction ks generalizing w with
  | nil => exact ⟨rfl, fun o ho => ⟨fun h => absurd h (List.not_mem_nil _), fun _ => ho⟩⟩
  | cons k ks ih =>
    rw [List.foldl_cons]
    obtain ⟨s1, s2⟩ := detach_step w k
    obtain ⟨i1, i2⟩ := ih (match w.objs.find? (fun o => o.myobjname = k) with
      | some e => (remove_from_hashtab w e).1.put_obj (remove_from_hashtab w e).2
      | none => w)
    refine ⟨i1.trans s1, ?_⟩
    intro o ho
    obtain ⟨j1, j2⟩ := i2 o ho
    constructor
    · intro hm
      by_cases hks : o.myobjname ∈ ks
      · exact j1 hks
      · have hk : o.myobjname = k := by
          rcases List.mem_cons.mp hm with h | h
          · exact h
          · exact absurd h hks
        exact (s2 o (j2 hks)).1 hk
    · intro hm
      have hks : o.myobjname ∉ ks := fun h => hm (List.mem_cons_of_mem _ h)
      have hk : o.myobjname ≠ k := fun h => hm (by rw [h]; exact List.mem_cons_self _ _)
      exact (s2 o (j2 hks)).2 hk

theorem obex_store_objs (w : t_world) (p : t_patcher) (key : String) (v : Option Nat) :
    (object_obex_store w p key v).objs = w.objs := by
  unfold object_obex_store
  cases v <;> rfl

theorem obex_store_hashtabs (w : t_world) (p : t_patcher) (key : String) (v : Option Nat) :
    (object_obex_store w p key v).hashtabs = w.hashtabs := by
  unfold object_obex_store
  cases v <;> rfl

theorem hashtab_keys_chucked (w : t_world) (ht : Nat) (hts : List t_hashtab)
    (h : w.hashtabs = hts.filter (fun t => t.handle ≠ ht)) : hashtab_keys w ht = [] := by
  unfold hashtab_keys
  rw [h, List.find?_eq_none.mpr]
  intro t ht'
  have := (List.mem_filter.mp ht').2
  simpa using this

/-- C16: after `mapdevice_detach` of a device with a registry, every endpoint
object whose name was a key of the registry is still there, has a null device
pointer and a null signal pointer and no registry pointer; the registry is
gone; and every int, float, list and release message to such an endpoint
returns with the endpoint and any device as they were (no queue start, no
write, no release). -/
theorem detach_fails_closed (w : t_world) (x : t_mapdevice) (ht : Nat) (hx : x.ht = some ht) :
    (mapdevice_detach w x).objs.map (fun q => q.myobjname) = w.objs.map (fun q => q.myobjname)
    ∧ hashtab_keys (mapdevice_detach w x) ht = []
    ∧ ∀ o ∈ (mapdevice_detach w x).objs, o.myobjname ∈ hashtab_keys w ht →
        o.dev_obj = none ∧ o.sig_ptr = none ∧ o.ht = none
        ∧ ∀ (dv : t_mapdevice) (now : Nat),
            (∀ l, mapin_int o dv now l = (o, dv)) ∧ (∀ d, mapin_float o dv now d = (o, dv))
            ∧ (∀ argv, mapin_list o dv now argv = (o, dv))
            ∧ mapin_release o dv now = (o, dv) := by
  obtain ⟨n2, p2⟩ := detach_second_pass (hashtab_keys w ht)
    ((hashtab_keys w ht).foldl
      (fun (w : t_world) k =>
        match w.devices.find? (fun q => q.id = x.id), w.objs.find? (fun o => o.myobjname = k) with
        | some xc, some e =>
          let r := mapdevice_detach_obj xc e
          (w.put_device r.1).put_obj r.2
        | _, _ => w) w)
  have n1 := detach_first_pass_names x.id (hashtab_keys w ht) w
  unfold mapdevice_detach
  cases hp : x.patcher with
  | none =>
    simp only [hx]
    refine ⟨n2.trans n1, hashtab_keys_chucked _ ht _ rfl, ?_⟩
    intro o ho hk
    obtain ⟨h1, h2, h3⟩ := (p2 o ho).1 hk
    exact ⟨h1, h2, h3, fun dv now => unbound_ignores o (Or.inl h1) dv now⟩
  | some p =>
    simp only [hx, obex_store_objs]
    refine ⟨n2.trans n1, hashtab_keys_chucked _ ht _ (obex_store_hashtabs _ _ _ _), ?_⟩
    intro o ho hk
    obtain ⟨h1, h2, h3⟩ := (p2 o ho).1 hk
    exact ⟨h1, h2, h3, fun dv now => unbound_ignores o (Or.inl h1) dv now⟩

theorem detach_fails_closed_witness :
    device_of_endpoint_first.ht = some 2
    ∧ hashtab_keys world_endpoint_first 2 = [0]
    ∧ world_endpoint_first.objs.map (fun o => (o.myobjname, o.dev_obj, o.sig_ptr, o.ht))
        = [(0, some 1, some 0, some 2)]
    ∧ (mapdevice_detach world_endpoint_first device_of_endpoint_first).objs.map
        (fun o => (o.myobjname, o.dev_obj, o.sig_ptr, o.ht)) = [(0, none, none, none)]
    ∧ (mapdevice_detach world_endpoint_first device_of_endpoint_first).objs.map
          (fun q => q.myobjname)
        = world_endpoint_first.objs.map (fun q => q.myobjname)
    ∧ hashtab_keys (mapdevice_detach world_endpoint_first device_of_endpoint_first) 2 = []
    ∧ ∀ o ∈ (mapdevice_detach world_endpoint_first device_of_endpoint_first).objs,
        o.myobjname ∈ hashtab_keys world_endpoint_first 2 →
        o.dev_obj = none ∧ o.sig_ptr = none ∧ o.ht = none
        ∧ ∀ (dv : t_mapdevice) (now : Nat),
            (∀ l, mapin_int o dv now l = (o, dv)) ∧ (∀ d, mapin_float o dv now d = (o, dv))
            ∧ (∀ argv, mapin_list o dv now argv = (o, dv))
            ∧ mapin_release o dv now = (o, dv) :=
  ⟨by decide, by decide, by decide, by decide,
    detach_fails_closed world_endpoint_first device_of_endpoint_first 2 (by decide)⟩

/-! ### Lists, extrema and mixed values -/

/-- C23 fails in the code: the endpoint 7 of `bound_vec2` is bound to a float
signal of vector length 2. `mapin_list` returns from the lists [1, 2] (one
sample) and [1, 2, 3, 4] (two samples) without a queue start and without a
write, because the test `if ((count = argc / length))` is true for every
list of at least `length` atoms; the list [1], which is shorter than the
vector, passes the test and leads to a write of 0 samples. `mpr_in_list` of
`mpr.in.c` writes the list [1, 2] to the same signal. -/
theorem mapin_list_rejects_whole_samples :
    (bound_vec2.1.device.find_sig 0).map (fun s => (s.len, s.type)) = some (2, 'f')
    ∧ bound_to bound_vec2.2 bound_vec2.1
    ∧ (mapin_list bound_vec2.2 bound_vec2.1 10 [.A_LONG 1, .A_LONG 2]).2.device.calls = []
    ∧ (mapin_list bound_vec2.2 bound_vec2.1 10
        [.A_LONG 1, .A_LONG 2, .A_LONG 3, .A_LONG 4]).2.device.calls = []
    ∧ (mapin_list bound_vec2.2 bound_vec2.1 10 [.A_LONG 1]).2.device.calls
        = [.start_queue 10, .update 0 none [] 0 (some 10)]
    ∧ (mpr_in_list mpr_vec2.2 mpr_vec2.1 [.A_LONG 1, .A_LONG 2]).2.calls
        = [.set_value 0 0 2 'f' [.f 1, .f 2]] := by
  decide

/-- C26 fails in the code: on a float signal of vector length 2 the directive
`@min 0.5` stores the minimum [0, 0] (the value goes through
`atom_coerce_int`), and `@maximum 0.5` the maximum [0, 0]; the same value
under another key, `@foo 0.5`, is stored as 0.5 through `atom_coerce_float`. -/
theorem extremum_of_float_signal_truncated :
    (mpr_in_parse_extra_properties (fresh_mpr_in 8 "pos" 'f' 2 [])
        [.A_SYM "@min", .A_FLOAT one_half] fresh_signal).2.props
      = [{ key := .MPR_PROP_MIN, type := 'f', value := [.f 0, .f 0] }]
    ∧ (mpr_in_parse_extra_properties (fresh_mpr_in 8 "pos" 'f' 2 [])
        [.A_SYM "@maximum", .A_FLOAT one_half] fresh_signal).2.props
      = [{ key := .MPR_PROP_MAX, type := 'f', value := [.f 0, .f 0] }]
    ∧ (mpr_in_parse_extra_properties (fresh_mpr_in 8 "pos" 'f' 2 [])
        [.A_SYM "@foo", .A_FLOAT one_half] fresh_signal).2.props
      = [{ key := .named "foo", type := 'f', value := [.f one_half] }] := by
  decide

/-- C29 fails in the code: the value run `1 bar 2.` of `@foo` holds a symbol
and numbers, yet the property foo is set, as the float vector [1, 0, 2]: the
float after the symbol resets `heterogeneous_types` from 2 to 1. The runs
`bar 1 2.` and `1 bar` set nothing, and the run `1 2.` is set as the float
vector [1, 2]. -/
theorem mixed_run_with_symbol_is_set :
    value_run [.A_LONG 1, .A_SYM "bar", .A_FLOAT 2] (0, none, 0) = (3, some .A_FLOAT, 1)
    ∧ (mpr_in_parse_extra_properties (fresh_mpr_in 8 "pos" 'f' 2 [])
        [.A_SYM "@foo", .A_LONG 1, .A_SYM "bar", .A_FLOAT 2] fresh_signal).2.props
      = [{ key := .named "foo", type := 'f', value := [.f 1, .f 0, .f 2] }]
    ∧ (mpr_in_parse_extra_properties (fresh_mpr_in 8 "pos" 'f' 2 [])
        [.A_SYM "@foo", .A_SYM "bar", .A_LONG 1, .A_FLOAT 2] fresh_signal).2.props = []
    ∧ (mpr_in_parse_extra_properties (fresh_mpr_in 8 "pos" 'f' 2 [])
        [.A_SYM "@foo", .A_LONG 1, .A_SYM "bar"] fresh_signal).2.props = []
    ∧ (mpr_in_parse_extra_properties (fresh_mpr_in 8 "pos" 'f' 2 [])
        [.A_SYM "@foo", .A_LONG 1, .A_FLOAT 2] fresh_signal).2.props
      = [{ key := .named "foo", type := 'f', value := [.f 1, .f 2] }] := by
  decide

/-- C30 fails in the code: with an empty argument list (`argc` 0)
`mapdevice_new` of `map.device.c` reads the cell 0 of `argv`, in the test
`argv->a_type == A_SYM` that precedes the first loop; with the one argument
`@alias` (`argc` 1) the loop of `mapdevice_new` of `mapdevice.c` reads the
cell 1. With `@alias` as the only or the last argument the loops of
`map.device.c` stay below `argc`. -/
theorem constructor_reads_past_arguments :
    mapdevice_new_reads (argv_cells [] (.A_LONG 0)) 0 = [0]
    ∧ old_scan_reads (argv_cells [.A_SYM "@alias"] (.A_LONG 0)) 1 1 0 = [0, 1]
    ∧ old_scan_reads (argv_cells [.A_SYM "a", .A_SYM "@interface"] (.A_LONG 0)) 2 2 0
        = [0, 1, 2]
    ∧ mapdevice_new_reads (argv_cells [.A_SYM "@alias"] (.A_LONG 0)) 1 = [0]
    ∧ mapdevice_new_reads (argv_cells [.A_SYM "a", .A_SYM "@interface"] (.A_LONG 0)) 2
        = [0, 0, 0] := by
  decide

theorem alias_scan_reads_lt (argv : Nat → t_atom) (argc : Int) (fuel i : Nat) :
    ∀ j ∈ alias_scan_reads argv argc fuel i, (j : Int) < argc := by
  induction fuel generalizing i with
  | zero => intro j hj; simp [alias_scan_reads] at hj
  | succ fuel ih =>
    intro j hj
    simp only [alias_scan_reads] at hj
    split at hj
    · rename_i hlt
      split at hj
      · split at hj
        · split at hj
          · simp only [List.mem_cons] at hj
            rcases hj with rfl | rfl | hj
            · omega
            · push_cast; omega
            · exact ih _ j hj
          · simp only [List.mem_cons] at hj
            rcases hj with rfl | rfl | hj
            · omega
            · push_cast; omega
            · exact ih _ j hj
        · simp only [List.mem_cons] at hj
          rcases hj with rfl | hj
          · omega
          · exact ih _ j hj
      · simp only [List.mem_cons] at hj
        rcases hj with rfl | hj
        · omega
        · exact ih _ j hj
    · simp at hj

theorem props_scan_reads_lt (argv : Nat → t_atom) (argc : Int) (fuel i : Nat) :
    ∀ j ∈ props_scan_reads argv argc fuel i, (j : Int) < argc := by
  induction fuel generalizing i with
  | zero => intro j hj; simp [props_scan_reads] at hj
  | succ fuel ih =>
    intro j hj
    simp only [props_scan_reads] at hj
    split at hj
    · split at hj
      · simp at hj
      · rename_i h1 h2
        split at hj
        · simp only [List.mem_cons] at hj
          rcases hj with rfl | hj
          · omega
          · exact ih _ j hj
        · split at hj
          · split at hj
            · simp only [List.mem_cons] at hj
              rcases hj with rfl | rfl | hj
              · omega
              · push_cast; omega
              · exact ih _ j hj
            · simp only [List.mem_cons] at hj
              rcases hj with rfl | rfl | hj
              · omega
              · push_cast; omega
              · exact ih _ j hj
          · simp only [List.mem_cons] at hj
            rcases hj with rfl | hj
            · omega
            · exact ih _ j hj
    · simp at hj

/-- With at least one argument, `mapdevice_new` of `map.device.c` reads only
cells below `argc`. -/
theorem mapdevice_new_reads_in_bounds (argv : Nat → t_atom) (argc : Nat) (h : 1 ≤ argc) :
    ∀ j ∈ mapdevice_new_reads argv argc, j < argc := by
  intro j hj
  unfold mapdevice_new_reads at hj
  rcases List.mem_cons.mp hj with rfl | hj
  · omega
  · rcases List.mem_append.mp hj with hj | hj
    · have := alias_scan_reads_lt argv argc argc 0 j hj; omega
    · have := props_scan_reads_lt argv argc argc 0 j hj; omega

/-! ### The list method of `mpr.in.c` -/

theorem list_payload_int_bad (argv : List t_atom)
    (h : ∃ a ∈ argv, a.a_type ≠ .A_LONG ∧ a.a_type ≠ .A_FLOAT) : list_payload_int argv = none := by
  induction argv with
  | nil => obtain ⟨a, ha, _⟩ := h; simp at ha
  | cons b rest ih =>
    obtain ⟨a, ha, h1, h2⟩ := h
    simp only [list_payload_int]
    rcases List.mem_cons.mp ha with rfl | ha
    · rw [if_neg h2, if_neg h1]
    · have := ih ⟨a, ha, h1, h2⟩
      split
      · rw [this]; rfl
      · split
        · rw [this]; rfl
        · rfl

theorem list_payload_float_bad (argv : List t_atom)
    (h : ∃ a ∈ argv, a.a_type ≠ .A_LONG ∧ a.a_type ≠ .A_FLOAT) :
    list_payload_float argv = none := by
  induction argv with
  | nil => obtain ⟨a, ha, _⟩ := h; simp at ha
  | cons b rest ih =>
    obtain ⟨a, ha, h1, h2⟩ := h
    simp only [list_payload_float]
    rcases List.mem_cons.mp ha with rfl | ha
    · rw [if_neg h2, if_neg h1]
    · have := ih ⟨a, ha, h1, h2⟩
      split
      · rw [this]; rfl
      · split
        · rw [this]; rfl
        · rfl

theorem list_payload_int_numeric (argv : List t_atom)
    (h : ∀ a ∈ argv, a.a_type = .A_LONG ∨ a.a_type = .A_FLOAT) :
    list_payload_int argv = some (argv.map (fun a => .i (atom_coerce_int a))) := by
  induction argv with
  | nil => rfl
  | cons b rest ih =>
    have hr := ih (fun a ha => h a (List.mem_cons_of_mem _ ha))
    simp only [list_payload_int, hr, List.map_cons, Option.map_some']
    cases b with
    | A_LONG v => simp [t_atom.a_type, atom_coerce_int, atom_getlong]
    | A_FLOAT v => simp [t_atom.a_type, atom_coerce_int, atom_getfloat]
    | A_SYM v => have := h (.A_SYM v) (List.mem_cons_self _ _); simp [t_atom.a_type] at this
    | A_OBJ v => have := h (.A_OBJ v) (List.mem_cons_self _ _); simp [t_atom.a_type] at this

theorem list_payload_float_numeric (argv : List t_atom)
    (h : ∀ a ∈ argv, a.a_type = .A_LONG ∨ a.a_type = .A_FLOAT) :
    list_payload_float argv = some (argv.map (fun a => .f (atom_coerce_float a))) := by
  induction argv with
  | nil => rfl
  | cons b rest ih =>
    have hr := ih (fun a ha => h a (List.mem_cons_of_mem _ ha))
    simp only [list_payload_float, hr, List.map_cons, Option.map_some']
    cases b with
    | A_LONG v => simp [t_atom.a_type, atom_coerce_float, atom_getlong]
    | A_FLOAT v => simp [t_atom.a_type, atom_coerce_float, atom_getfloat]
    | A_SYM v => have := h (.A_SYM v) (List.mem_cons_self _ _); simp [t_atom.a_type] at this
    | A_OBJ v => have := h (.A_OBJ v) (List.mem_cons_self _ _); simp [t_atom.a_type] at this

/-- C22: a list with an atom that is neither an integer nor a float makes
`mpr_in_list` return with the library device as it was (no value is written,
no call is made), wherever the atom stands, whatever the type of the signal
and whatever the state of the endpoint. -/
theorem mpr_in_list_drops_bad_atom (x : t_mpr_in) (d : mpr_dev) (argv : List t_atom)
    (h : ∃ a ∈ argv, a.a_type ≠ .A_LONG ∧ a.a_type ≠ .A_FLOAT) :
    (mpr_in_list x d argv).2 = d := by
  unfold mpr_in_list
  simp only [list_payload_int_bad argv h, list_payload_float_bad argv h]
  split
  · rfl
  · split
    · rfl
    · split
      · rfl
      · split
        · rfl
        · split <;> rfl

theorem mpr_in_list_drops_bad_atom_witness :
    (mpr_in_list mpr_vec2.2 mpr_vec2.1 [.A_LONG 1, .A_LONG 2]).2.calls
        = [.set_value 0 0 2 'f' [.f 1, .f 2]]
    ∧ (mpr_in_list mpr_vec2.2 mpr_vec2.1 [.A_LONG 1, .A_SYM "x"]).2 = mpr_vec2.1 :=
  ⟨by decide,
    mpr_in_list_drops_bad_atom mpr_vec2.2 mpr_vec2.1 [.A_LONG 1, .A_SYM "x"]
      ⟨.A_SYM "x", by decide, by decide, by decide⟩⟩

/-- C28: an mpr.in endpoint whose pointers are set, on a signal of vector
length n >= 1 and of type i or f (the cached length and type, if any, being
those of the signal), gets a list of `argc` numeric atoms. When `argc >= n`
and n divides `argc`, exactly one `mpr_sig_set_value` call is made, for the
instance `instance_id`, with `argc` values: the atoms in order, each converted
to the type of the signal as C converts it: for an int signal an integer
atom is reduced to the range of `int` modulo 2^32 and a float atom is
truncated toward zero (`INT_MIN` when the truncation is outside the range of
`int`, where C leaves the result undefined); for a float signal an integer or
float atom of finite `float` magnitude becomes the nearest `float`, ties to
even. Otherwise the library device stays as it was. -/
theorem mpr_in_list_writes_iff (x : t_mpr_in) (d : mpr_dev) (s : mpr_sig) (dev h : Nat)
    (argv : List t_atom)
    (hdev : x.dev_obj = some dev) (hsig : x.sig_ptr = some h) (hfind : d.find_sig h = some s)
    (hn : 1 ≤ s.len) (hty : s.type = 'i' ∨ s.type = 'f')
    (hcache : x.length = 0 ∨ (x.length = s.len ∧ x.type = s.type))
    (hnum : ∀ a ∈ argv, a.a_type = .A_LONG ∨ a.a_type = .A_FLOAT) :
    ((s.len ≤ argv.length ∧ (argv.length : Int) % s.len = 0) →
        ∃ value : List sig_val,
          value = (if s.type = 'i' then argv.map (fun a => .i (atom_coerce_int a))
                   else argv.map (fun a => .f (atom_coerce_float a)))
          ∧ List.Forall₂ (converted_atom s.type) argv value
          ∧ (mpr_in_list x d argv).2
              = mpr_sig_set_value d h x.instance_id argv.length s.type value
          ∧ (mpr_in_list x d argv).2.calls
              = d.calls ++ [.set_value h x.instance_id argv.length s.type value])
    ∧ (¬ (s.len ≤ argv.length ∧ (argv.length : Int) % s.len = 0) →
        (mpr_in_list x d argv).2 = d) := by
  have hc : (mpr_in_check_ptrs x d).2 = 0 ∧ (mpr_in_check_ptrs x d).1.length = s.len
      ∧ (mpr_in_check_ptrs x d).1.type = s.type ∧ (mpr_in_check_ptrs x d).1.sig_ptr = some h
      ∧ (mpr_in_check_ptrs x d).1.instance_id = x.instance_id := by
    unfold mpr_in_check_ptrs
    rcases hcache with h0 | ⟨h1, h2⟩
    · simp [hdev, hsig, h0, hfind]
    · have hne : x.length ≠ 0 := by omega
      simp only [hdev, hsig, Option.isNone_some, Bool.or_self, Bool.false_eq_true, if_false,
        if_neg hne]
      exact ⟨trivial, h1, h2, trivial, trivial⟩
  obtain ⟨c1, c2, c3, c4, c5⟩ := hc
  have hmod : Int.tmod (argv.length : Int) s.len = (argv.length : Int) % s.len := by
    rw [Int.tmod_eq_emod (by omega) (by omega)]
  constructor
  · rintro ⟨g1, g2⟩
    have hne : argv.length ≠ 0 := by
      intro h0; rw [h0] at g1; simp at g1; omega
    refine ⟨_, rfl, ?_, ?_⟩
    · rcases hty with ht | ht
      · rw [ht, if_pos rfl]
        exact forall2_map_of _ _ argv (fun a ha => coerce_int_converted a (hnum a ha))
      · rw [ht, if_neg (by decide)]
        exact forall2_map_of _ _ argv (fun a ha => coerce_float_converted a (hnum a ha))
    · unfold mpr_in_list
      simp only [c1, c2, c3, c4, c5, hmod, g2, list_payload_int_numeric argv hnum,
        list_payload_float_numeric argv hnum]
      have hlt : ¬ ((argv.length : Int) < s.len) := by omega
      rcases hty with ht | ht
      · simp [hne, hlt, ht, mpr_sig_set_value]
      · simp [hne, hlt, ht, mpr_sig_set_value]
  · intro hcond
    unfold mpr_in_list
    simp only [c1, c2, c3, c4, c5, hmod]
    by_cases h0 : argv.length = 0
    · simp [h0]
    · have : (argv.length : Int) < s.len ∨ (argv.length : Int) % s.len ≠ 0 := by
        by_contra hcon
        push_neg at hcon
        exact hcond ⟨by omega, hcon.2⟩
      simp only [h0, false_or, ne_eq, not_false_eq_true, not_true_eq_false, if_false]
      rw [if_pos this]

/-- C28 (witness): a float signal of length 2 gets the list 16777217 0.1 as
the floats 16777216 and 13421773/134217728; an int signal of length 2 gets
the list -2.5 3000000000. 4294967301 7 as the ints -2, `INT_MIN`, 5 and 7; a
list of three atoms leaves the device of the float signal as it was. -/
theorem mpr_in_list_writes_iff_witness :
    mpr_vec2.1.find_sig 0 = some vec2_signal ∧ vec2_signal.len = 2 ∧ vec2_signal.type = 'f'
    ∧ (mpr_in_list mpr_vec2.2 mpr_vec2.1 [.A_LONG 16777217, .A_FLOAT one_tenth]).2.calls
        = [.set_value 0 0 2 'f' [.f 16777216, .f one_tenth_float]]
    ∧ (mpr_in_list mpr_int2.2 mpr_int2.1
          [.A_FLOAT minus_five_halves, .A_FLOAT 3000000000, .A_LONG 4294967301, .A_LONG 7]).2.calls
        = [.set_value 0 0 4 'i' [.i (-2), .i (-2147483648), .i 5, .i 7]]
    ∧ (¬ (vec2_signal.len ≤ ([.A_LONG 1, .A_LONG 2, .A_LONG 3] : List t_atom).length
          ∧ (([.A_LONG 1, .A_LONG 2, .A_LONG 3] : List t_atom).length : Int) % vec2_signal.len = 0)
        → (mpr_in_list mpr_vec2.2 mpr_vec2.1 [.A_LONG 1, .A_LONG 2, .A_LONG 3]).2 = mpr_vec2.1) :=
  ⟨by decide, by decide, by decide, by decide, by decide,
    (mpr_in_list_writes_iff mpr_vec2.2 mpr_vec2.1 vec2_signal 100 0
      [.A_LONG 1, .A_LONG 2, .A_LONG 3] (by decide) (by decide) (by decide) (by decide)
      (by decide) (by decide) (by decide)).2⟩

/-! ### Values queued before the device is ready -/

theorem queue_state_deliver (base : List lib_call) (d : t_mapdevice) (msgs : List t_msg)
    (htt : ∀ m ∈ msgs, m.x.tt_ptr.isSome) (h : queue_state base d) :
    queue_state base (deliver_all d msgs) := by
  rcases h with ⟨hu, hc⟩ | ⟨T, ws, hu, ht, hc, hw⟩
  · rcases deliver_all_fresh d msgs htt hu with he | ⟨pre, m, post, ws, _, _, h3, _, h5, h6, h7⟩
    · rw [he]; exact Or.inl ⟨hu, hc⟩
    · exact Or.inr ⟨m.now, ws, h7, h6, by rw [h3, hc], h5⟩
  · have hne : d.updated ≠ 0 := by rw [hu]; decide
    obtain ⟨r1, r2, ws2, r3, r4⟩ := deliver_all_started d msgs htt hne
    refine Or.inr ⟨T, ws ++ ws2, by rw [r2, hu], by rw [r1, ht], ?_, ?_⟩
    · rw [r3, hc]; simp
    · intro c hc'
      rcases List.mem_append.mp hc' with h1 | h1
      · exact hw c h1
      · rw [← ht]; exact r4 c h1

theorem poll_not_ready_frame (x : t_mapdevice) (polls : Nat → Int) (r : Bool) (n : String)
    (h : x.ready = 0) :
    (mapdevice_poll x polls r n).x.device = x.device
    ∧ (mapdevice_poll x polls r n).x.updated = x.updated
    ∧ (mapdevice_poll x polls r n).x.timetag = x.timetag := by
  unfold mapdevice_poll
  simp only [if_pos h]
  cases r <;> exact ⟨rfl, rfl, rfl⟩

theorem poll_sends_when_ready (x : t_mapdevice) (polls : Nat → Int) (r : Bool) (n : String)
    (hr : x.ready ≠ 0) (hu : x.updated ≠ 0) :
    (mapdevice_poll x polls r n).x.device.calls = x.device.calls ++ [.send_queue x.timetag]
    ∧ (mapdevice_poll x polls r n).x.updated = 0 := by
  unfold mapdevice_poll
  simp only [if_neg hr, if_pos hu]
  exact ⟨trivial, trivial⟩

theorem queue_state_poll (base : List lib_call) (d : t_mapdevice) (polls : Nat → Int) (r : Bool)
    (n : String) (h0 : d.ready = 0) (h : queue_state base d) :
    queue_state base (mapdevice_poll d polls r n).x := by
  obtain ⟨f1, f2, f3⟩ := poll_not_ready_frame d polls r n h0
  unfold queue_state
  rw [f1, f2, f3]
  exact h

theorem queue_state_not_ready_ticks (base : List lib_call) (x : t_mapdevice)
    (ticks : List t_tick) (h0 : x.ready = 0) (hq : ∀ v ∈ ticks, v.net_ready = false)
    (htt : ∀ v ∈ ticks, ∀ m ∈ v.msgs, m.x.tt_ptr.isSome) (h : queue_state base x) :
    (run_ticks x ticks).1.ready = 0 ∧ queue_state base (run_ticks x ticks).1 := by
  induction ticks generalizing x with
  | nil => exact ⟨h0, h⟩
  | cons v rest ih =>
    have hd : (deliver_all x v.msgs).ready = 0 := by rw [deliver_all_ready]; exact h0
    have hs := queue_state_deliver base x v.msgs (htt v (List.mem_cons_self _ _)) h
    have hp := poll_not_ready (deliver_all x v.msgs) v.polls v.net_ready v.net_name hd
    have hs2 := queue_state_poll base (deliver_all x v.msgs) v.polls v.net_ready v.net_name hd hs
    simp only [run_ticks]
    exact ih _ (by rw [hq v (List.mem_cons_self _ _)] at hp ⊢; exact hp.1)
      (fun u hu => hq u (List.mem_cons_of_mem _ hu))
      (fun u hu => htt u (List.mem_cons_of_mem _ hu))
      hs2

/-- C27: a poll tick on a device whose `ready` is 0 makes no library call
(no queue is sent) and leaves `updated` and the timetag as they are, also
when it detects readiness. So over clock periods `ticks` in which the network
is not ready, followed by the period `t` in which it is detected ready: the
device ends with `ready` 1, and what the library has seen is either nothing,
or one queue start at a time `T` followed only by writes that carry `T`,
with `updated` still 1; in that case the next period `u`, which starts with
`ready` 1, adds writes that carry `T` and then sends the queue under `T`
and clears `updated`. -/
theorem queue_held_until_ready (x : t_mapdevice) (ticks : List t_tick) (t u : t_tick)
    (h0 : x.ready = 0) (hu : x.updated = 0)
    (hq : ∀ v ∈ ticks, v.net_ready = false) (ht : t.net_ready = true)
    (hb : ∀ v ∈ ticks ++ [t, u], ∀ m ∈ v.msgs, bound_to m.x x) :
    (∀ (y : t_mapdevice) (polls : Nat → Int) (r : Bool) (n : String), y.ready = 0 →
        (mapdevice_poll y polls r n).x.device.calls = y.device.calls
        ∧ (mapdevice_poll y polls r n).x.updated = y.updated
        ∧ (mapdevice_poll y polls r n).x.timetag = y.timetag)
    ∧ (run_ticks x (ticks ++ [t])).1.ready = 1
    ∧ (((run_ticks x (ticks ++ [t])).1.updated = 0
          ∧ (run_ticks x (ticks ++ [t])).1.device.calls = x.device.calls)
      ∨ ∃ T ws ws2, (run_ticks x (ticks ++ [t])).1.updated = 1
          ∧ (run_ticks x (ticks ++ [t])).1.timetag = T
          ∧ (run_ticks x (ticks ++ [t])).1.device.calls
              = x.device.calls ++ .start_queue T :: ws
          ∧ (∀ c ∈ ws, c.written_at T)
          ∧ (run_ticks (run_ticks x (ticks ++ [t])).1 [u]).1.device.calls
              = (run_ticks x (ticks ++ [t])).1.device.calls ++ ws2 ++ [.send_queue T]
          ∧ (∀ c ∈ ws2, c.written_at T)
          ∧ (run_ticks (run_ticks x (ticks ++ [t])).1 [u]).1.updated = 0) := by
  have htt : ∀ v ∈ ticks ++ [t, u], ∀ m ∈ v.msgs, m.x.tt_ptr.isSome :=
    fun v hv m hm => bound_to_tt m.x x (hb v hv m hm)
  refine ⟨?_, ?_⟩
  · intro y polls r n hy
    obtain ⟨f1, f2, f3⟩ := poll_not_ready_frame y polls r n hy
    exact ⟨by rw [f1], f2, f3⟩
  obtain ⟨r0, s0⟩ := queue_state_not_ready_ticks x.device.calls x ticks h0 hq
    (fun v hv => htt v (List.mem_append_left _ hv)) (Or.inl ⟨hu, rfl⟩)
  have hrun : (run_ticks x (ticks ++ [t])).1
      = (mapdevice_poll (deliver_all (run_ticks x ticks).1 t.msgs) t.polls t.net_ready
          t.net_name).x := by
    rw [run_ticks_append]; rfl
  have hd : (deliver_all (run_ticks x ticks).1 t.msgs).ready = 0 := by
    rw [deliver_all_ready]; exact r0
  have s1 := queue_state_deliver x.device.calls (run_ticks x ticks).1 t.msgs
    (htt t (by simp)) s0
  have s2 := queue_state_poll x.device.calls _ t.polls t.net_ready t.net_name hd s1
  have hp := poll_not_ready (deliver_all (run_ticks x ticks).1 t.msgs) t.polls t.net_ready
    t.net_name hd
  rw [ht] at hp
  rw [← hrun] at s2
  have hready : (run_ticks x (ticks ++ [t])).1.ready = 1 := by rw [hrun, ht]; exact hp.1
  refine ⟨hready, ?_⟩
  rcases s2 with ⟨a1, a2⟩ | ⟨T, ws, a1, a2, a3, a4⟩
  · exact Or.inl ⟨a1, a2⟩
  · right
    have hne : (run_ticks x (ticks ++ [t])).1.updated ≠ 0 := by rw [a1]; decide
    obtain ⟨d1, d2, ws2, d3, d4⟩ := deliver_all_started (run_ticks x (ticks ++ [t])).1 u.msgs
      (htt u (by simp)) hne
    have hr2 : (deliver_all (run_ticks x (ticks ++ [t])).1 u.msgs).ready ≠ 0 := by
      rw [deliver_all_ready, hready]; decide
    have hu2 : (deliver_all (run_ticks x (ticks ++ [t])).1 u.msgs).updated ≠ 0 := by
      rw [d2]; exact hne
    have hsend := poll_sends_when_ready _ u.polls u.net_ready u.net_name hr2 hu2
    refine ⟨T, ws, ws2, a1, a2, a3, a4, ?_, ?_, ?_⟩
    · simp only [run_ticks]
      rw [hsend.1, d3, d1, a2]
    · intro c hc; rw [← a2]; exact d4 c hc
    · simp only [run_ticks]
      exact hsend.2

theorem queue_held_until_ready_witness :
    (bound_pair.1.ready = 0 ∧ bound_pair.1.updated = 0)
    ∧ (run_ticks bound_pair.1 ([early_tick] ++ [quiet_tick true])).1.device.calls
        = [.start_queue 10, .update 0 (some 3) [.f 5] 1 (some 10),
           .update 0 (some 3) [.f 7] 1 (some 10), .release 0 3 (some 10)]
    ∧ (run_ticks (run_ticks bound_pair.1 ([early_tick] ++ [quiet_tick true])).1
          [quiet_tick true]).1.device.calls
        = [.start_queue 10, .update 0 (some 3) [.f 5] 1 (some 10),
           .update 0 (some 3) [.f 7] 1 (some 10), .release 0 3 (some 10), .send_queue 10]
    ∧ (run_ticks bound_pair.1 ([early_tick] ++ [quiet_tick true])).1.ready = 1 :=
  ⟨by decide, by decide, by decide,
    (queue_held_until_ready bound_pair.1 [early_tick] (quiet_tick true) (quiet_tick true)
      (by decide) (by decide) (by decide) (by decide) (by decide)).2.1⟩

/-! ### The registry walk of `mpr.in.c` -/

theorem find_upwards_some (w : t_world) (key : String) (p : t_patcher) (ht : Nat) :
    find_hashtab_upwards w key p = some ht ↔
      ∃ q, q <:+ p ∧ object_obex_lookup w q key = some ht
        ∧ ∀ q', q' <:+ p → q.length < q'.length → object_obex_lookup w q' key = none := by
  induction p with
  | nil =>
    simp only [find_hashtab_upwards]
    constructor
    · intro h
      refine ⟨[], List.suffix_refl _, h, ?_⟩
      intro q' hq' hl
      rw [List.suffix_nil.mp hq'] at hl
      simp at hl
    · rintro ⟨q, hq, h, _⟩
      rw [List.suffix_nil.mp hq] at h
      exact h
  | cons a parent ih =>
    simp only [find_hashtab_upwards]
    cases hl : object_obex_lookup w (a :: parent) key with
    | some v =>
      simp only
      constructor
      · intro h
        cases h
        refine ⟨a :: parent, List.suffix_refl _, hl, ?_⟩
        intro q' hq' hlen
        have := List.IsSuffix.length_le hq'
        omega
      · rintro ⟨q, hq, h, hmin⟩
        rcases List.suffix_cons_iff.mp hq with rfl | hq2
        · rw [hl] at h; exact h
        · have hlen : q.length < (a :: parent).length := by
            have := List.IsSuffix.length_le hq2
            simp only [List.length_cons]; omega
          have := hmin (a :: parent) (List.suffix_refl _) hlen
          rw [hl] at this
          cases this
    | none =>
      simp only
      rw [ih]
      constructor
      · rintro ⟨q, hq, h, hmin⟩
        refine ⟨q, List.suffix_cons_iff.mpr (Or.inr hq), h, ?_⟩
        intro q' hq' hlen
        rcases List.suffix_cons_iff.mp hq' with rfl | hq2
        · exact hl
        · exact hmin q' hq2 hlen
      · rintro ⟨q, hq, h, hmin⟩
        rcases List.suffix_cons_iff.mp hq with rfl | hq2
        · rw [hl] at h; cases h
        · exact ⟨q, hq2, h, fun q' hq' hlen =>
            hmin q' (List.suffix_cons_iff.mpr (Or.inr hq')) hlen⟩

theorem find_upwards_none (w : t_world) (key : String) (p : t_patcher) :
    find_hashtab_upwards w key p = none ↔ ∀ q, q <:+ p → object_obex_lookup w q key = none := by
  induction p with
  | nil =>
    simp only [find_hashtab_upwards]
    constructor
    · intro h q hq; rw [List.suffix_nil.mp hq]; exact h
    · intro h; exact h [] (List.suffix_refl _)
  | cons a parent ih =>
    simp only [find_hashtab_upwards]
    cases hl : object_obex_lookup w (a :: parent) key with
    | some v =>
      simp only
      constructor
      · intro h; cases h
      · intro h
        have := h (a :: parent) (List.suffix_refl _)
        rw [hl] at this; cases this
    | none =>
      simp only
      rw [ih]
      constructor
      · intro h q hq
        rcases List.suffix_cons_iff.mp hq with rfl | hq2
        · exact hl
        · exact h q hq2
      · intro h q hq
        exact h q (List.suffix_cons_iff.mpr (Or.inr hq))

theorem storeflags_hashtabs (w : t_world) (ht : Nat) (obj : t_mapin) :
    (hashtab_storeflags w ht obj).1.hashtabs
      = w.hashtabs.map (fun t => if t.handle = ht then
          { t with keys := t.keys.filter (fun k => k ≠ obj.myobjname) ++ [obj.myobjname] }
          else t) := rfl

/-- C25: the registry walk of an mpr.in object that is not registered yet
and sits in the container `p` is total. When a container `q` (`p` itself or
an ancestor of `p`) stores a registry and no container between `p` and `q`
(`p` included) stores one, the object ends registered in the registry of `q`
and marked connected: its name is added to the keys of that registry and no
other registry changes. When no container from `p` up to the root stores a
registry, world and object stay as they were. -/
theorem loadbang_registers_nearest (w : t_world) (x : t_mpr_in) (p : t_patcher)
    (hp : x.patcher = some p) (hc : x.connect_state = 0) :
    (∀ q ht, q <:+ p → object_obex_lookup w q "mprhash" = some ht →
        (∀ q', q' <:+ p → q.length < q'.length → object_obex_lookup w q' "mprhash" = none) →
        (mpr_in_loadbang w x).2 = { x with ht := some ht, connect_state := 1 }
        ∧ (mpr_in_loadbang w x).1.hashtabs
            = w.hashtabs.map (fun t => if t.handle = ht then
                { t with keys := t.keys.filter (fun k => k ≠ x.myobjname) ++ [x.myobjname] }
                else t))
    ∧ ((∀ q, q <:+ p → object_obex_lookup w q "mprhash" = none) →
        mpr_in_loadbang w x = (w, x)) := by
  constructor
  · intro q ht hq hl hmin
    have hf := (find_upwards_some w "mprhash" p ht).mpr ⟨q, hq, hl, hmin⟩
    unfold mpr_in_loadbang mpr_in_add_to_hashtab
    simp only [hp, hf, hc, ne_eq, not_true_eq_false, if_false]
    exact ⟨trivial, storeflags_hashtabs w ht x.as_object⟩
  · intro hnone
    have hf := (find_upwards_none w "mprhash" p).mpr hnone
    unfold mpr_in_loadbang
    simp only [hp, hf]

theorem loadbang_registers_nearest_witness :
    object_obex_lookup world_with_device [] "mprhash" = some 1
    ∧ hashtab_keys world_with_device 1 = []
    ∧ hashtab_keys (mpr_in_loadbang world_with_device mpr_in_sub).1 1 = [8]
    ∧ (mpr_in_loadbang world_with_device mpr_in_sub).2
        = { mpr_in_sub with ht := some 1, connect_state := 1 } :=
  ⟨by decide, by decide, by decide,
    ((loadbang_registers_nearest world_with_device mpr_in_sub [1] (by decide) (by decide)).1
      [] 1 (by decide) (by decide)
      (by
        intro q' hq' hlen
        rcases List.suffix_cons_iff.mp hq' with rfl | hq2
        · decide
        · rw [List.suffix_nil.mp hq2] at hlen; simp at hlen)).1⟩

/-! ### Value updates and the atom buffer -/

theorem take_succ_set (buf : List t_atom) (i : Nat) (a : t_atom) (h : i < buf.length) :
    (buf.set i a).take (i + 1) = buf.take i ++ [a] := by
  induction buf generalizing i with
  | nil => simp at h
  | cons b rest ih =>
    cases i with
    | zero => simp
    | succ i =>
      simp only [List.set_cons_succ, List.take_succ_cons, List.cons_append]
      rw [ih i (by simpa using h)]

theorem drop_set_after (buf : List t_atom) (i k : Nat) (a : t_atom) (h : i < k) :
    (buf.set i a).drop k = buf.drop k := by
  induction buf generalizing i k with
  | nil => simp
  | cons b rest ih =>
    cases k with
    | zero => omega
    | succ k =>
      cases i with
      | zero => simp
      | succ i =>
        simp only [List.set_cons_succ, List.drop_succ_cons]
        exact ih i k (by omega)

theorem fill_buffer_step (val : List sig_val) (n i : Nat) (buf : List t_atom)
    (hi : i < val.length) (hib : i < buf.length) :
    fill_buffer val (n + 1) i buf = fill_buffer val n (i + 1) (buf.set i val[i].to_atom) := by
  simp only [fill_buffer, List.getElem?_eq_getElem hi, if_pos hib]
  cases val[i] <;> rfl

theorem fill_buffer_eq (val : List sig_val) (n i : Nat) (buf : List t_atom)
    (hv : i + n ≤ val.length) (hb : i + n ≤ buf.length) :
    fill_buffer val n i buf
      = some (buf.take i ++ ((val.drop i).take n).map sig_val.to_atom ++ buf.drop (i + n)) := by
  induction n generalizing i buf with
  | zero => simp [fill_buffer]
  | succ n ih =>
    have hi : i < val.length := by omega
    have hib : i < buf.length := by omega
    rw [fill_buffer_step val n i buf hi hib,
      ih (i + 1) _ (by omega) (by simp only [List.length_set]; omega)]
    have h1 := take_succ_set buf i val[i].to_atom hib
    have h2 : (buf.set i val[i].to_atom).drop (i + 1 + n) = buf.drop (i + (n + 1)) := by
      rw [drop_set_after _ _ _ _ (by omega)]
      congr 1; omega
    have h3 : (val.drop i).take (n + 1) = val[i] :: (val.drop (i + 1)).take n := by
      rw [List.drop_eq_getElem_cons hi]; rfl
    rw [h1, h2, h3]
    simp

/-- A copy loop that goes past the end of the buffer, or past the end of the
value, makes an access outside the array. -/
theorem fill_buffer_overflow (val : List sig_val) (n i : Nat) (buf : List t_atom)
    (hn : 0 < n) (h : buf.length < i + n ∨ val.length < i + n) :
    fill_buffer val n i buf = none := by
  induction n generalizing i buf with
  | zero => omega
  | succ n ih =>
    simp only [fill_buffer]
    cases hv : val[i]? with
    | none => rfl
    | some e =>
      have hiv : i < val.length := by
        by_contra hc
        rw [List.getElem?_eq_none (by omega)] at hv
        cases hv
      simp only
      split
      · rename_i hib
        apply ih
        · omega
        · simp only [List.length_set]
          rcases h with h | h
          · left; omega
          · right; omega
      · rfl

theorem fill_buffer_front (val : List sig_val) (n : Nat) (buf : List t_atom)
    (hv : n ≤ val.length) (hb : n ≤ buf.length) :
    fill_buffer val n 0 buf = some ((val.take n).map sig_val.to_atom ++ buf.drop n) := by
  rw [fill_buffer_eq val n 0 buf (by omega) (by omega)]
  simp

/-- C21: for an update event with a value of `len >= 1` elements of type i or
f, on a device whose buffer has `MAX_LIST` cells, the handler returns, with
every access inside the arrays: the copy loop runs `min len MAX_LIST` times
from cell 0 (a loop of more than `MAX_LIST` rounds would write past the
buffer), so the buffer becomes the first `min len MAX_LIST` elements followed
by its old cells from there on, still `MAX_LIST` cells long. The message goes
to the owner of the instance when the signal has several instances and the
instance has an owner, otherwise to every endpoint of the list, and each
recipient gets, for `len >= 2`, the list of the first `MAX_LIST` elements
(all of them when `len <= MAX_LIST`), in order, and for `len = 1` the one
element as int or float. -/
theorem update_truncated_to_buffer (x : t_mapdevice) (h : Nat) (sig : mpr_sig) (inst len : Int)
    (type : Char) (v : List sig_val) (time : Nat)
    (hs : x.device.find_sig h = some sig) (hw : sig.data.wf)
    (hty : type = 'i' ∨ type = 'f') (hlen : 1 ≤ len) (hv : (v.length : Int) = len)
    (hb : x.buffer.length = MAX_LIST) :
    ∃ x1 msgs,
      mapdevice_sig_handler x h .MPR_SIG_UPDATE inst len type (some v) time = some (x1, msgs)
      ∧ fill_buffer v (min v.length MAX_LIST) 0 x.buffer = some x1.buffer
      ∧ (∀ n, MAX_LIST < n → fill_buffer v n 0 x.buffer = none)
      ∧ x1.buffer = (v.take MAX_LIST).map sig_val.to_atom ++ x.buffer.drop (min v.length MAX_LIST)
      ∧ x1.buffer.length = MAX_LIST
      ∧ msgs.map Prod.fst
          = (match (if mpr_sig_get_num_inst sig > 1 then sig_get_inst_data sig inst else none) with
              | some o => [o]
              | none => sig.data.objs)
      ∧ (∀ m ∈ msgs, (2 ≤ len → m.2 = .list ((v.take MAX_LIST).map sig_val.to_atom))
          ∧ (∀ e, v = [e] → m.2 = (if type = 'i' then .int (atom_getlong e.to_atom)
                                    else .float (atom_getfloat e.to_atom))))
      ∧ (len ≤ MAX_LIST → v.take MAX_LIST = v) := by
  subst hv
  have hn : min v.length MAX_LIST ≤ v.length := Nat.min_le_left _ _
  have hnb : min v.length MAX_LIST ≤ x.buffer.length := by rw [hb]; exact Nat.min_le_right _ _
  have htake : v.take (min v.length MAX_LIST) = v.take MAX_LIST := by
    rw [List.take_eq_take]
    omega
  have hfront := fill_buffer_front v (min v.length MAX_LIST) x.buffer hn hnb
  rw [htake] at hfront
  have hlen1 : (if (v.length : Int) > (MAX_LIST : Int) then (MAX_LIST : Int) else (v.length : Int))
      = ((min v.length MAX_LIST : Nat) : Int) := by
    split
    · rw [Nat.min_eq_right (by omega)]
    · rw [Nat.min_eq_left (by omega)]
  have hbuf : (if type = 'i' ∨ type = 'f' then
        fill_buffer v (min v.length MAX_LIST) 0 x.buffer else some x.buffer)
      = some ((v.take MAX_LIST).map sig_val.to_atom ++ x.buffer.drop (min v.length MAX_LIST)) := by
    rw [if_pos hty, hfront]
  have hblen : ((v.take MAX_LIST).map sig_val.to_atom
      ++ x.buffer.drop (min v.length MAX_LIST)).length = MAX_LIST := by
    simp only [List.length_append, List.length_map, List.length_take, List.length_drop, hb]
    omega
  have hover : ∀ n, MAX_LIST < n → fill_buffer v n 0 x.buffer = none := by
    intro n hn'
    exact fill_buffer_overflow v n 0 x.buffer (by omega) (Or.inl (by rw [hb]; omega))
  have hmsg : ∃ msg, outlet_data type ((min v.length MAX_LIST : Nat) : Int)
        ((v.take MAX_LIST).map sig_val.to_atom ++ x.buffer.drop (min v.length MAX_LIST)) = some msg
      ∧ (2 ≤ (v.length : Int) → msg = .list ((v.take MAX_LIST).map sig_val.to_atom))
      ∧ (∀ e, v = [e] → msg = (if type = 'i' then .int (atom_getlong e.to_atom)
             else .float (atom_getfloat e.to_atom))) := by
    by_cases h2 : 2 ≤ v.length
    · have hgt : ((min v.length MAX_LIST : Nat) : Int) > 1 := by
        have : 2 ≤ min v.length MAX_LIST := by
          apply Nat.le_min.mpr; constructor
          · omega
          · decide
        omega
      refine ⟨.list ((v.take MAX_LIST).map sig_val.to_atom), ?_, fun _ => rfl, ?_⟩
      · unfold outlet_data
        rw [if_pos hgt, Int.toNat_ofNat, if_pos (by rw [hblen]; exact Nat.min_le_right _ _),
          List.take_left']
        rw [List.length_map, List.length_take, Nat.min_comm]
      · intro e he
        rw [he] at h2
        simp at h2
    · have h1 : v.length = 1 := by omega
      obtain ⟨e, he⟩ := List.length_eq_one.mp h1
      subst he
      have hm : min [e].length MAX_LIST = 1 := by simp [MAX_LIST]
      have ht : List.take MAX_LIST [e] = [e] := List.take_of_length_le (by simp [MAX_LIST])
      refine ⟨(if type = 'i' then .int (atom_getlong e.to_atom)
          else .float (atom_getfloat e.to_atom)), ?_, ?_, ?_⟩
      · rw [hm, ht]
        unfold outlet_data
        simp only [Nat.cast_one, gt_iff_lt, lt_self_iff_false, if_false, List.map_cons,
          List.map_nil, List.cons_append]
        split <;> rfl
      · intro h2'
        simp at h2'
      · intro e' he'
        cases he'
        rfl
  obtain ⟨msg, hm1, hm2, hm3⟩ := hmsg
  unfold mapdevice_sig_handler
  simp only [hs, hlen1, Int.toNat_ofNat, hbuf, hm1]
  cases ho : (if mpr_sig_get_num_inst sig > 1 then sig_get_inst_data sig inst else none) with
  | some o =>
    simp only [List.cons_ne_nil, if_false]
    refine ⟨_, _, rfl, hfront, hover, rfl, hblen, rfl, ?_, ?_⟩
    · intro m hm
      rw [List.mem_singleton.mp hm]
      exact ⟨hm2, hm3⟩
    · intro hle
      exact List.take_of_length_le (by omega)
  | none =>
    unfold t_map_ptrs.wf at hw
    simp only [hw, List.take_length]
    by_cases hd : sig.data.objs = []
    · simp only [hd, if_true]
      refine ⟨_, _, rfl, hfront, hover, rfl, hblen, rfl, ?_, ?_⟩
      · intro m hm; simp at hm
      · intro hle
        exact List.take_of_length_le (by omega)
    · simp only [hd, if_false]
      refine ⟨_, _, rfl, hfront, hover, rfl, hblen, ?_, ?_, ?_⟩
      · simp only [List.map_map]
        exact (List.map_congr_left (fun o _ => rfl)).trans (List.map_id _)
      · intro m hm
        obtain ⟨o, _, rfl⟩ := List.mem_map.mp hm
        exact ⟨hm2, hm3⟩
      · intro hle
        exact List.take_of_length_le (by omega)

theorem update_truncated_to_buffer_witness :
    device_with_freq.device.find_sig 0 = some freq_signal
    ∧ freq_signal.data.objs = [7]
    ∧ ∃ x1 msgs,
      mapdevice_sig_handler device_with_freq 0 .MPR_SIG_UPDATE 0 300 'i'
          (some (List.replicate 300 (.i 7))) 42 = some (x1, msgs)
      ∧ x1.buffer.length = MAX_LIST
      ∧ msgs.map Prod.fst = [7]
      ∧ ∀ m ∈ msgs, m.2 = .list (List.replicate 256 (.A_LONG 7)) := by
  refine ⟨by decide, by decide, ?_⟩
  obtain ⟨x1, msgs, h1, _, _, _, h4, h5, h6, _⟩ :=
    update_truncated_to_buffer device_with_freq 0 freq_signal 0 300 'i'
      (List.replicate 300 (.i 7)) 42 (by decide) (by decide) (by decide) (by decide)
      (by rw [List.length_replicate]; rfl)
      (by unfold device_with_freq
          rw [add_signal_buffer_length, fresh_device_buffer])
  refine ⟨x1, msgs, h1, h4, ?_, ?_⟩
  · rw [h5]; decide
  · intro m hm
    rw [(h6 m hm).1 (by decide)]
    rw [List.take_replicate, List.map_replicate]
    rfl

/-! ### Forwarded properties of `mpr.in.c` -/

theorem not_at_symbol (a : t_atom)
    (h : ¬ (a.a_type = .A_SYM ∧ starts_at (atom_get_string a) = true)) :
    (decide (a.a_type = .A_SYM) && starts_at (atom_get_string a)) = false := by
  by_cases hs : a.a_type = .A_SYM
  · have : starts_at (atom_get_string a) = false := by
      cases hv : starts_at (atom_get_string a)
      · rfl
      · exact absurd ⟨hs, hv⟩ h
    simp [this]
  · simp [hs]

theorem value_run_step (a : t_atom) (rest : List t_atom) (n het : Nat) (τ : e_atomtype)
    (hc : (decide (a.a_type = .A_SYM) && starts_at (atom_get_string a)) = false)
    (h1 : a.a_type = τ) :
    value_run (a :: rest) (n, some τ, het) = value_run rest (n + 1, some τ, het) := by
  simp only [value_run, hc, Bool.false_eq_true, if_false]
  simp [h1]

theorem value_run_first (a : t_atom) (rest : List t_atom)
    (hc : (decide (a.a_type = .A_SYM) && starts_at (atom_get_string a)) = false) :
    value_run (a :: rest) (0, none, 0) = value_run rest (1, some a.a_type, 0) := by
  simp only [value_run, hc, Bool.false_eq_true, if_false]

theorem value_run_same (τ : e_atomtype) (vals tail : List t_atom) (n het : Nat)
    (hτ : ∀ a ∈ vals, a.a_type = τ)
    (hat : ∀ a ∈ vals, ¬ (a.a_type = .A_SYM ∧ starts_at (atom_get_string a) = true))
    (htail : tail = [] ∨ ∃ k t, tail = .A_SYM k :: t ∧ starts_at k = true) :
    value_run (vals ++ tail) (n, some τ, het) = (n + vals.length, some τ, het) := by
  induction vals generalizing n with
  | nil =>
    rcases htail with rfl | ⟨k, t, rfl, hk⟩
    · rfl
    · simp [value_run, t_atom.a_type, atom_get_string, hk]
  | cons a vs ih =>
    rw [List.cons_append, value_run_step a (vs ++ tail) n het τ
      (not_at_symbol a (hat a (List.mem_cons_self _ _))) (hτ a (List.mem_cons_self _ _)),
      ih (n + 1) (fun b hb => hτ b (List.mem_cons_of_mem _ hb))
        (fun b hb => hat b (List.mem_cons_of_mem _ hb))]
    simp only [List.length_cons]
    congr 1
    omega

theorem value_run_group (g : t_group) (tail : List t_atom) (hg : plain_group g)
    (htail : tail = [] ∨ ∃ k t, tail = .A_SYM k :: t ∧ starts_at k = true) :
    value_run (g.vals ++ tail) (0, none, 0) = (g.vals.length, some g.type, 0) := by
  obtain ⟨_, _, hne, _, hτ, hat⟩ := hg
  cases hv : g.vals with
  | nil => exact absurd hv hne
  | cons a vs =>
    rw [hv] at hτ hat
    have h1 := hτ a (List.mem_cons_self _ _)
    rw [List.cons_append, value_run_first a (vs ++ tail)
      (not_at_symbol a (hat a (List.mem_cons_self _ _))), h1,
      value_run_same g.type vs tail 1 0 (fun b hb => hτ b (List.mem_cons_of_mem _ hb))
        (fun b hb => hat b (List.mem_cons_of_mem _ hb)) htail]
    simp only [List.length_cons]
    congr 1
    omega

theorem group_atoms_tail (gs : List t_group) (h : ∀ g ∈ gs, plain_group g) :
    group_atoms gs = [] ∨ ∃ k t, group_atoms gs = .A_SYM k :: t ∧ starts_at k = true := by
  cases gs with
  | nil => exact Or.inl rfl
  | cons g rest => exact Or.inr ⟨g.key, _, rfl, (h g (List.mem_cons_self _ _)).1⟩

theorem str_tail_key (key name : String) (hs : starts_at key = true)
    (h : str_tail key = name) : key = "@" ++ name := by
  subst h
  unfold starts_at at hs
  unfold str_tail
  apply String.ext
  cases hd : key.data with
  | nil => rw [hd] at hs; cases hs
  | cons c cs =>
    rw [hd] at hs
    simp only [beq_iff_eq] at hs
    subst hs
    simp [String.data_append]

theorem set_property_plain (x : t_mpr_in) (s : mpr_sig) (argv : List t_atom) (g : t_group)
    (i1 : Nat) (hg : plain_group g) (hdrop : (argv.drop i1).take g.vals.length = g.vals) :
    mpr_in_set_property x s argv (str_tail g.key) i1 g.vals.length (some g.type)
      = (x, { s with props := s.props ++ [expected_prop g] }) := by
  obtain ⟨hs, hk, hne, hobj, hτ, hat⟩ := hg
  have hname : ∀ name, "@" ++ name ∈
      ["@name", "@type", "@length", "@instance", "@min", "@minimum", "@max", "@maximum"] →
      str_tail g.key ≠ name := by
    intro name hmem he
    exact hk (by rw [str_tail_key g.key name hs he]; exact hmem)
  have h1 : str_tail g.key ≠ "instance" := hname "instance" (by decide)
  have h2 : str_tail g.key ≠ "minimum" := hname "minimum" (by decide)
  have h3 : str_tail g.key ≠ "min" := hname "min" (by decide)
  have h4 : str_tail g.key ≠ "maximum" := hname "maximum" (by decide)
  have h5 : str_tail g.key ≠ "max" := hname "max" (by decide)
  unfold mpr_in_set_property
  simp only [h1, h2, h3, h4, h5, if_false, or_self, hdrop]
  unfold expected_prop sig_set_prop
  have hf : g.type = .A_FLOAT → g.vals.map (fun a => prop_val.f (atom_coerce_float a))
      = g.vals.map (fun a => prop_val.f (c_float (atom_getfloat a))) := by
    intro ht
    apply List.map_congr_left
    intro a ha
    have := hτ a ha
    rw [ht] at this
    cases a <;> simp_all [t_atom.a_type, atom_coerce_float, atom_getfloat]
  have hl : g.type = .A_LONG → g.vals.map (fun a => prop_val.i (atom_coerce_int a))
      = g.vals.map (fun a => prop_val.i (c_int (atom_getlong a))) := by
    intro ht
    apply List.map_congr_left
    intro a ha
    have := hτ a ha
    rw [ht] at this
    cases a <;> simp_all [t_atom.a_type, atom_coerce_int, atom_getlong]
  cases ht : g.type with
  | A_SYM => rfl
  | A_FLOAT => simp only [hf ht]
  | A_LONG => simp only [hl ht]
  | A_OBJ => exact absurd ht hobj

theorem parse_group_step (argv : List t_atom) (fuel i : Nat) (x : t_mpr_in) (s : mpr_sig)
    (g : t_group) (tail : List t_atom) (hg : plain_group g)
    (hdrop : argv.drop i = .A_SYM g.key :: (g.vals ++ tail))
    (htail : tail = [] ∨ ∃ k t, tail = .A_SYM k :: t ∧ starts_at k = true) :
    mpr_in_parse_loop argv (fuel + 1) i x s
      = mpr_in_parse_loop argv fuel (i + 1 + g.vals.length) x
          { s with props := s.props ++ [expected_prop g] } := by
  have hlen : argv.length - i = 1 + (g.vals.length + tail.length) := by
    have := congrArg List.length hdrop
    simpa [Nat.add_comm] using this
  have hpos : 0 < g.vals.length := List.length_pos.mpr hg.2.2.1
  have hi : i < argv.length := by omega
  have hi2 : ¬ (i + 2 > argv.length) := by omega
  have hget : argv.getD i (.A_LONG 0) = .A_SYM g.key := by
    rw [List.getD_eq_getElem?_getD]
    have : argv[i]? = (argv.drop i)[0]? := by rw [List.getElem?_drop]; rfl
    rw [this, hdrop]; simp
  have hd1 : argv.drop (i + 1) = g.vals ++ tail := by
    have : argv.drop (i + 1) = (argv.drop i).drop 1 := by rw [List.drop_drop]
    rw [this, hdrop]; rfl
  have hrun := value_run_group g tail hg htail
  have hnot : ¬ (¬ starts_at g.key = true ∨ g.key = "@name" ∨ g.key = "@type"
      ∨ g.key = "@length") := by
    intro h
    rcases h with h | h | h | h
    · exact h hg.1
    · exact hg.2.1 (by rw [h]; decide)
    · exact hg.2.1 (by rw [h]; decide)
    · exact hg.2.1 (by rw [h]; decide)
  have hset := set_property_plain x s argv g (i + 1) hg (by rw [hd1]; simp)
  simp only [mpr_in_parse_loop, hi, hi2, hget, t_atom.a_type, atom_get_string, hd1, hrun,
    not_true_eq_false, if_false, ne_eq, hnot, hset]
  have h0 : ¬ (g.vals.length = 0) := by omega
  simp [h0]

theorem parse_groups_aux (gs : List t_group) :
    ∀ (argv : List t_atom) (fuel i : Nat) (x : t_mpr_in) (s : mpr_sig),
      (∀ g ∈ gs, plain_group g) → argv.drop i = group_atoms gs →
      (group_atoms gs).length ≤ fuel →
      mpr_in_parse_loop argv fuel i x s
        = (x, { s with props := s.props ++ gs.map expected_prop }) := by
  induction gs with
  | nil =>
    intro argv fuel i x s _ hdrop _
    have hi : ¬ (i < argv.length) := by
      have := congrArg List.length hdrop
      simp only [group_atoms, List.length_drop, List.length_nil] at this
      omega
    have hs : ({ s with props := s.props ++ ([] : List t_group).map expected_prop } : mpr_sig)
        = s := by
      cases s; simp
    rw [hs]
    cases fuel with
    | zero => rfl
    | succ f => simp only [mpr_in_parse_loop, hi, not_false_eq_true, if_true]
  | cons g rest ih =>
    intro argv fuel i x s hg hdrop hfuel
    have hg1 := hg g (List.mem_cons_self _ _)
    have hrest : ∀ g' ∈ rest, plain_group g' := fun g' h' => hg g' (List.mem_cons_of_mem _ h')
    simp only [group_atoms, List.length_cons, List.length_append] at hfuel
    cases fuel with
    | zero => omega
    | succ f =>
      rw [parse_group_step argv f i x s g (group_atoms rest) hg1 hdrop (group_atoms_tail rest hrest)]
      have hd2 : argv.drop (i + 1 + g.vals.length) = group_atoms rest := by
        have : argv.drop (i + 1 + g.vals.length) = (argv.drop i).drop (1 + g.vals.length) := by
          rw [List.drop_drop]; congr 1; omega
        rw [this, hdrop]
        simp only [group_atoms]
        rw [Nat.add_comm 1, List.drop_succ_cons, List.drop_left]
      rw [ih argv f (i + 1 + g.vals.length) x _ hrest hd2 (by omega)]
      simp

/-- C24 as written fails for integers outside the range of C `int` and for
floats that are no C `float`: the group `@foo 4294967296` is a plain group,
and the property foo is set to the integer vector [0], not to [4294967296];
the group `@scale 0.1` is a plain group, and the property scale is set to the
float vector [13421773/134217728], the `float` nearest to 0.1. -/
theorem forwarded_integer_wraps :
    plain_group { key := "@foo", vals := [.A_LONG 4294967296] }
    ∧ (mpr_in_parse_extra_properties (fresh_mpr_in 8 "pos" 'f' 2 [])
        [.A_SYM "@foo", .A_LONG 4294967296] fresh_signal).2.props
      = [{ key := .named "foo", type := 'i', value := [.i 0] }]
    ∧ plain_group { key := "@scale", vals := [.A_FLOAT one_tenth] }
    ∧ (mpr_in_parse_extra_properties (fresh_mpr_in 8 "pos" 'f' 2 [])
        [.A_SYM "@scale", .A_FLOAT one_tenth] fresh_signal).2.props
      = [{ key := .named "scale", type := 'f', value := [.f one_tenth_float] }] := by
  decide

/-- C24 (amended): for every argument list made of plain groups
`@key v1 ... vn`, `parse_extra_properties` of `mpr.in.c` leaves the endpoint
as it is and adds to the signal, for each group in order, exactly one
property: named by the key without the leading '@', of type s, f or i after
the values, holding v1..vn in order, each symbol as given, each integer
reduced to the range of C `int` modulo 2^32 and each float (of finite `float`
magnitude) narrowed to the nearest C `float`, ties to even; nothing else of
the signal changes. -/
theorem plain_groups_forwarded (x : t_mpr_in) (s : mpr_sig) (gs : List t_group)
    (h : ∀ g ∈ gs, plain_group g) :
    mpr_in_parse_extra_properties x (group_atoms gs) s
      = (x, { s with props := s.props ++ gs.map expected_prop })
    ∧ ∀ g ∈ gs, (expected_prop g).key = .named (str_tail g.key)
        ∧ List.Forall₂ (forwarded_atom (expected_prop g).type) g.vals (expected_prop g).value := by
  constructor
  · unfold mpr_in_parse_extra_properties
    exact parse_groups_aux gs (group_atoms gs) (group_atoms gs).length 0 x s h rfl (le_refl _)
  · intro g hg
    exact expected_prop_forwarded g (h g hg)

/-- C24 (witness): the groups `@foo 1 2`, `@unit Hz`, `@scale 0.5` set the
properties foo = [1, 2] (int), unit = [Hz] (symbol), scale = [0.5] (float). -/
theorem plain_groups_forwarded_witness :
    (∀ g ∈ three_groups, plain_group g)
    ∧ group_atoms three_groups
        = [.A_SYM "@foo", .A_LONG 1, .A_LONG 2, .A_SYM "@unit", .A_SYM "Hz",
           .A_SYM "@scale", .A_FLOAT one_half]
    ∧ three_groups.map expected_prop
        = [{ key := .named "foo", type := 'i', value := [.i 1, .i 2] },
           { key := .named "unit", type := 's', value := [.s "Hz"] },
           { key := .named "scale", type := 'f', value := [.f one_half] }]
    ∧ mpr_in_parse_extra_properties (fresh_mpr_in 8 "pos" 'f' 2 []) (group_atoms three_groups)
          fresh_signal
        = (fresh_mpr_in 8 "pos" 'f' 2 [],
           { fresh_signal with props := fresh_signal.props ++ three_groups.map expected_prop }) :=
  ⟨by decide, by decide, by decide,
    (plain_groups_forwarded (fresh_mpr_in 8 "pos" 'f' 2 []) fresh_signal three_groups
      (by decide)).1⟩

end MapperMax
